import Mathlib

/-!
# Nim (praihan/nim): the game engine of `src/nim/src/Application.cc`

A shallow embedding of the `Pile` counter, of `NimImpl` (turn handling and the
CPU strategy) and of the console commands, followed by theorems about them.

Conventions of the embedding
* `std::string` is `String`; `vector<string>` is `List String`.
* `int32` values are `Int`.  No arithmetic of the program leaves the 32-bit
  range on the states considered (pile counts are compared against `[0, 20]`
  before they are stored), so no wrap-around is modelled.
* A method of `NimImpl` that mutates `*this` is a function `NimImpl → NimImpl`,
  or `NimImpl → Except Fault NimImpl` when it can stop the program.
* Everything written to `cout` is appended to the field `Out`, one list
  element per output statement of the source.
* `Piles[j]` with `j` outside `0..2` has no defined behaviour in C++; the
  embedding stops there with `Fault.outOfBounds j`.  The program itself has no
  bounds check and goes on with whatever lies behind the array, so a result
  `Fault.outOfBounds j` says where a run leaves defined behaviour, not how the
  program ends.
* The recursion `NextTurn → StartTurn → CPUTurn → NextTurn` carries a call
  budget; `Fault.fuel` reports that the budget ran out.
-/

namespace Nim

/-! ## Constants -/

def PILE_MAX : Int := 20
def PILE_MIN : Int := 10

def CONSOLE_WIDTH : Nat := 80
def DESCRIPTION_WIDTH : Nat := 50

def ERR_GENERIC : String := "Error"
def ERR_SYNTAX : String := "SyntaxError"
def ERR_ARGUMENT : String := "ArgumentError"
def ERR_RANGE : String := "RangeError"

/-- The width of the bit register of `CPUTurn` (`#define BITSET_MAX 5`). -/
def BITSET_MAX : Nat := 5

/-! ## Faults and the environment -/

/-- Ways an execution stops without returning to its caller. -/
inductive Fault where
  /-- a `NIM_ASSERT` found its condition false -/
  | assertion
  /-- `Piles[index]` was accessed with `index` outside `0..2` -/
  | outOfBounds (index : Int)
  /-- the call budget of the embedding ran out -/
  | fuel
deriving DecidableEq, Repr

deriving instance DecidableEq for Except

/-- Modelled from the spec: `NIM_ASSERT` of `nim/nim_Assert.h`, which is not among
the sources.  A violated bound is a fatal fault: the program stops. -/
def NIM_ASSERT (cond : Bool) : Except Fault Unit :=
  if cond then .ok () else .error .assertion

/-- The parts of the program that are not in `Application.cc`:
`numerics::parse_integral<int32>` of `parse.hpp`, the values returned by the
successive calls of `::rand()`, and the text of `how2play.txt`. -/
structure Env where
  /-- `parse_integral<int32>(str, &out)`: `some v` when it returns true with `out = v` -/
  parse_integral : String → Option Int
  /-- `rand k` is the value of the `k`-th call of `::rand()` (counted from 0) -/
  rand : Nat → Nat
  /-- the string included from `how2play.txt` -/
  HOW2PLAY : String

/-! ## Pile -/

/-- `struct Pile`: the private member `count`. -/
structure Pile where
  count : Int
deriving DecidableEq, Repr

namespace Pile

/-- `Pile::Pile(int32 new_count)`. -/
def mk32 (new_count : Int) : Except Fault Pile := do
  NIM_ASSERT (decide (new_count ≥ 0) && decide (new_count ≤ PILE_MAX))
  pure ⟨new_count⟩

/-- `Pile& Pile::operator =(int32 new_count)`. -/
def assign32 (_self : Pile) (new_count : Int) : Except Fault Pile := do
  NIM_ASSERT (decide (new_count ≥ 0))
  pure ⟨new_count⟩

/-- `Pile& Pile::operator =(const Pile& other)`. -/
def assign (_self : Pile) (other : Pile) : Pile := ⟨other.count⟩

/-- `Pile& Pile::operator --()`. -/
def preDec (self : Pile) : Except Fault Pile := do
  let count := self.count - 1
  NIM_ASSERT (decide (count ≥ 0))
  pure ⟨count⟩

/-- `Pile& Pile::operator ++()`. -/
def preInc (self : Pile) : Except Fault Pile := do
  let count := self.count + 1
  NIM_ASSERT (decide (count ≤ PILE_MAX))
  pure ⟨count⟩

/-- `Pile Pile::operator --(int32)`: the new value of `*this` and the returned copy. -/
def postDec (self : Pile) : Except Fault (Pile × Pile) := do
  let p ← mk32 self.count
  let count := self.count - 1
  NIM_ASSERT (decide (count ≥ 0))
  pure (⟨count⟩, p)

/-- `Pile Pile::operator ++(int32)`: the new value of `*this` and the returned copy. -/
def postInc (self : Pile) : Except Fault (Pile × Pile) := do
  let p ← mk32 self.count
  let count := self.count + 1
  NIM_ASSERT (decide (count ≤ PILE_MAX))
  pure (⟨count⟩, p)

/-- `Pile& Pile::operator -=(int32 diff)`. -/
def subAssign (self : Pile) (diff : Int) : Except Fault Pile := do
  let count := self.count - diff
  NIM_ASSERT (decide (count ≥ 0) && decide (count ≤ PILE_MAX))
  pure ⟨count⟩

/-- `Pile& Pile::operator -=(const Pile& other)`. -/
def subAssignPile (self : Pile) (other : Pile) : Except Fault Pile :=
  self.subAssign other.count

/-- `Pile& Pile::operator +=(int32 diff)`. -/
def addAssign (self : Pile) (diff : Int) : Except Fault Pile := do
  let count := self.count + diff
  NIM_ASSERT (decide (count ≥ 0) && decide (count ≤ PILE_MAX))
  pure ⟨count⟩

/-- `Pile& Pile::operator +=(const Pile& other)`. -/
def addAssignPile (self : Pile) (other : Pile) : Except Fault Pile :=
  self.addAssign other.count

/-- `bool Pile::operator ==(int32 other_count) const`. -/
def eq32 (self : Pile) (other_count : Int) : Bool := decide (self.count = other_count)

/-- `bool Pile::operator ==(const Pile& other) const`. -/
def eqPile (self : Pile) (other : Pile) : Bool := decide (self.count = other.count)

/-- `int32 Pile::Count() const`. -/
def Count (self : Pile) : Int := self.count

/-- `Pile::operator int32() const`. -/
def toInt32 (self : Pile) : Int := self.count

/-- `void Pile::Rnd()`, given the value `r` returned by `::rand()`. -/
def Rnd (_self : Pile) (r : Nat) : Pile :=
  ⟨PILE_MIN + ((r : Int) % (PILE_MAX - PILE_MIN))⟩

/-- `Pile::Pile()`, given the value `r` returned by `::rand()`. -/
def mkRnd (r : Nat) : Pile := Rnd ⟨0⟩ r

end Pile

/-! ## Utils -/

/-- The characters `operator>>` skips between words (`isspace` in the C locale). -/
def isSpace (c : Char) : Bool :=
  c = ' ' || c = '\t' || c = '\n' || c = '\x0b' || c = '\x0c' || c = '\r'

/-- The loop `while (ss >> item) elems.push_back(item)` over the characters still to
be read; `cur` holds the characters of the word being read, last one first. -/
def splitChars : List Char → List Char → List String
  | [], cur => if cur.isEmpty then [] else [String.mk cur.reverse]
  | c :: cs, cur =>
    if isSpace c then
      if cur.isEmpty then splitChars cs [] else String.mk cur.reverse :: splitChars cs []
    else splitChars cs (c :: cur)

/-- `split(s)`: the whitespace-separated words of `s`. -/
def split (s : String) : List String := splitChars s.data []

/-- `::tolower` in the C locale. -/
def tolower (c : Char) : Char :=
  if 'A' ≤ c ∧ c ≤ 'Z' then Char.ofNat (c.toNat + 32) else c

/-- `lowercase(s)`. -/
def lowercase (s : String) : String := String.mk (s.data.map tolower)

/-- `a - b` on `size_t`. -/
def size_sub (a b : Nat) : Nat := (a + 2 ^ 64 - b % 2 ^ 64) % 2 ^ 64

/-- The statement `if (len < line_length) str.insert(len, line_length - len, ' ')`. -/
def padRight (str : String) (line_length : Nat) : String :=
  if str.length < line_length then
    str ++ String.mk (List.replicate (line_length - str.length) ' ')
  else str

/-- The `while (words >> word)` loop of `word_wrap_fill` and the statements after it. -/
def word_wrap_loop (line_length : Nat) : List String → String → Nat → List String
  | [], line, _ => [padRight line line_length]
  | word :: words, line, space_left =>
    if space_left < word.length + 1 then
      padRight line line_length ::
        word_wrap_loop line_length words word (size_sub line_length word.length)
    else
      word_wrap_loop line_length words (line ++ " " ++ word)
        (size_sub space_left (word.length + 1))

/-- `word_wrap_fill(text, line_length)`. -/
def word_wrap_fill (text : String) (line_length : Nat) : List String :=
  match split text with
  | [] => []
  | word :: words =>
    word_wrap_loop line_length words word (size_sub line_length word.length)

/-- `print_err(err_type)`. -/
def print_err (err_type : String) : String := "> " ++ err_type ++ ": "

/-- `os << setw(w) << text` with right adjustment. -/
def setw (w : Nat) (text : String) : String :=
  String.mk (List.replicate (w - text.length) ' ') ++ text

/-- `os << n` for an `int32`. -/
def show32 (n : Int) : String := toString n

/-! ## NimImpl -/

/-- The array `Pile Piles[3]`. -/
abbrev Piles3 := Pile × Pile × Pile

namespace Piles3

/-- Reading element `j` of the array. -/
def get (P : Piles3) (j : Int) : Except Fault Pile :=
  if j = 0 then .ok P.1
  else if j = 1 then .ok P.2.1
  else if j = 2 then .ok P.2.2
  else .error (.outOfBounds j)

/-- Storing `p` into element `j` of the array. -/
def set (P : Piles3) (j : Int) (p : Pile) : Except Fault Piles3 :=
  if j = 0 then .ok (p, P.2.1, P.2.2)
  else if j = 1 then .ok (P.1, p, P.2.2)
  else if j = 2 then .ok (P.1, P.2.1, p)
  else .error (.outOfBounds j)

end Piles3

/-- `struct NimImpl`.  `Cmd` (the copy of `argv`) is never read and is left out.
The `tinyConsole` behind `Console` is represented by what the engine does to it:
`Prompt` is the text given to `setPrompt`, `ConsoleQuit` is set by `quit()`.
`Color` records the palette name last handed to `rlutil::setColor`. -/
structure NimImpl where
  Piles : Piles3
  Player1Turn : Bool
  CPU : Bool
  Player1Name : String
  Player2Name : String
  CPUName : String
  Quit : Bool
  Prompt : String
  ConsoleQuit : Bool
  Color : String
  /-- what has been written to `cout`, oldest first -/
  Out : List String
  /-- the number of calls of `::rand()` made so far -/
  RandCalls : Nat
deriving DecidableEq, Repr

namespace NimImpl

/-- Reading `Piles[j]`. -/
def getPile (s : NimImpl) (j : Int) : Except Fault Pile := s.Piles.get j

/-- Storing `p` into `Piles[j]`. -/
def setPile (s : NimImpl) (j : Int) (p : Pile) : Except Fault NimImpl := do
  let P ← s.Piles.set j p
  pure { s with Piles := P }

/-- One statement `cout << ...;` writing `text`. -/
def print (s : NimImpl) (text : String) : NimImpl := { s with Out := s.Out ++ [text] }

/-- `void DecideTurn()`. -/
def DecideTurn (env : Env) (s : NimImpl) : NimImpl :=
  { s with Player1Turn := if env.rand s.RandCalls % 2 ≠ 0 then true else false,
           RandCalls := s.RandCalls + 1 }

/-- `void SwitchTurn()`. -/
def SwitchTurn (s : NimImpl) : NimImpl :=
  { s with Player1Turn := xor s.Player1Turn true }

/-- `void SetCurrentPlayerName(const string& prompt)`. -/
def SetCurrentPlayerName (s : NimImpl) (prompt : String) : NimImpl :=
  if s.Player1Turn then { s with Player1Name := prompt } else { s with Player2Name := prompt }

/-- `const string& GetCurrentPlayerName() const`. -/
def GetCurrentPlayerName (s : NimImpl) : String :=
  if s.Player1Turn then s.Player1Name else s.Player2Name

/-- `void Rnd()`. -/
def Rnd (env : Env) (s : NimImpl) : NimImpl :=
  { s with Piles := (s.Piles.1.Rnd (env.rand s.RandCalls),
                     s.Piles.2.1.Rnd (env.rand (s.RandCalls + 1)),
                     s.Piles.2.2.Rnd (env.rand (s.RandCalls + 2))),
           RandCalls := s.RandCalls + 3 }

/-- `void UpdatePrompt()`. -/
def UpdatePrompt (s : NimImpl) : NimImpl :=
  { s with Prompt := s.GetCurrentPlayerName ++ "> " }

/-- `operator <<(ostream&, const NimImpl&)`: the text it writes. -/
def format (s : NimImpl) : String :=
  "  " ++ show32 s.Piles.1.toInt32 ++ "  " ++ show32 s.Piles.2.1.toInt32 ++ "  "
    ++ show32 s.Piles.2.2.toInt32

/-- `void ShowPiles()`. -/
def ShowPiles (s : NimImpl) : NimImpl := s.print (s.format ++ "\n")

/-- `bool GameOver() const`. -/
def GameOver (s : NimImpl) : Bool :=
  s.Piles.1.eq32 0 && s.Piles.2.1.eq32 0 && s.Piles.2.2.eq32 0

/-- `void CPUTake(int32 num, int32 pile)`. -/
def CPUTake (s : NimImpl) (num : Int) (pile : Int) : Except Fault NimImpl := do
  let s := s.print (s.CPUName ++ "> " ++ "take " ++ show32 num ++ " from " ++ show32 (pile + 1)
    ++ "\n")
  let p ← s.getPile pile
  let p ← p.subAssign num
  s.setPile pile p

end NimImpl

/-! ### The bit register of `CPUTurn` -/

/-- `std::bitset<BITSET_MAX>`, represented by the number its bits spell. -/
abbrev bitset := Nat

namespace bitset

/-- `bitset<BITSET_MAX>(val)`: the low `BITSET_MAX` bits of `val`. -/
def ofInt32 (val : Int) : bitset := (val % 2 ^ BITSET_MAX).toNat

/-- `b.set(i, v)`. -/
def set (b : bitset) (i : Nat) (v : Bool) : bitset :=
  if v then b ||| 2 ^ i else b ^^^ (b &&& 2 ^ i)

/-- `b.test(i)`. -/
def test (b : bitset) (i : Nat) : Bool := Nat.testBit b i

/-- `a ^ b`. -/
def xor (a b : bitset) : bitset := a ^^^ b

/-- `b.to_ulong()`. -/
def to_ulong (b : bitset) : Nat := b

end bitset

/-- `(v >> i) & 1` on an `int32`. -/
def bitAt (v : Int) (i : Nat) : Int := (v >>> i) % 2

namespace NimImpl

/-- The first loop of `CPUTurn` over the bit positions still to visit:
`state.set(i, odd number of piles with bit i)`. -/
def CPUTurn_parity (P : Piles3) : List Nat → bitset → Except Fault bitset
  | [], state => .ok state
  | i :: rest, state => do
    let p0 ← P.get 0
    let p1 ← P.get 1
    let p2 ← P.get 2
    CPUTurn_parity P rest
      (state.set i (decide ((bitAt p0.toInt32 i + bitAt p1.toInt32 i + bitAt p2.toInt32 i) % 2 ≠ 0)))

/-- The loop `for (auto j = 0; j < (BITSET_MAX - 1); ++j)` of `CPUTurn` for the bit `i`,
over the indices still to visit.  The result carries `move_made`. -/
def CPUTurn_scanPiles (s : NimImpl) (state : bitset) (i : Nat) :
    List Nat → Except Fault (NimImpl × Bool)
  | [] => .ok (s, false)
  | j :: rest => do
    let pj ← s.getPile j
    if bitAt pj.toInt32 i ≠ 0 then
      let target := (bitset.xor state (bitset.ofInt32 pj.toInt32)).to_ulong
      let s ← s.CPUTake (pj.toInt32 - (target : Int)) j
      pure (s, true)
    else CPUTurn_scanPiles s state i rest

/-- The loop `for (auto i = (BITSET_MAX - 1); i >= 0; --i)` of `CPUTurn` that looks for
the highest set bit of `state`, over the bit positions still to visit. -/
def CPUTurn_scanBits (s : NimImpl) (state : bitset) : List Nat → Except Fault (NimImpl × Bool)
  | [] => .ok (s, false)
  | i :: rest =>
    if state.test i then CPUTurn_scanPiles s state i (List.range (BITSET_MAX - 1))
    else CPUTurn_scanBits s state rest

/-- The loop `for (auto j = 1; j < (BITSET_MAX - 1); ++j)` of the fallback of `CPUTurn`,
over the indices still to visit; the result is `max_index`.  The source has no bounds
check: at `j = 3` it reads the `int32` stored behind the array and goes on with it.  C++
defines no behaviour for that read, and the embedding stops at it (`Piles3.get`). -/
def CPUTurn_maxIndex (P : Piles3) : List Nat → Nat → Except Fault Nat
  | [], max_index => .ok max_index
  | j :: rest, max_index => do
    let pj ← P.get j
    let pmax ← P.get max_index
    CPUTurn_maxIndex P rest (if pj.toInt32 > pmax.toInt32 then j else max_index)

/-- The body of `CPUTurn` up to, and without, its last statement `NextTurn()`. -/
def CPUTurn_move (s : NimImpl) : Except Fault NimImpl := do
  let state ← CPUTurn_parity s.Piles (List.range BITSET_MAX).reverse 0
  let (s, move_made) ← CPUTurn_scanBits s state (List.range BITSET_MAX).reverse
  if !move_made then
    let max_index ← CPUTurn_maxIndex s.Piles (List.range' 1 (BITSET_MAX - 1 - 1)) 0
    s.CPUTake 1 max_index
  else pure s

/-- The branch of `NextTurn` taken when `GameOver()` holds. -/
def announceWinner (s : NimImpl) : NimImpl :=
  let s :=
    if s.Player1Turn || !s.CPU then
      s.print ("  Congratulations, " ++ s.GetCurrentPlayerName ++ "! You have won!")
    else s.print "  The CPU has won the game."
  let s := s.print "\n\n"
  { s with ConsoleQuit := true }

mutual

/-- `void StartTurn()`, with a budget of nested calls. -/
def StartTurn : Nat → NimImpl → Except Fault NimImpl
  | 0, _ => .error .fuel
  | fuel + 1, s =>
    let s := s.UpdatePrompt
    let s := s.ShowPiles
    if s.CPU && !s.Player1Turn then CPUTurn fuel s else .ok s

/-- `void CPUTurn()`, with a budget of nested calls. -/
def CPUTurn : Nat → NimImpl → Except Fault NimImpl
  | 0, _ => .error .fuel
  | fuel + 1, s => do
    let s ← s.CPUTurn_move
    NextTurn fuel s

/-- `void NextTurn()`, with a budget of nested calls. -/
def NextTurn : Nat → NimImpl → Except Fault NimImpl
  | 0, _ => .error .fuel
  | fuel + 1, s =>
    if s.GameOver then .ok s.announceWinner
    else StartTurn fuel s.SwitchTurn

end

/-- The budget of nested calls the entry points start with; `turnFuel_enough` below
shows that it is never used up. -/
def turnFuel : Nat := 8

/-- `void Restart()`. -/
def Restart (env : Env) (s : NimImpl) : Except Fault NimImpl :=
  StartTurn turnFuel ((s.Rnd env).DecideTurn env)

end NimImpl

/-! ## Commands -/

/-- `struct ConsoleCmdDesc`. -/
structure ConsoleCmdDesc where
  /-- syntax for invoking command -/
  Syntax : String
  /-- lines of description for using command -/
  Description : List String

/-- `ConsoleCmdDescs` as `Run` leaves it: a `std::map`, so ordered by key, every
description replaced by its wrapped lines (`WordWrapSetUp`). -/
def ConsoleCmdDescs : List (String × ConsoleCmdDesc) :=
  [ ("color", ⟨"color <color>", "Sets the font color to <color> (one of \x7bblue, green, cyan, red, magenta, brown, grey, darkgrey, lightblue, lightgreen, lightcyan, lightred, lightmagenta, yellow, white\x7d (case-insensitive))."⟩),
    ("exit", ⟨"exit", "Exit the entire program."⟩),
    ("help", ⟨"help [command_name]...", "Display the help screen (or the help for specified commands only)."⟩),
    ("how2play", ⟨"how2play", "Print rules of the game and how to play NIM with this program."⟩),
    ("name", ⟨"name <name>", "Set your name to <name>. Special characters and spaces are allowed (case-sensitive)."⟩),
    ("restart", ⟨"restart [cpu|human]", "Restart game with either CPU or human opponent."⟩),
    ("rq", ⟨"rq", "Ragequit."⟩),
    ("show", ⟨"show [pile]...", "Show the piles (or the specified piles in the order of [pile], and valid pile is one of \x7b1,2,3\x7d corresponding to the pile number)"⟩),
    ("take", ⟨"[take] <number> [from] <pile>", "Take <number> of chips (in range [1, pile length]) from <pile>-th pile (in range [1, 3])."⟩)
  ].map fun (e : String × String × String) =>
    (e.1, ⟨e.2.1, word_wrap_fill e.2.2 DESCRIPTION_WIDTH⟩)

/-- The keys of `ColorsMap`. -/
def ColorsMap : List String :=
  ["black", "blue", "green", "cyan", "red", "magenta", "brown", "grey", "darkgrey",
   "lightblue", "lightgreen", "lightcyan", "lightred", "lightmagenta", "yellow", "white"]

/-- The `for (const auto& line : desc_lines)` loop of `PrintHelpForCmd`. -/
def PrintHelpLines : List String → Nat → NimImpl → NimImpl
  | [], _, s => s
  | line :: rest, syntax_len, s =>
    PrintHelpLines rest 0 (s.print (setw (CONSOLE_WIDTH - 1 - syntax_len) line ++ "\n"))

/-- `PrintHelpForCmd(desc_item)`. -/
def PrintHelpForCmd (s : NimImpl) (desc_item : ConsoleCmdDesc) : NimImpl :=
  let s := s.print ("  " ++ desc_item.Syntax)
  let syntax_len := (desc_item.Syntax.length + 2) % CONSOLE_WIDTH
  let (s, syntax_len) :=
    if syntax_len ≥ CONSOLE_WIDTH - DESCRIPTION_WIDTH - 1 then (s.print "\n", 0)
    else (s, syntax_len)
  let s := PrintHelpLines desc_item.Description syntax_len s
  s.print "\n"

/-- The loop `for (auto i = unsigned(1); i < arg_count; ++i)` of `CmdHelp`, over the
arguments still to visit. -/
def CmdHelp_args : List String → NimImpl → NimImpl
  | [], s => s
  | parts_i :: rest, s =>
    let arg := lowercase parts_i
    match ConsoleCmdDescs.find? (fun e => e.1 == arg) with
    | none =>
      CmdHelp_args rest
        (s.print (print_err ERR_SYNTAX ++ "  Command \x27" ++ arg ++ "\x27 not found\n"))
    | some e => CmdHelp_args rest (PrintHelpForCmd s e.2)

/-- `CmdHelp(nimpl, parts)`. -/
def CmdHelp (_env : Env) (s : NimImpl) (parts : List String) : Except Fault NimImpl :=
  let arg_count := parts.length
  if arg_count = 1 then
    .ok (ConsoleCmdDescs.foldl (fun s elem => PrintHelpForCmd s elem.2) s)
  else
    if arg_count = 2 ∧ lowercase (parts.getD 1 "") = "me" then
      .ok (s.print "  You\x27re on your own buddy.\n")
    else .ok (CmdHelp_args (parts.drop 1) s)

/-- The loop `for (auto i = unsigned(1); i < arg_count; ++i)` of `CmdShow`, over the
arguments still to visit; `output_stream` is the text buffered so far.  The result is
the text written to `cout`. -/
def CmdShow_args (env : Env) (s : NimImpl) : List String → String → Except Fault String
  | [], output_stream =>
    let output := output_stream
    .ok ("  " ++ String.mk (output.data.take (output.length - 2)) ++ "\n")
  | arg :: rest, output_stream =>
    match env.parse_integral arg with
    | none => .ok (print_err ERR_ARGUMENT ++ "Could not parse \x27" ++ arg ++ "\x27 as an integer.\n")
    | some val =>
      if val < 1 ∨ val > 3 then
        .ok (print_err ERR_RANGE ++ "Expected <pile> in range [1, 3], got \x27" ++ show32 val
          ++ "\x27.\n")
      else do
        let p ← s.getPile (val - 1)
        CmdShow_args env s rest (output_stream ++ show32 p.toInt32 ++ "  ")

/-- `CmdShow(nimpl, parts)`. -/
def CmdShow (env : Env) (s : NimImpl) (parts : List String) : Except Fault NimImpl :=
  let arg_count := parts.length
  if arg_count = 1 then .ok s.ShowPiles
  else do
    let text ← CmdShow_args env s (parts.drop 1) ""
    pure (s.print text)

/-- The statements of `CmdTake` from `int32 number;` on, that is after its checks of the
number of arguments; `number_string` is `parts[1]`. -/
def CmdTake_checked (env : Env) (s : NimImpl) (number_string pile_string : String) :
    Except Fault NimImpl :=
  match env.parse_integral number_string with
  | none =>
    .ok (s.print (print_err ERR_ARGUMENT ++ "Could not parse \x27" ++ number_string
      ++ "\x27 as an integer.\n"))
  | some number =>
    match env.parse_integral pile_string with
    | none =>
      .ok (s.print (print_err ERR_ARGUMENT ++ "Could not parse \x27" ++ pile_string
        ++ "\x27 as an integer.\n"))
    | some pile_index =>
      if pile_index < 1 ∨ pile_index > 3 then
        .ok (s.print (print_err ERR_RANGE ++ "Expected <pile> in range [1, 3], got \x27"
          ++ show32 pile_index ++ "\x27.\n"))
      else do
        let pile ← s.getPile (pile_index - 1)
        if pile.eq32 0 then
          pure (s.print (print_err ERR_RANGE ++ "Pile " ++ show32 pile_index ++ " is empty.\n"))
        else if number < 1 ∨ number > pile.toInt32 then
          pure (s.print (print_err ERR_RANGE ++
            "Expected <number> in range [1, pile length (" ++ show32 pile.toInt32
            ++ ")], got \x27" ++ show32 number ++ "\x27.\n"))
        else do
          let pile ← pile.subAssign number
          let s ← s.setPile (pile_index - 1) pile
          s.NextTurn NimImpl.turnFuel

/-- `CmdTake(nimpl, parts)`. -/
def CmdTake (env : Env) (s : NimImpl) (parts : List String) : Except Fault NimImpl :=
  let arg_count := parts.length
  if arg_count = 1 then
    .ok (s.print (print_err ERR_ARGUMENT ++
      "Arguments <number> AND <pile> not found. Type \x27help take\x27 for usage details.\n"))
  else if arg_count = 2 then
    .ok (s.print (print_err ERR_ARGUMENT ++
      "Argument <pile> not found. Type \x27help take\x27 for usage details.\n"))
  else
    let parts2 := lowercase (parts.getD 2 "")
    let has_from := decide (parts2 = "from")
    if arg_count ≥ 4 + (if has_from then 1 else 0) then
      .ok (s.print (print_err ERR_ARGUMENT ++
        "Too many arguments. Type \x27help take\x27 for usage details.\n"))
    else if has_from ∧ arg_count = 3 then
      .ok (s.print (print_err ERR_ARGUMENT ++
        "Argument <pile> not found. Type \x27help take\x27 for usage details.\n"))
    else
      CmdTake_checked env s (parts.getD 1 "")
        (if has_from then parts.getD 3 "" else parts.getD 2 "")

/-- The loop `for (auto i = unsigned(1); i < arg_count; ++i) name += parts[i] + " "` of
`CmdName`, over the arguments still to visit. -/
def CmdName_join : List String → String → String
  | [], name => name
  | parts_i :: rest, name => CmdName_join rest (name ++ (parts_i ++ " "))

/-- `CmdName(nimpl, parts)`. -/
def CmdName (_env : Env) (s : NimImpl) (parts : List String) : Except Fault NimImpl :=
  let arg_count := parts.length
  if arg_count = 1 then
    .ok (s.print (print_err ERR_ARGUMENT ++
      "Argument <name> not found. Type \x27help name\x27 for usage details.\n"))
  else
    let name := CmdName_join (parts.drop 1) ""
    let s := s.SetCurrentPlayerName (String.mk (name.data.take (name.length - 1)))
    .ok s.UpdatePrompt

/-- `CmdHow2Play(nimpl, parts)`. -/
def CmdHow2Play (env : Env) (s : NimImpl) (_parts : List String) : Except Fault NimImpl :=
  .ok (s.print (env.HOW2PLAY ++ "\n"))

/-- `CmdRestart(nimpl, parts)`. -/
def CmdRestart (env : Env) (s : NimImpl) (parts : List String) : Except Fault NimImpl :=
  let arg_count := parts.length
  if arg_count = 1 then .ok { s.print "\n" with ConsoleQuit := true }
  else if arg_count > 2 then
    .ok (s.print (print_err ERR_ARGUMENT ++ "Expected only 1 argument, one of \x7bcpu,human\x7d.\n"))
  else
    let opponent_type := lowercase (parts.getD 1 "")
    if opponent_type = "human" then
      ({ s with CPU := false }.print "----\n").Restart env
    else if opponent_type = "cpu" then
      ({ s with CPU := true }.print "----\n").Restart env
    else
      .ok (s.print (print_err ERR_ARGUMENT ++ "Expected one of \x7bcpu,human\x7d. Got \x27"
        ++ opponent_type ++ "\x27.\n"))

/-- `CmdExit(nimpl, parts)`. -/
def CmdExit (_env : Env) (s : NimImpl) (_parts : List String) : Except Fault NimImpl :=
  .ok { s with ConsoleQuit := true, Quit := true }

/-- `CmdRq(nimpl, parts)`. -/
def CmdRq (env : Env) (s : NimImpl) (parts : List String) : Except Fault NimImpl :=
  CmdExit env s parts

/-- `CmdColor(nimpl, parts)`. -/
def CmdColor (_env : Env) (s : NimImpl) (parts : List String) : Except Fault NimImpl :=
  let arg_count := parts.length
  if arg_count = 1 then
    .ok (s.print (print_err ERR_ARGUMENT ++
      "Argument <color> not found. Type \x27help color\x27 for usage details.\n"))
  else if arg_count > 2 then
    .ok (s.print (print_err ERR_ARGUMENT ++
      "Too many arguments. Type \x27help take\x27 for usage details.\n"))
  else
    let color_name := lowercase (parts.getD 1 "")
    match ColorsMap.find? (fun k => k == color_name) with
    | none =>
      .ok (s.print (print_err ERR_ARGUMENT ++ "Could not find color named \x27" ++ color_name
        ++ "\x27. Type \x27help color\x27 for usage details.\n"))
    | some name => .ok { s with Color := name }

/-- `struct ConsoleCmd`. -/
structure ConsoleCmd where
  Name : String
  Callback : Env → NimImpl → List String → Except Fault NimImpl

/-- `Commands`, without its terminating entry `{ "", nullptr }`. -/
def Commands : List ConsoleCmd :=
  [ ⟨"help", CmdHelp⟩, ⟨"show", CmdShow⟩, ⟨"take", CmdTake⟩, ⟨"name", CmdName⟩,
    ⟨"how2play", CmdHow2Play⟩, ⟨"restart", CmdRestart⟩, ⟨"exit", CmdExit⟩, ⟨"rq", CmdRq⟩,
    ⟨"color", CmdColor⟩ ]

/-- The loop `for (auto i = 0;; ++i)` of `NimConsole::trigger`, over the entries of
`Commands` still to visit; `parts` already has its first word in lower case. -/
def trigger_loop (env : Env) (s : NimImpl) (parts : List String) :
    List ConsoleCmd → Except Fault NimImpl
  | [] =>
    let cmd_name := parts.getD 0 ""
    match env.parse_integral cmd_name with
    | some _ => CmdTake env s ("take" :: parts)
    | none =>
      .ok (s.print (print_err ERR_SYNTAX ++ "Command \x27" ++ cmd_name
        ++ "\x27 not found. Type \x27help\x27 for list of available commands.\n"))
  | cmd :: rest =>
    if cmd.Name = parts.getD 0 "" then cmd.Callback env s parts
    else trigger_loop env s parts rest

/-- `NimConsole::trigger(s)` on the game `game`. -/
def trigger (env : Env) (game : NimImpl) (s : String) : Except Fault NimImpl :=
  match split s with
  | [] => .ok game
  | cmd_name :: rest => trigger_loop env game (lowercase cmd_name :: rest) Commands

/-- Modelled from the spec: `tinyConsole::run` of `tinycon.h`, which is not among the
sources.  Each line read is handed to `trigger`, until `quit()` has been called
("ends the interactive loop"); `lines` are the lines typed. -/
def run (env : Env) : NimImpl → List String → Except Fault NimImpl
  | game, [] => .ok game
  | game, line :: lines =>
    if game.ConsoleQuit then .ok game
    else do
      let game ← trigger env game line
      run env game lines

/-! ## Vocabulary of the statements -/

/-- The three counts of the array, in index order. -/
def pileCounts (P : Piles3) : List Int := [P.1.count, P.2.1.count, P.2.2.count]

/-- The nim-sum of a position: the bitwise XOR of its three pile counts. -/
def nimSum (P : Piles3) : Nat :=
  P.1.count.toNat ^^^ P.2.1.count.toNat ^^^ P.2.2.count.toNat

/-- Every pile count lies in `[0, PILE_MAX]`. -/
def PilesInRange (P : Piles3) : Prop :=
  (0 ≤ P.1.count ∧ P.1.count ≤ PILE_MAX) ∧ (0 ≤ P.2.1.count ∧ P.2.1.count ≤ PILE_MAX) ∧
    (0 ≤ P.2.2.count ∧ P.2.2.count ≤ PILE_MAX)

instance (P : Piles3) : Decidable (PilesInRange P) := by
  unfold PilesInRange; infer_instance

/-- Bit `i` is the highest set bit of `n`. -/
def IsHighestBit (n i : Nat) : Prop := 2 ^ i ≤ n ∧ n < 2 ^ (i + 1)

instance (n i : Nat) : Decidable (IsHighestBit n i) := by
  unfold IsHighestBit; infer_instance

/-- The line `CPUTake(num, pile)` writes. -/
def cpuTakeLine (s : NimImpl) (num pile : Int) : String :=
  s.CPUName ++ "> " ++ "take " ++ show32 num ++ " from " ++ show32 (pile + 1) ++ "\n"

/-- The position with the three given counts. -/
def position (a b c : Nat) : Piles3 := (⟨a⟩, ⟨b⟩, ⟨c⟩)

/-! ### The choice of the main loop of `CPUTurn`, as a function of the piles -/

/-- The arguments `(num, pile)` with which `CPUTurn_scanPiles` calls `CPUTake`, if it
does. -/
def choice_scanPiles (P : Piles3) (state : bitset) (i : Nat) :
    List Nat → Except Fault (Option (Int × Int))
  | [] => .ok none
  | j :: rest => do
    let pj ← P.get j
    if bitAt pj.toInt32 i ≠ 0 then
      let target := (bitset.xor state (bitset.ofInt32 pj.toInt32)).to_ulong
      pure (some (pj.toInt32 - (target : Int), (j : Int)))
    else choice_scanPiles P state i rest

/-- The arguments `(num, pile)` with which `CPUTurn_scanBits` calls `CPUTake`, if it
does. -/
def choice_scanBits (P : Piles3) (state : bitset) : List Nat → Except Fault (Option (Int × Int))
  | [] => .ok none
  | i :: rest =>
    if state.test i then choice_scanPiles P state i (List.range (BITSET_MAX - 1))
    else choice_scanBits P state rest

/-- The arguments `(num, pile)` of the `CPUTake` of the main loop of `CPUTurn`, if there
is one. -/
def choice_main (P : Piles3) : Except Fault (Option (Int × Int)) := do
  let state ← NimImpl.CPUTurn_parity P (List.range BITSET_MAX).reverse 0
  choice_scanBits P state (List.range BITSET_MAX).reverse

/-- The highest set bit of a number below `2 ^ BITSET_MAX` (0 when there is none). -/
def topBit (n : Nat) : Nat :=
  ((List.range BITSET_MAX).reverse.find? fun i => n.testBit i).getD 0

/-! ### The `take` command as the specification words it -/

/-- The `(number, pile)` a `take` command asks for: after the command word come either
exactly two arguments `number pile`, or exactly three arguments `number from pile` whose
middle one is `from` in any letter case; `number` and `pile` both parse as integers. -/
def takeRequest (env : Env) (parts : List String) : Option (Int × Int) :=
  match parts with
  | [_, number, pile] =>
    (env.parse_integral number).bind fun n => (env.parse_integral pile).map fun k => (n, k)
  | [_, number, middle, pile] =>
    if lowercase middle = "from" then
      (env.parse_integral number).bind fun n => (env.parse_integral pile).map fun k => (n, k)
    else none
  | _ => none

/-- The command `parts` asks to take `number` from pile `pile` (1-indexed) and the request
is in order: `pile` is in `[1, 3]`, that pile holds `count` objects, `count` is not zero
and `1 ≤ number ≤ count`. -/
def TakeAccepted (env : Env) (s : NimImpl) (parts : List String) (number pile count : Int) :
    Prop :=
  takeRequest env parts = some (number, pile) ∧ 1 ≤ pile ∧ pile ≤ 3 ∧
    s.Piles.get (pile - 1) = .ok ⟨count⟩ ∧ count ≠ 0 ∧ 1 ≤ number ∧ number ≤ count

instance (env : Env) (s : NimImpl) (parts : List String) (number pile count : Int) :
    Decidable (TakeAccepted env s parts number pile count) := by
  unfold TakeAccepted; infer_instance

/-- An error line: `print_err(kind)` followed by a message. -/
def IsErrorLine (line : String) : Prop :=
  ∃ kind msg, (kind = ERR_SYNTAX ∨ kind = ERR_ARGUMENT ∨ kind = ERR_RANGE) ∧
    line = print_err kind ++ msg

/-- The invariant of `Pile`: the count lies in `[0, PILE_MAX]`. -/
def PileInRange (p : Pile) : Prop := 0 ≤ p.count ∧ p.count ≤ PILE_MAX

instance (p : Pile) : Decidable (PileInRange p) := by
  unfold PileInRange; infer_instance

/-! ### Lists of words -/

/-- The words `xs` written one after the other with `sep` between two neighbours. -/
def joinWith (sep : String) : List String → String
  | [] => ""
  | [x] => x
  | x :: y :: rest => x ++ sep ++ joinWith sep (y :: rest)

/-- The words `xs` written one after the other, each followed by `sep`. -/
def trailWith (sep : String) : List String → String
  | [] => ""
  | x :: rest => x ++ sep ++ trailWith sep rest

/-- The count of the pile the user calls `k`: piles are numbered from 1. -/
def pileNumbered (P : Piles3) (k : Int) : Int :=
  if k = 1 then P.1.count else if k = 2 then P.2.1.count else P.2.2.count

/-! ### Command resolution as the specification words it -/

/-- The handler of the fixed command called `name`, if `name` is one of the nine fixed
names. -/
def fixedHandler (name : String) :
    Option (Env → NimImpl → List String → Except Fault NimImpl) :=
  if name = "help" then some CmdHelp
  else if name = "show" then some CmdShow
  else if name = "take" then some CmdTake
  else if name = "name" then some CmdName
  else if name = "how2play" then some CmdHow2Play
  else if name = "restart" then some CmdRestart
  else if name = "exit" then some CmdExit
  else if name = "rq" then some CmdRq
  else if name = "color" then some CmdColor
  else none

/-- Command resolution, following the words of the specification: a line with no token
does nothing; otherwise the first token is lowercased and, if it is one of the nine fixed
names, that handler runs with the full token list; else if it parses as an integer the
take handler runs (on `take` followed by the tokens); else one `SyntaxError` line naming
the token is written. -/
def dispatchRef (env : Env) (s : NimImpl) (line : String) : Except Fault NimImpl :=
  match split line with
  | [] => .ok s
  | token :: rest =>
    match fixedHandler (lowercase token) with
    | some handler => handler env s (token :: rest)
    | none =>
      match env.parse_integral (lowercase token) with
      | some _ => CmdTake env s ("take" :: lowercase token :: rest)
      | none =>
        .ok { s with Out := s.Out ++ ["> SyntaxError: Command \x27" ++ lowercase token
          ++ "\x27 not found. Type \x27help\x27 for list of available commands.\n"] }

/-- The words handed to the take handler when `line` is a take command: a line whose
first token is `take` in any letter case, or whose first token is no fixed name and parses
as an integer. -/
def takeWords (env : Env) (line : String) : Option (List String) :=
  match split line with
  | [] => none
  | token :: rest =>
    if lowercase token = "take" then some ("take" :: rest)
    else if (fixedHandler (lowercase token)).isSome then none
    else if (env.parse_integral (lowercase token)).isSome then
      some ("take" :: lowercase token :: rest)
    else none

/-- The line is a take command that asks to take `number` from pile `pile`, which holds
`count`, and the request is in order. -/
def LineTakes (env : Env) (s : NimImpl) (line : String) (number pile count : Int) : Prop :=
  match takeWords env line with
  | some parts => TakeAccepted env s parts number pile count
  | none => False

instance (env : Env) (s : NimImpl) (line : String) (number pile count : Int) :
    Decidable (LineTakes env s line number pile count) := by
  unfold LineTakes; split <;> infer_instance

/-! ### A match, its total, and handling that only writes -/

/-- The line is a restart that is in order: `restart`, in any letter case, followed by
exactly one word that is `cpu` or `human` in any letter case. -/
def restartsMatch (line : String) : Bool :=
  match split line with
  | [cmd, a] =>
    decide (lowercase cmd = "restart") && (decide (lowercase a = "human")
      || decide (lowercase a = "cpu"))
  | _ => false

/-- The total of the three pile counts. -/
def pileSum (P : Piles3) : Int := P.1.count + P.2.1.count + P.2.2.count

/-- From `s` to `r` something was written and nothing else changed. -/
def Quiet (s r : NimImpl) : Prop := ∃ extra, r = { s with Out := s.Out ++ extra }

/-! ### The turn functions with a count of the moves of the CPU -/

namespace NimImpl

mutual

/-- `StartTurn`, returning with the game the number of removals `CPUTurn` made. -/
def StartTurn_moves : Nat → NimImpl → Except Fault (NimImpl × Nat)
  | 0, _ => .error .fuel
  | fuel + 1, s =>
    let s := s.UpdatePrompt
    let s := s.ShowPiles
    if s.CPU && !s.Player1Turn then CPUTurn_moves fuel s else .ok (s, 0)

/-- `CPUTurn`, returning with the game the number of removals `CPUTurn` made: one for
this call, and those of the `NextTurn` that ends it. -/
def CPUTurn_moves : Nat → NimImpl → Except Fault (NimImpl × Nat)
  | 0, _ => .error .fuel
  | fuel + 1, s => do
    let s ← s.CPUTurn_move
    let r ← NextTurn_moves fuel s
    pure (r.1, r.2 + 1)

/-- `NextTurn`, returning with the game the number of removals `CPUTurn` made. -/
def NextTurn_moves : Nat → NimImpl → Except Fault (NimImpl × Nat)
  | 0, _ => .error .fuel
  | fuel + 1, s =>
    if s.GameOver then .ok (s.announceWinner, 0)
    else StartTurn_moves fuel s.SwitchTurn

end

end NimImpl

/-! ### The end of a game -/

/-- The congratulation `NextTurn` writes for the player called `name`. -/
def congratsLine (name : String) : String := "  Congratulations, " ++ name ++ "! You have won!"

/-- The line `NextTurn` writes when the CPU has won. -/
def cpuWonLine : String := "  The CPU has won the game."

/-- All three piles are empty. -/
def AllZero (P : Piles3) : Prop := P.1.count = 0 ∧ P.2.1.count = 0 ∧ P.2.2.count = 0

instance (P : Piles3) : Decidable (AllZero P) := by
  unfold AllZero; infer_instance

/-! ### Reachable games -/

/-- The piles as `Pile::Rnd` leaves them: every count in `[PILE_MIN, PILE_MAX - 1]`. -/
def FreshPiles (P : Piles3) : Prop :=
  (PILE_MIN ≤ P.1.count ∧ P.1.count ≤ PILE_MAX - 1) ∧
    (PILE_MIN ≤ P.2.1.count ∧ P.2.1.count ≤ PILE_MAX - 1) ∧
    (PILE_MIN ≤ P.2.2.count ∧ P.2.2.count ≤ PILE_MAX - 1)

instance (P : Piles3) : Decidable (FreshPiles P) := by
  unfold FreshPiles; infer_instance

/-- What an execution on piles in `[0, 20]` ends in: a game whose piles are in `[0, 20]`,
or the read of `Piles[3]`. -/
def PilesSafe (r : Except Fault NimImpl) : Prop :=
  match r with
  | .ok s => PilesInRange s.Piles
  | .error e => e = .outOfBounds 3

/-- The invariant of a game the CPU is winning, seen between two lines: `base` is what had
been written when the CPU was first to move. -/
def CpuAhead (base : List String) (s : NimImpl) : Prop :=
  s.CPU = true ∧ PilesInRange s.Piles ∧ nimSum s.Piles = 0 ∧
    (s.ConsoleQuit = false → s.Player1Turn = true) ∧
    (s.ConsoleQuit = true → AllZero s.Piles ∧ s.Player1Turn = false ∧
      ∃ pre, s.Out = pre ++ [cpuWonLine, "\n\n"]) ∧
    ∃ extra, s.Out = base ++ extra ∧ ∀ name, congratsLine name ∉ extra

/-! ### Concrete games and a concrete environment for the worked examples -/

/-- A game with the given piles, opponent mode and turn, the names `Application::Run`
installs, and nothing written yet. -/
def game (a b c : Int) (cpu player1Turn : Bool) : NimImpl :=
  { Piles := (⟨a⟩, ⟨b⟩, ⟨c⟩), Player1Turn := player1Turn, CPU := cpu,
    Player1Name := "player1", Player2Name := "player2", CPUName := "cpu", Quit := false,
    Prompt := "", ConsoleQuit := false, Color := "", Out := [], RandCalls := 0 }

/-- The value of a decimal digit. -/
def digitValue (c : Char) : Option Nat :=
  if '0' ≤ c ∧ c ≤ '9' then some (c.toNat - 48) else none

/-- The number spelled by decimal digits, continuing from `acc`. -/
def parseDigits : List Char → Nat → Option Nat
  | [], acc => some acc
  | c :: cs, acc =>
    match digitValue c with
    | some d => parseDigits cs (10 * acc + d)
    | none => none

/-- A decimal reader standing in for `parse_integral<int32>` in the worked examples: an
optional minus sign followed by at least one digit, the value within the `int32` range. -/
def parseDecimal (s : String) : Option Int :=
  let v : Option Int :=
    match s.data with
    | [] => none
    | '-' :: cs => if cs.isEmpty then none else (parseDigits cs 0).map fun n => -(n : Int)
    | cs => (parseDigits cs 0).map fun n => (n : Int)
  v.bind fun n => if -2147483648 ≤ n ∧ n ≤ 2147483647 then some n else none

/-- The environment of the worked examples. -/
def exampleEnv : Env :=
  { parse_integral := parseDecimal, rand := fun k => 7 * k + 3, HOW2PLAY := "" }

/-! ## Theorems -/

section Strategy

open NimImpl

theorem scanPiles_choice (s : NimImpl) (state : bitset) (i : Nat) (js : List Nat) :
    CPUTurn_scanPiles s state i js =
      (choice_scanPiles s.Piles state i js).bind fun
        | none => .ok (s, false)
        | some (num, j) => (s.CPUTake num j).map fun s => (s, true) := by
  induction js with
  | nil => rfl
  | cons j rest ih =>
    simp only [CPUTurn_scanPiles, choice_scanPiles, getPile]
    cases hj : s.Piles.get (j : Int) with
    | error e => rfl
    | ok pj =>
      simp only [bind, Except.bind]
      by_cases hb : bitAt pj.toInt32 i ≠ 0
      · rw [if_pos hb, if_pos hb]
        simp only [pure, Except.pure]
        cases s.CPUTake (pj.toInt32 - ((bitset.xor state (bitset.ofInt32 pj.toInt32)).to_ulong : Int)) j <;> rfl
      · rw [if_neg hb, if_neg hb]
        exact ih

theorem scanBits_choice (s : NimImpl) (state : bitset) (is : List Nat) :
    CPUTurn_scanBits s state is =
      (choice_scanBits s.Piles state is).bind fun
        | none => .ok (s, false)
        | some (num, j) => (s.CPUTake num j).map fun s => (s, true) := by
  induction is with
  | nil => rfl
  | cons i rest ih =>
    simp only [CPUTurn_scanBits, choice_scanBits]
    split
    · exact scanPiles_choice s state i _
    · exact ih

theorem bitAt_natCast (n i : Nat) : bitAt (n : Int) i = if n.testBit i then 1 else 0 := by
  unfold bitAt
  rw [Int.shiftRight_eq_div_pow, Nat.testBit_to_div_mod]
  have h : ((n : Int) / ((2 ^ i : Nat) : Int)) % 2 = ((n / 2 ^ i % 2 : Nat) : Int) := by norm_cast
  rw [h]
  rcases Nat.mod_two_eq_zero_or_one (n / 2 ^ i) with h2 | h2 <;> simp [h2]

theorem parity_bit (a b c i : Nat) :
    decide ((bitAt (a : Int) i + bitAt (b : Int) i + bitAt (c : Int) i) % 2 ≠ 0)
      = (a ^^^ b ^^^ c).testBit i := by
  simp only [bitAt_natCast, Nat.testBit_xor]
  cases a.testBit i <;> cases b.testBit i <;> cases c.testBit i <;> decide

theorem bits_table : ∀ m : Fin 32,
    ((((bitset.set 0 4 (m.val.testBit 4)).set 3 (m.val.testBit 3)).set 2 (m.val.testBit 2)).set 1
      (m.val.testBit 1)).set 0 (m.val.testBit 0) = m.val := by
  decide

theorem bitIndices_eq : (List.range BITSET_MAX).reverse = [4, 3, 2, 1, 0] := by decide

theorem pileIndices_eq : List.range (BITSET_MAX - 1) = [0, 1, 2, 3] := by decide

theorem parity_unfold (P : Piles3) (st : bitset) :
    CPUTurn_parity P [4, 3, 2, 1, 0] st = .ok
      (((((st.set 4 (decide ((bitAt P.1.count 4 + bitAt P.2.1.count 4 + bitAt P.2.2.count 4) % 2 ≠ 0))).set 3
        (decide ((bitAt P.1.count 3 + bitAt P.2.1.count 3 + bitAt P.2.2.count 3) % 2 ≠ 0))).set 2
        (decide ((bitAt P.1.count 2 + bitAt P.2.1.count 2 + bitAt P.2.2.count 2) % 2 ≠ 0))).set 1
        (decide ((bitAt P.1.count 1 + bitAt P.2.1.count 1 + bitAt P.2.2.count 1) % 2 ≠ 0))).set 0
        (decide ((bitAt P.1.count 0 + bitAt P.2.1.count 0 + bitAt P.2.2.count 0) % 2 ≠ 0))) := by
  rfl

/-- The first loop of `CPUTurn` leaves the nim-sum in `state`. -/
theorem parity_position (a b c : Nat) (h : a ^^^ b ^^^ c < 32) :
    CPUTurn_parity (position a b c) (List.range BITSET_MAX).reverse 0 = .ok (a ^^^ b ^^^ c) := by
  rw [bitIndices_eq, parity_unfold]
  simp only [position, parity_bit]
  exact congrArg Except.ok (bits_table ⟨a ^^^ b ^^^ c, h⟩)

theorem topBit_table : ∀ st : Fin 32, st.val ≠ 0 →
    IsHighestBit st.val (topBit st.val) ∧ st.val.testBit (topBit st.val) = true := by
  decide

theorem topBit_unfold (st : Nat) :
    topBit st = if st.testBit 4 then 4 else if st.testBit 3 then 3 else if st.testBit 2 then 2
      else if st.testBit 1 then 1 else 0 := by
  unfold topBit
  rw [bitIndices_eq]
  cases h4 : st.testBit 4 <;> cases h3 : st.testBit 3 <;> cases h2 : st.testBit 2 <;>
    cases h1 : st.testBit 1 <;> cases h0 : st.testBit 0 <;> simp [List.find?, h4, h3, h2, h1, h0]

theorem scanBits_unfold (P : Piles3) (st : bitset) :
    choice_scanBits P st [4, 3, 2, 1, 0] =
      if st.testBit 4 then choice_scanPiles P st 4 [0, 1, 2, 3]
      else if st.testBit 3 then choice_scanPiles P st 3 [0, 1, 2, 3]
      else if st.testBit 2 then choice_scanPiles P st 2 [0, 1, 2, 3]
      else if st.testBit 1 then choice_scanPiles P st 1 [0, 1, 2, 3]
      else if st.testBit 0 then choice_scanPiles P st 0 [0, 1, 2, 3]
      else .ok none := by
  rfl

theorem scanBits_topBit (P : Piles3) (st : bitset) (h : st.testBit (topBit st) = true) :
    choice_scanBits P st (List.range BITSET_MAX).reverse
      = choice_scanPiles P st (topBit st) (List.range (BITSET_MAX - 1)) := by
  rw [bitIndices_eq, pileIndices_eq, scanBits_unfold]
  rw [topBit_unfold] at h ⊢
  cases h4 : st.testBit 4 <;> cases h3 : st.testBit 3 <;> cases h2 : st.testBit 2 <;>
    cases h1 : st.testBit 1 <;> cases h0 : st.testBit 0 <;>
    simp [h4, h3, h2, h1, h0] at h ⊢

theorem scanPiles_unfold (a b c : Int) (st : bitset) (i : Nat) :
    choice_scanPiles (⟨a⟩, ⟨b⟩, ⟨c⟩) st i [0, 1, 2, 3] =
      if bitAt a i ≠ 0 then .ok (some (a - ((st ^^^ bitset.ofInt32 a : Nat) : Int), 0))
      else if bitAt b i ≠ 0 then .ok (some (b - ((st ^^^ bitset.ofInt32 b : Nat) : Int), 1))
      else if bitAt c i ≠ 0 then .ok (some (c - ((st ^^^ bitset.ofInt32 c : Nat) : Int), 2))
      else .error (.outOfBounds 3) := by
  rfl

theorem ofInt32_natCast (n : Nat) (h : n < 32) : bitset.ofInt32 (n : Int) = n := by
  unfold bitset.ofInt32 BITSET_MAX
  have h32 : ((2 : Int) ^ 5) = 32 := by norm_num
  rw [h32, Int.emod_eq_of_lt (by omega) (by omega)]
  simp

theorem xor_lt_of_highest (st n i : Nat) (h : IsHighestBit st i) (hn : n.testBit i = true) :
    n ^^^ st < n := by
  have hst : st.testBit i = true := by
    rw [Nat.testBit_to_div_mod]
    have h1 : st / 2 ^ i = 1 := by
      apply Nat.div_eq_of_lt_le
      · simpa using h.1
      · have := h.2
        rw [pow_succ] at this
        omega
    simp [h1]
  apply Nat.lt_of_testBit i
  · simp [hst, hn]
  · exact hn
  · intro j hj
    have : st.testBit j = false := by
      apply Nat.testBit_lt_two_pow
      calc st < 2 ^ (i + 1) := h.2
        _ ≤ 2 ^ j := Nat.pow_le_pow_right (by decide) hj
    simp [this]

theorem xor3_cancel (n x y : Nat) : (n ^^^ (n ^^^ x ^^^ y)) ^^^ x ^^^ y = 0 := by
  apply Nat.eq_of_testBit_eq
  intro k
  simp only [Nat.testBit_xor, Nat.zero_testBit]
  cases n.testBit k <;> cases x.testBit k <;> cases y.testBit k <;> rfl

theorem xor3_cancel_mid (n x y : Nat) : x ^^^ (n ^^^ (x ^^^ n ^^^ y)) ^^^ y = 0 := by
  apply Nat.eq_of_testBit_eq
  intro k
  simp only [Nat.testBit_xor, Nat.zero_testBit]
  cases n.testBit k <;> cases x.testBit k <;> cases y.testBit k <;> rfl

theorem xor3_cancel_last (n x y : Nat) : x ^^^ y ^^^ (n ^^^ (x ^^^ y ^^^ n)) = 0 := by
  apply Nat.eq_of_testBit_eq
  intro k
  simp only [Nat.testBit_xor, Nat.zero_testBit]
  cases n.testBit k <;> cases x.testBit k <;> cases y.testBit k <;> rfl

/-- On a position with counts in `[0, 20]` and nonzero nim-sum, the main loop of `CPUTurn`
chooses the first pile that has the highest bit of the nim-sum and brings it to its count
XOR the nim-sum. -/
theorem choice_main_position (a b c : Nat) (ha : a ≤ 20) (hb : b ≤ 20) (hc : c ≤ 20)
    (hs : a ^^^ b ^^^ c ≠ 0) :
    ∃ j n : Nat, j < 3 ∧
      j = (pileCounts (position a b c)).findIdx
        (fun m => m.toNat.testBit (topBit (a ^^^ b ^^^ c))) ∧
      (position a b c).get (j : Int) = .ok ⟨(n : Int)⟩ ∧ n ≤ 20 ∧
      n.testBit (topBit (a ^^^ b ^^^ c)) = true ∧
      n ^^^ (a ^^^ b ^^^ c) < n ∧
      choice_main (position a b c)
        = .ok (some ((n : Int) - ((n ^^^ (a ^^^ b ^^^ c) : Nat) : Int), (j : Int))) ∧
      ∃ P, (position a b c).set (j : Int) ⟨((n ^^^ (a ^^^ b ^^^ c) : Nat) : Int)⟩ = .ok P ∧
        nimSum P = 0 := by
  have hst : a ^^^ b ^^^ c < 32 := by
    have h5 : ∀ x : Nat, x ≤ 20 → x < 2 ^ 5 := fun x hx => by omega
    exact Nat.xor_lt_two_pow (Nat.xor_lt_two_pow (h5 a ha) (h5 b hb)) (h5 c hc)
  obtain ⟨hhi, htb⟩ := topBit_table ⟨a ^^^ b ^^^ c, hst⟩ hs
  simp only at hhi htb
  have hmain : choice_main (position a b c)
      = choice_scanPiles (position a b c) (a ^^^ b ^^^ c) (topBit (a ^^^ b ^^^ c))
          (List.range (BITSET_MAX - 1)) := by
    unfold choice_main
    rw [parity_position a b c hst]
    exact scanBits_topBit _ _ htb
  rw [hmain, pileIndices_eq]
  unfold position
  rw [scanPiles_unfold]
  simp only [bitAt_natCast]
  generalize topBit (a ^^^ b ^^^ c) = i at *
  rw [Nat.testBit_xor, Nat.testBit_xor] at htb
  by_cases h0 : a.testBit i = true
  · refine ⟨0, a, by decide, ?_, rfl, ha, h0, xor_lt_of_highest _ _ _ hhi h0, ?_, ?_⟩
    · simp [pileCounts, List.findIdx_cons, h0]
    · rw [ofInt32_natCast a (by omega), Nat.xor_comm a (a ^^^ b ^^^ c)]
      simp [h0]
    · exact ⟨_, rfl, by simp [nimSum, xor3_cancel]⟩
  · by_cases h1 : b.testBit i = true
    · refine ⟨1, b, by decide, ?_, rfl, hb, h1, xor_lt_of_highest _ _ _ hhi h1, ?_, ?_⟩
      · simp [pileCounts, List.findIdx_cons, h0, h1]
      · rw [ofInt32_natCast b (by omega), Nat.xor_comm b (a ^^^ b ^^^ c)]
        simp [h0, h1]
      · exact ⟨_, rfl, by simp [nimSum, xor3_cancel_mid]⟩
    · have h2 : c.testBit i = true := by
        simp only [Bool.not_eq_true] at h0 h1
        rw [h0, h1] at htb
        simpa using htb
      refine ⟨2, c, by decide, ?_, rfl, hc, h2, xor_lt_of_highest _ _ _ hhi h2, ?_, ?_⟩
      · simp [pileCounts, List.findIdx_cons, h0, h1, h2]
      · rw [ofInt32_natCast c (by omega), Nat.xor_comm c (a ^^^ b ^^^ c)]
        simp [h0, h1, h2]
      · exact ⟨_, rfl, by simp [nimSum, xor3_cancel_last]⟩

theorem CPUTurn_move_eq (s : NimImpl) :
    s.CPUTurn_move = (choice_main s.Piles).bind fun
      | some (num, j) => s.CPUTake num j
      | none => (CPUTurn_maxIndex s.Piles (List.range' 1 (BITSET_MAX - 1 - 1)) 0).bind fun m =>
          s.CPUTake 1 m := by
  unfold CPUTurn_move choice_main
  cases hp : CPUTurn_parity s.Piles (List.range BITSET_MAX).reverse 0 with
  | error e => rfl
  | ok state =>
    simp only [bind, Except.bind]
    rw [scanBits_choice]
    cases hc : choice_scanBits s.Piles state (List.range BITSET_MAX).reverse with
    | error e => rfl
    | ok r =>
      cases r with
      | none => rfl
      | some r =>
        obtain ⟨num, j⟩ := r
        simp only [Except.bind, Except.map]
        cases s.CPUTake num j <;> rfl

theorem CPUTake_ok (s : NimImpl) (j n t : Int) (P : Piles3) (hget : s.Piles.get j = .ok ⟨n⟩)
    (ht0 : 0 ≤ t) (ht : t ≤ 20) (hset : s.Piles.set j ⟨t⟩ = .ok P) :
    s.CPUTake (n - t) j
      = .ok { s with Piles := P, Out := s.Out ++ [cpuTakeLine s (n - t) j] } := by
  have hsub : Pile.subAssign ⟨n⟩ (n - t) = .ok ⟨t⟩ := by
    have e : n - (n - t) = t := by ring
    simp [Pile.subAssign, NIM_ASSERT, PILE_MAX, e, ht0, ht, bind, Except.bind, pure, Except.pure]
  simp [CPUTake, getPile, setPile, NimImpl.print, hget, hsub, hset, bind, Except.bind, pure,
    Except.pure, cpuTakeLine]

theorem position_of_inRange (P : Piles3) (h : PilesInRange P) :
    P = position P.1.count.toNat P.2.1.count.toNat P.2.2.count.toNat ∧
      P.1.count.toNat ≤ 20 ∧ P.2.1.count.toNat ≤ 20 ∧ P.2.2.count.toNat ≤ 20 := by
  obtain ⟨⟨a⟩, ⟨b⟩, ⟨c⟩⟩ := P
  simp only [PilesInRange, PILE_MAX] at h
  obtain ⟨⟨a0, a1⟩, ⟨b0, b1⟩, c0, c1⟩ := h
  refine ⟨?_, ?_, ?_, ?_⟩
  · simp only [position, Int.toNat_of_nonneg a0, Int.toNat_of_nonneg b0, Int.toNat_of_nonneg c0]
  · show a.toNat ≤ 20
    omega
  · show b.toNat ≤ 20
    omega
  · show c.toNat ≤ 20
    omega

/-- The removal of `CPUTurn` on a position with counts in `[0, 20]` and nonzero nim-sum. -/
theorem CPUTurn_move_winning (s : NimImpl) (hr : PilesInRange s.Piles)
    (hs : nimSum s.Piles ≠ 0) :
    ∃ (j : Nat) (count : Int) (P : Piles3),
      j < 3 ∧ j = (pileCounts s.Piles).findIdx
        (fun m => m.toNat.testBit (topBit (nimSum s.Piles))) ∧
      s.Piles.get (j : Int) = .ok ⟨count⟩ ∧
      count.toNat.testBit (topBit (nimSum s.Piles)) = true ∧
      ((count.toNat ^^^ nimSum s.Piles : Nat) : Int) < count ∧
      s.Piles.set (j : Int) ⟨((count.toNat ^^^ nimSum s.Piles : Nat) : Int)⟩ = .ok P ∧
      PilesInRange P ∧ nimSum P = 0 ∧
      s.CPUTurn_move = .ok { s with
        Piles := P,
        Out := s.Out ++
          [cpuTakeLine s (count - ((count.toNat ^^^ nimSum s.Piles : Nat) : Int)) j] } := by
  obtain ⟨hP, ha, hb, hc⟩ := position_of_inRange s.Piles hr
  have hs2 : s.Piles.1.count.toNat ^^^ s.Piles.2.1.count.toNat ^^^ s.Piles.2.2.count.toNat ≠ 0 :=
    hs
  obtain ⟨j, n, hj, hidx, hget, hn, hbit, hlt, hch, P, hset, hz⟩ :=
    choice_main_position _ _ _ ha hb hc hs2
  rw [← hP] at hidx hget hch hset
  have hns : nimSum s.Piles
      = s.Piles.1.count.toNat ^^^ s.Piles.2.1.count.toNat ^^^ s.Piles.2.2.count.toNat := rfl
  rw [← hns] at hidx hbit hlt hch hset
  have hlt2 : ((n ^^^ nimSum s.Piles : Nat) : Int) < (n : Int) := by exact_mod_cast hlt
  have hrP : PilesInRange P := by
    have hj3 : j = 0 ∨ j = 1 ∨ j = 2 := by omega
    have hle : ((n ^^^ nimSum s.Piles : Nat) : Int) ≤ 20 := by omega
    have h0 : (0 : Int) ≤ ((n ^^^ nimSum s.Piles : Nat) : Int) := Int.natCast_nonneg _
    obtain ⟨⟨r0, r1⟩, ⟨r2, r3⟩, r4, r5⟩ := hr
    rcases hj3 with rfl | rfl | rfl <;> simp [Piles3.set] at hset <;> subst hset <;>
      simp [PilesInRange, PILE_MAX] at * <;> omega
  refine ⟨j, n, P, hj, hidx, hget, by simpa using hbit, by simpa using hlt2, by simpa using hset,
    hrP, hz, ?_⟩
  rw [CPUTurn_move_eq, hch]
  simp only [Except.bind, Int.toNat_ofNat]
  exact CPUTake_ok s j n _ P hget (Int.natCast_nonneg _) (by omega) hset

theorem nimSum_zero_parity (P : Piles3) (hr : PilesInRange P) (hs : nimSum P = 0) :
    choice_main P = .ok none := by
  obtain ⟨hP, ha, hb, hc⟩ := position_of_inRange P hr
  have hs2 : P.1.count.toNat ^^^ P.2.1.count.toNat ^^^ P.2.2.count.toNat = 0 := hs
  unfold choice_main
  rw [hP, parity_position _ _ _ (by rw [hs2]; decide), hs2]
  rfl

/-- The scan of the fallback of `CPUTurn` visits `j = 1, 2, 3` and stops at `Piles[3]`. -/
theorem maxIndex_fallback (P : Piles3) :
    CPUTurn_maxIndex P (List.range' 1 (BITSET_MAX - 1 - 1)) 0 = .error (.outOfBounds 3) := by
  have hl : List.range' 1 (BITSET_MAX - 1 - 1) = [1, 2, 3] := by decide
  rw [hl]
  have h1 : CPUTurn_maxIndex P [1, 2, 3] 0
      = CPUTurn_maxIndex P [2, 3] (if P.2.1.toInt32 > P.1.toInt32 then 1 else 0) := rfl
  rw [h1]
  by_cases c1 : P.2.1.toInt32 > P.1.toInt32
  · rw [if_pos c1]
    have h2 : CPUTurn_maxIndex P [2, 3] 1
        = CPUTurn_maxIndex P [3] (if P.2.2.toInt32 > P.2.1.toInt32 then 2 else 1) := rfl
    rw [h2]
    rfl
  · rw [if_neg c1]
    have h2 : CPUTurn_maxIndex P [2, 3] 0
        = CPUTurn_maxIndex P [3] (if P.2.2.toInt32 > P.1.toInt32 then 2 else 0) := rfl
    rw [h2]
    rfl

theorem announceWinner_Piles (s : NimImpl) : s.announceWinner.Piles = s.Piles := by
  unfold announceWinner
  split <;> rfl

/-- On a position with counts in `[0, 20]` and nim-sum zero the fallback of `CPUTurn` reads
`Piles[3]`: its scan runs `j = 1, 2, 3`. -/
theorem CPUTurn_move_fallback (s : NimImpl) (hr : PilesInRange s.Piles)
    (hs : nimSum s.Piles = 0) : s.CPUTurn_move = .error (.outOfBounds 3) := by
  rw [CPUTurn_move_eq, nimSum_zero_parity _ hr hs]
  show ((CPUTurn_maxIndex s.Piles (List.range' 1 (BITSET_MAX - 1 - 1)) 0).bind fun m =>
    s.CPUTake 1 m) = _
  rw [maxIndex_fallback]
  rfl

theorem NextTurn_no_reply (fuel : Nat) (s : NimImpl) (h : (s.CPU && s.Player1Turn) = false) :
    NextTurn (fuel + 2) s
      = .ok (if s.GameOver then s.announceWinner else s.SwitchTurn.UpdatePrompt.ShowPiles) := by
  have hg : (s.SwitchTurn.UpdatePrompt.ShowPiles.CPU &&
      !s.SwitchTurn.UpdatePrompt.ShowPiles.Player1Turn) = false := by
    show (s.CPU && !(xor s.Player1Turn true)) = false
    cases hc : s.CPU <;> cases hp : s.Player1Turn <;> simp_all
  show (if s.GameOver then Except.ok s.announceWinner
    else if (s.SwitchTurn.UpdatePrompt.ShowPiles.CPU &&
      !s.SwitchTurn.UpdatePrompt.ShowPiles.Player1Turn) = true
      then CPUTurn fuel s.SwitchTurn.UpdatePrompt.ShowPiles
      else .ok s.SwitchTurn.UpdatePrompt.ShowPiles) = _
  rw [hg]
  cases s.GameOver <;> rfl

/-- Storing into one element of the array leaves the two others as they were. -/
theorem set_get (P Q : Piles3) (j : Int) (p : Pile) (h : P.set j p = .ok Q) :
    Q.get j = .ok p ∧ ∀ i, i ≠ j → Q.get i = P.get i := by
  unfold Piles3.set at h
  split_ifs at h with h0 h1 h2
  · simp only [Except.ok.injEq] at h
    subst h; subst h0
    refine ⟨rfl, fun i hi => ?_⟩
    simp [Piles3.get, hi]
  · simp only [Except.ok.injEq] at h
    subst h; subst h1
    refine ⟨rfl, fun i hi => ?_⟩
    simp [Piles3.get, hi]
  · simp only [Except.ok.injEq] at h
    subst h; subst h2
    refine ⟨rfl, fun i hi => ?_⟩
    simp [Piles3.get, hi]

/-- C1: on every position with counts in `[0, 20]` and nonzero nim-sum, the removal that
`CPUTurn` applies through `CPUTake` succeeds and leaves a position of nim-sum 0 (with
counts still in `[0, 20]`); and when `CPUTurn` runs in its calling context (it is not
player 1's turn) the whole call returns a state with exactly those piles. -/
theorem C1_cpu_move_leaves_nim_sum_zero (s : NimImpl) (hr : PilesInRange s.Piles)
    (hs : nimSum s.Piles ≠ 0) :
    ∃ s1, s.CPUTurn_move = .ok s1 ∧ nimSum s1.Piles = 0 ∧ PilesInRange s1.Piles ∧
      (s.Player1Turn = false →
        ∀ fuel, ∃ s2, CPUTurn (fuel + 3) s = .ok s2 ∧ s2.Piles = s1.Piles) := by
  obtain ⟨j, count, P, -, -, -, -, -, -, hrP, hz, hmove⟩ := CPUTurn_move_winning s hr hs
  refine ⟨_, hmove, hz, hrP, ?_⟩
  intro hp fuel
  have hc : CPUTurn (fuel + 3) s = (s.CPUTurn_move).bind (NextTurn (fuel + 2)) := rfl
  rw [hc, hmove]
  simp only [Except.bind]
  rw [NextTurn_no_reply _ _ (by simp [hp])]
  refine ⟨_, rfl, ?_⟩
  split
  · exact announceWinner_Piles _
  · rfl

/-- C1, worked example: the position `(3, 4, 5)` has nim-sum 2, and the CPU moves to a
position of nim-sum 0. -/
theorem C1_cpu_move_leaves_nim_sum_zero_witness :
    PilesInRange (game 3 4 5 true false).Piles ∧ nimSum (game 3 4 5 true false).Piles ≠ 0 ∧
    ∃ s1, (game 3 4 5 true false).CPUTurn_move = .ok s1 ∧ nimSum s1.Piles = 0 ∧
      PilesInRange s1.Piles ∧
      ((game 3 4 5 true false).Player1Turn = false →
        ∀ fuel, ∃ s2, CPUTurn (fuel + 3) (game 3 4 5 true false) = .ok s2 ∧
          s2.Piles = s1.Piles) :=
  ⟨by decide, by decide,
    C1_cpu_move_leaves_nim_sum_zero (game 3 4 5 true false) (by decide) (by decide)⟩

/-- C2: on every position with counts in `[0, 20]` and nonzero nim-sum `n`, `CPUTurn`
removes from the pile of index `j`, the first of the indices 0, 1, 2 whose count has the
highest set bit `i` of `n` set; the removed amount is `count - (count XOR n)`, at least 1,
the pile is left at `count XOR n`, the two other piles are as before, the move is reported
on `cout`, and nothing else of the game changes. -/
theorem C2_cpu_move_first_pile_with_top_bit (s : NimImpl) (hr : PilesInRange s.Piles)
    (hs : nimSum s.Piles ≠ 0) :
    ∃ (i j : Nat) (count : Int) (P : Piles3),
      IsHighestBit (nimSum s.Piles) i ∧
      j < 3 ∧ j = (pileCounts s.Piles).findIdx (fun m => m.toNat.testBit i) ∧
      s.Piles.get (j : Int) = .ok ⟨count⟩ ∧
      1 ≤ count - ((count.toNat ^^^ nimSum s.Piles : Nat) : Int) ∧
      s.Piles.set (j : Int) ⟨((count.toNat ^^^ nimSum s.Piles : Nat) : Int)⟩ = .ok P ∧
      (∀ i, i ≠ (j : Int) → P.get i = s.Piles.get i) ∧
      s.CPUTurn_move = .ok { s with
        Piles := P,
        Out := s.Out ++
          [cpuTakeLine s (count - ((count.toNat ^^^ nimSum s.Piles : Nat) : Int)) j] } := by
  obtain ⟨j, count, P, hj, hidx, hget, -, hlt, hset, -, -, hmove⟩ := CPUTurn_move_winning s hr hs
  have h32 : nimSum s.Piles < 32 := by
    obtain ⟨-, ha, hb, hc⟩ := position_of_inRange s.Piles hr
    have h5 : ∀ x : Nat, x ≤ 20 → x < 2 ^ 5 := fun x hx => by omega
    exact Nat.xor_lt_two_pow (Nat.xor_lt_two_pow (h5 _ ha) (h5 _ hb)) (h5 _ hc)
  have htop := (topBit_table ⟨nimSum s.Piles, h32⟩ hs).1
  exact ⟨_, j, count, P, htop, hj, hidx, hget, by omega, hset, (set_get _ _ _ _ hset).2, hmove⟩

/-- C2, worked example: on `(3, 4, 5)` the CPU removes 2 from the pile of index 0, which
yields `(1, 4, 5)`. -/
theorem C2_cpu_move_first_pile_with_top_bit_witness :
    (game 3 4 5 true false).CPUTurn_move
        = .ok { game 1 4 5 true false with Out := ["cpu> take 2 from 1\n"] } ∧
    ∃ (i j : Nat) (count : Int) (P : Piles3),
      IsHighestBit (nimSum (game 3 4 5 true false).Piles) i ∧
      j < 3 ∧ j = (pileCounts (game 3 4 5 true false).Piles).findIdx
        (fun m => m.toNat.testBit i) ∧
      (game 3 4 5 true false).Piles.get (j : Int) = .ok ⟨count⟩ ∧
      1 ≤ count - ((count.toNat ^^^ nimSum (game 3 4 5 true false).Piles : Nat) : Int) ∧
      (game 3 4 5 true false).Piles.set (j : Int)
        ⟨((count.toNat ^^^ nimSum (game 3 4 5 true false).Piles : Nat) : Int)⟩ = .ok P ∧
      (∀ i, i ≠ (j : Int) → P.get i = (game 3 4 5 true false).Piles.get i) ∧
      (game 3 4 5 true false).CPUTurn_move = .ok { game 3 4 5 true false with
        Piles := P,
        Out := (game 3 4 5 true false).Out ++
          [cpuTakeLine (game 3 4 5 true false)
            (count - ((count.toNat ^^^ nimSum (game 3 4 5 true false).Piles : Nat) : Int)) j] } :=
  ⟨by decide,
    C2_cpu_move_first_pile_with_top_bit (game 3 4 5 true false) (by decide) (by decide)⟩

/-- C3: the claim fails on the code.  On `(1, 2, 3)` (nim-sum 0, the CPU to move) the
fallback does not remove 1 from the pile of index 2: its scan `j = 1, 2, 3` reads
`Piles[3]`, past the end of the array, and the turn started for the CPU stops there. -/
theorem C3_fallback_reads_past_the_piles :
    nimSum (game 1 2 3 true false).Piles = 0 ∧
    CPUTurn_maxIndex (game 1 2 3 true false).Piles [1, 2, 3] 0 = .error (.outOfBounds 3) ∧
    (game 1 2 3 true false).CPUTurn_move = .error (.outOfBounds 3) ∧
    StartTurn turnFuel (game 1 2 3 true false) = .error (.outOfBounds 3) := by
  decide

end Strategy

section Take

open NimImpl

theorem set_of_index (P : Piles3) (k : Int) (p : Pile) (hk1 : 1 ≤ k) (hk3 : k ≤ 3) :
    ∃ Q, P.set (k - 1) p = .ok Q := by
  have hk : k = 1 ∨ k = 2 ∨ k = 3 := by omega
  rcases hk with rfl | rfl | rfl
  · exact ⟨_, rfl⟩
  · exact ⟨_, rfl⟩
  · exact ⟨_, rfl⟩

theorem get_of_index (P : Piles3) (k : Int) (hk1 : 1 ≤ k) (hk3 : k ≤ 3) :
    ∃ p, P.get (k - 1) = .ok p := by
  have hk : k = 1 ∨ k = 2 ∨ k = 3 := by omega
  rcases hk with rfl | rfl | rfl
  · exact ⟨_, rfl⟩
  · exact ⟨_, rfl⟩
  · exact ⟨_, rfl⟩

theorem get_inRange (P : Piles3) (j : Int) (c : Int) (hr : PilesInRange P)
    (h : P.get j = .ok ⟨c⟩) : 0 ≤ c ∧ c ≤ 20 := by
  obtain ⟨⟨r0, r1⟩, ⟨r2, r3⟩, r4, r5⟩ := hr
  unfold Piles3.get at h
  simp only [PILE_MAX] at r1 r3 r5
  split_ifs at h <;> simp only [Except.ok.injEq] at h <;> first
    | (rw [h] at r0 r1; exact ⟨r0, r1⟩)
    | (rw [h] at r2 r3; exact ⟨r2, r3⟩)
    | (rw [h] at r4 r5; exact ⟨r4, r5⟩)

/-- A request that is in order is carried out: the pile is decremented and `NextTurn`
runs. -/
theorem CmdTake_checked_accepted (env : Env) (s : NimImpl) (a b : String) (n k c : Int)
    (ha : env.parse_integral a = some n) (hb : env.parse_integral b = some k)
    (hk1 : 1 ≤ k) (hk3 : k ≤ 3) (hget : s.Piles.get (k - 1) = .ok ⟨c⟩) (hc : c ≠ 0)
    (hn1 : 1 ≤ n) (hn : n ≤ c) (hc20 : c ≤ 20) :
    ∃ P, s.Piles.set (k - 1) ⟨c - n⟩ = .ok P ∧
      CmdTake_checked env s a b = NextTurn turnFuel { s with Piles := P } := by
  obtain ⟨P, hP⟩ := set_of_index s.Piles k ⟨c - n⟩ hk1 hk3
  refine ⟨P, hP, ?_⟩
  have hsub : Pile.subAssign ⟨c⟩ n = .ok ⟨c - n⟩ := by
    have h1 : 0 ≤ c - n := by omega
    have h2 : c - n ≤ 20 := by omega
    simp [Pile.subAssign, NIM_ASSERT, PILE_MAX, h1, h2, bind, Except.bind, pure, Except.pure]
  have hk' : ¬ (k < 1 ∨ k > 3) := by omega
  have hn' : ¬ (n < 1 ∨ n > c) := by omega
  simp only [CmdTake_checked, ha, hb, hk', if_false, getPile, hget, bind, Except.bind,
    Pile.eq32, decide_eq_true_eq, hc, Pile.toInt32, hn', hsub, setPile, hP, pure, Except.pure]

theorem errorLine_argument (msg : String) : IsErrorLine (print_err ERR_ARGUMENT ++ msg) :=
  ⟨ERR_ARGUMENT, msg, Or.inr (Or.inl rfl), rfl⟩

theorem errorLine_range (msg : String) : IsErrorLine (print_err ERR_RANGE ++ msg) :=
  ⟨ERR_RANGE, msg, Or.inr (Or.inr rfl), rfl⟩

theorem errorLine_syntax (msg : String) : IsErrorLine (print_err ERR_SYNTAX ++ msg) :=
  ⟨ERR_SYNTAX, msg, Or.inl rfl, rfl⟩

/-- A request that is not in order is answered by an error line and nothing else. -/
theorem CmdTake_checked_rejected (env : Env) (s : NimImpl) (a b : String)
    (h : ¬ ∃ n k c, env.parse_integral a = some n ∧ env.parse_integral b = some k ∧
      1 ≤ k ∧ k ≤ 3 ∧ s.Piles.get (k - 1) = .ok ⟨c⟩ ∧ c ≠ 0 ∧ 1 ≤ n ∧ n ≤ c) :
    ∃ line, IsErrorLine line ∧ CmdTake_checked env s a b = .ok (s.print line) := by
  cases ha : env.parse_integral a with
  | none =>
    refine ⟨_, errorLine_argument ("Could not parse \x27" ++ a ++ "\x27 as an integer.\n"), ?_⟩
    simp only [CmdTake_checked, ha, String.append_assoc]
  | some n =>
    cases hb : env.parse_integral b with
    | none =>
      refine ⟨_, errorLine_argument ("Could not parse \x27" ++ b ++ "\x27 as an integer.\n"), ?_⟩
      simp only [CmdTake_checked, ha, hb, String.append_assoc]
    | some k =>
      by_cases hk : k < 1 ∨ k > 3
      · refine ⟨_, errorLine_range ("Expected <pile> in range [1, 3], got \x27" ++ show32 k
          ++ "\x27.\n"), ?_⟩
        simp only [CmdTake_checked, ha, hb, hk, if_true, String.append_assoc]
      · have hk1 : 1 ≤ k := by omega
        have hk3 : k ≤ 3 := by omega
        obtain ⟨⟨c⟩, hget⟩ := get_of_index s.Piles k hk1 hk3
        by_cases hc : c = 0
        · refine ⟨_, errorLine_range ("Pile " ++ show32 k ++ " is empty.\n"), ?_⟩
          simp only [CmdTake_checked, ha, hb, hk, if_false, getPile, hget, bind, Except.bind,
            Pile.eq32, hc, decide_True, if_true, pure, Except.pure, String.append_assoc]
        · by_cases hn : n < 1 ∨ n > c
          · refine ⟨_, errorLine_range ("Expected <number> in range [1, pile length (" ++
              show32 c ++ ")], got \x27" ++ show32 n ++ "\x27.\n"), ?_⟩
            simp only [CmdTake_checked, ha, hb, hk, if_false, getPile, hget, bind, Except.bind,
              Pile.eq32, hc, decide_False, Pile.toInt32, hn, if_true, pure, Except.pure,
              String.append_assoc, Bool.false_eq_true]
          · exact absurd ⟨n, k, c, ha, hb, hk1, hk3, hget, hc, by omega, by omega⟩ h

theorem CmdTake_one (env : Env) (s : NimImpl) (cmd : String) :
    CmdTake env s [cmd] = .ok (s.print (print_err ERR_ARGUMENT ++
      "Arguments <number> AND <pile> not found. Type \x27help take\x27 for usage details.\n")) :=
  rfl

theorem CmdTake_two (env : Env) (s : NimImpl) (cmd a : String) :
    CmdTake env s [cmd, a] = .ok (s.print (print_err ERR_ARGUMENT ++
      "Argument <pile> not found. Type \x27help take\x27 for usage details.\n")) :=
  rfl

theorem CmdTake_three_from (env : Env) (s : NimImpl) (cmd a b : String)
    (h : lowercase b = "from") :
    CmdTake env s [cmd, a, b] = .ok (s.print (print_err ERR_ARGUMENT ++
      "Argument <pile> not found. Type \x27help take\x27 for usage details.\n")) := by
  simp [CmdTake, h]

theorem CmdTake_three (env : Env) (s : NimImpl) (cmd a b : String)
    (h : lowercase b ≠ "from") :
    CmdTake env s [cmd, a, b] = CmdTake_checked env s a b := by
  simp [CmdTake, h]

theorem CmdTake_four_from (env : Env) (s : NimImpl) (cmd a f b : String)
    (h : lowercase f = "from") :
    CmdTake env s [cmd, a, f, b] = CmdTake_checked env s a b := by
  simp [CmdTake, h]

theorem CmdTake_four (env : Env) (s : NimImpl) (cmd a f b : String)
    (h : lowercase f ≠ "from") :
    CmdTake env s [cmd, a, f, b] = .ok (s.print (print_err ERR_ARGUMENT ++
      "Too many arguments. Type \x27help take\x27 for usage details.\n")) := by
  simp [CmdTake, h]

theorem CmdTake_many (env : Env) (s : NimImpl) (cmd a f b d : String) (rest : List String) :
    CmdTake env s (cmd :: a :: f :: b :: d :: rest) = .ok (s.print (print_err ERR_ARGUMENT ++
      "Too many arguments. Type \x27help take\x27 for usage details.\n")) := by
  have h : (cmd :: a :: f :: b :: d :: rest).length ≥
      4 + (if decide (lowercase ((cmd :: a :: f :: b :: d :: rest).getD 2 "") = "from") = true
        then 1 else 0) := by
    simp only [List.length_cons]
    split <;> omega
  simp only [CmdTake]
  rw [if_neg (by simp), if_neg (by simp), if_pos h]

theorem takeRequest_three (env : Env) (cmd a b : String) (n k : Int)
    (h : takeRequest env [cmd, a, b] = some (n, k)) :
    env.parse_integral a = some n ∧ env.parse_integral b = some k := by
  unfold takeRequest at h
  cases ha : env.parse_integral a with
  | none => simp [ha] at h
  | some n1 =>
    cases hb : env.parse_integral b with
    | none => simp [ha, hb] at h
    | some k1 =>
      simp [ha, hb] at h
      exact ⟨congrArg some h.1, congrArg some h.2⟩

theorem takeRequest_four (env : Env) (cmd a f b : String) (n k : Int)
    (h : takeRequest env [cmd, a, f, b] = some (n, k)) :
    lowercase f = "from" ∧ env.parse_integral a = some n ∧ env.parse_integral b = some k := by
  have h2 : takeRequest env [cmd, a, f, b]
      = if lowercase f = "from" then takeRequest env [cmd, a, b] else none := rfl
  rw [h2] at h
  by_cases hf : lowercase f = "from"
  · rw [if_pos hf] at h
    exact ⟨hf, takeRequest_three env cmd a b n k h⟩
  · rw [if_neg hf] at h
    cases h

/-- The shape of every command the specification lets through, and what `CmdTake` does
with it. -/
theorem CmdTake_accepted (env : Env) (s : NimImpl) (cmd : String) (args : List String)
    (hr : PilesInRange s.Piles)
    (hfrom : ∀ w ∈ args, lowercase w = "from" → env.parse_integral w = none)
    (number pile count : Int) (h : TakeAccepted env s (cmd :: args) number pile count) :
    ∃ P, s.Piles.set (pile - 1) ⟨count - number⟩ = .ok P ∧
      CmdTake env s (cmd :: args) = NextTurn turnFuel { s with Piles := P } := by
  obtain ⟨hreq, hk1, hk3, hget, hc, hn1, hn⟩ := h
  have hc20 := (get_inRange _ _ _ hr hget).2
  match args, hreq, hfrom with
  | [], hreq, _ => cases hreq
  | [a], hreq, _ => cases hreq
  | [a, b], hreq, hfrom =>
    obtain ⟨ha, hb⟩ := takeRequest_three env cmd a b number pile hreq
    have hnf : lowercase b ≠ "from" := by
      intro hf
      rw [hfrom b (by simp) hf] at hb
      cases hb
    rw [CmdTake_three env s cmd a b hnf]
    exact CmdTake_checked_accepted env s a b number pile count ha hb hk1 hk3 hget hc hn1 hn hc20
  | [a, f, b], hreq, _ =>
    obtain ⟨hf, ha, hb⟩ := takeRequest_four env cmd a f b number pile hreq
    rw [CmdTake_four_from env s cmd a f b hf]
    exact CmdTake_checked_accepted env s a b number pile count ha hb hk1 hk3 hget hc hn1 hn hc20
  | a :: f :: b :: d :: rest, hreq, _ => cases hreq

/-- Every command the specification does not let through is answered by an error line. -/
theorem CmdTake_rejected (env : Env) (s : NimImpl) (cmd : String) (args : List String)
    (h : ¬ ∃ number pile count, TakeAccepted env s (cmd :: args) number pile count) :
    ∃ line, IsErrorLine line ∧ CmdTake env s (cmd :: args) = .ok (s.print line) := by
  match args, h with
  | [], _ => exact ⟨_, errorLine_argument _, CmdTake_one env s cmd⟩
  | [a], _ => exact ⟨_, errorLine_argument _, CmdTake_two env s cmd a⟩
  | [a, b], h =>
    by_cases hf : lowercase b = "from"
    · exact ⟨_, errorLine_argument _, CmdTake_three_from env s cmd a b hf⟩
    · rw [CmdTake_three env s cmd a b hf]
      apply CmdTake_checked_rejected
      rintro ⟨n, k, c, ha, hb, hk1, hk3, hget, hc, hn1, hn⟩
      exact h ⟨n, k, c, by simp [takeRequest, ha, hb], hk1, hk3, hget, hc, hn1, hn⟩
  | [a, f, b], h =>
    by_cases hf : lowercase f = "from"
    · rw [CmdTake_four_from env s cmd a f b hf]
      apply CmdTake_checked_rejected
      rintro ⟨n, k, c, ha, hb, hk1, hk3, hget, hc, hn1, hn⟩
      exact h ⟨n, k, c, by simp [takeRequest, hf, ha, hb], hk1, hk3, hget, hc, hn1, hn⟩
    · exact ⟨_, errorLine_argument _, CmdTake_four env s cmd a f b hf⟩
  | a :: f :: b :: d :: rest, _ => exact ⟨_, errorLine_argument _, CmdTake_many env s cmd a f b d rest⟩

/-- C7: for every token list `cmd :: args` handed to `CmdTake` on a game whose piles are in
`[0, 20]`: when the arguments are `number pile` or `number from pile` (the middle word
`from` in any letter case), both numbers parse, `pile` is in `[1, 3]`, the addressed pile
is not empty and `1 ≤ number ≤ count`, `CmdTake` decrements that pile by `number` and runs
`NextTurn`; in every other case it writes one error line and changes nothing else, so no
pile is decremented.  (The reader of integers is a parameter; it is assumed not to read
an argument spelled `from` as an integer.) -/
theorem C7_take_decrements_iff_valid (env : Env) (s : NimImpl) (cmd : String)
    (args : List String) (hr : PilesInRange s.Piles)
    (hfrom : ∀ w ∈ args, lowercase w = "from" → env.parse_integral w = none) :
    (∀ number pile count, TakeAccepted env s (cmd :: args) number pile count →
      ∃ P, s.Piles.set (pile - 1) ⟨count - number⟩ = .ok P ∧
        CmdTake env s (cmd :: args) = NextTurn turnFuel { s with Piles := P }) ∧
    ((¬ ∃ number pile count, TakeAccepted env s (cmd :: args) number pile count) →
      ∃ line, IsErrorLine line ∧
        CmdTake env s (cmd :: args) = .ok { s with Out := s.Out ++ [line] }) :=
  ⟨fun number pile count h => CmdTake_accepted env s cmd args hr hfrom number pile count h,
    fun h => CmdTake_rejected env s cmd args h⟩

/-- C7, worked example: `take 2 from 3` on `(3, 4, 5)` against a human. -/
theorem C7_take_decrements_iff_valid_witness :
    TakeAccepted exampleEnv (game 3 4 5 false true) ["take", "2", "from", "3"] 2 3 5 ∧
    CmdTake exampleEnv (game 3 4 5 false true) ["take", "2", "from", "3"]
      = .ok { game 3 4 3 false false with Prompt := "player2> ", Out := ["  3  4  3\n"] } ∧
    ((∀ number pile count,
      TakeAccepted exampleEnv (game 3 4 5 false true) ("take" :: ["2", "from", "3"])
        number pile count →
      ∃ P, (game 3 4 5 false true).Piles.set (pile - 1) ⟨count - number⟩ = .ok P ∧
        CmdTake exampleEnv (game 3 4 5 false true) ("take" :: ["2", "from", "3"])
          = NextTurn turnFuel { game 3 4 5 false true with Piles := P }) ∧
    ((¬ ∃ number pile count,
      TakeAccepted exampleEnv (game 3 4 5 false true) ("take" :: ["2", "from", "3"])
        number pile count) →
      ∃ line, IsErrorLine line ∧
        CmdTake exampleEnv (game 3 4 5 false true) ("take" :: ["2", "from", "3"])
          = .ok { game 3 4 5 false true with
              Out := (game 3 4 5 false true).Out ++ [line] })) :=
  ⟨by decide, by decide,
    C7_take_decrements_iff_valid exampleEnv (game 3 4 5 false true) "take" ["2", "from", "3"]
      (by decide) (by decide)⟩

end Take

section Dispatch

open NimImpl

/-- A line whose first word is `take`, in any letter case, is handled by `CmdTake`. -/
theorem trigger_take (env : Env) (s : NimImpl) (line w : String) (rest : List String)
    (hsplit : split line = w :: rest) (hw : lowercase w = "take") :
    trigger env s line = CmdTake env s ("take" :: rest) := by
  unfold trigger
  rw [hsplit]
  show trigger_loop env s (lowercase w :: rest) Commands = _
  rw [hw]
  rfl

/-- C8: when pile `k` (1-indexed) holds `c > 0` objects and `n < 1` or `n > c`, the
command `take n from k` is answered by the `RangeError` line that names the upper bound
`c`, and nothing else of the game changes; this holds of the handler on the four words and
of the interpreter on any line that splits into them. -/
theorem C8_take_out_of_range (env : Env) (s : NimImpl) (tn tf tk : String) (n k c : Int)
    (hn : env.parse_integral tn = some n) (hk : env.parse_integral tk = some k)
    (hf : lowercase tf = "from") (hk1 : 1 ≤ k) (hk3 : k ≤ 3)
    (hget : s.Piles.get (k - 1) = .ok ⟨c⟩) (hc : 0 < c) (hbad : n < 1 ∨ n > c) :
    CmdTake env s ["take", tn, tf, tk] = .ok { s with Out := s.Out ++
      ["> RangeError: Expected <number> in range [1, pile length (" ++ show32 c ++ ")], got \x27"
        ++ show32 n ++ "\x27.\n"] } ∧
    ∀ line w, split line = [w, tn, tf, tk] → lowercase w = "take" →
      trigger env s line = .ok { s with Out := s.Out ++
        ["> RangeError: Expected <number> in range [1, pile length (" ++ show32 c
          ++ ")], got \x27" ++ show32 n ++ "\x27.\n"] } := by
  have hk' : ¬ (k < 1 ∨ k > 3) := by omega
  have hc' : c ≠ 0 := by omega
  have h : CmdTake env s ["take", tn, tf, tk] = .ok { s with Out := s.Out ++
      ["> RangeError: Expected <number> in range [1, pile length (" ++ show32 c ++ ")], got \x27"
        ++ show32 n ++ "\x27.\n"] } := by
    rw [CmdTake_four_from env s "take" tn tf tk hf]
    simp only [CmdTake_checked, hn, hk, hk', if_false, getPile, hget, bind, Except.bind,
      Pile.eq32, hc', decide_False, Pile.toInt32, hbad, if_true, pure, Except.pure,
      Bool.false_eq_true, NimImpl.print, print_err, ERR_RANGE]
    rfl
  refine ⟨h, ?_⟩
  intro line w hsplit hw
  rw [trigger_take env s line w _ hsplit hw]
  exact h

/-- C8, worked example: `take 10 from 1` on `(5, 7, 9)` reports the upper bound 5. -/
theorem C8_take_out_of_range_witness :
    trigger exampleEnv (game 5 7 9 false true) "take 10 from 1"
      = .ok { game 5 7 9 false true with Out :=
          ["> RangeError: Expected <number> in range [1, pile length (5)], got \x2710\x27.\n"] } ∧
    (CmdTake exampleEnv (game 5 7 9 false true) ["take", "10", "from", "1"]
      = .ok { game 5 7 9 false true with Out := (game 5 7 9 false true).Out ++
        ["> RangeError: Expected <number> in range [1, pile length (" ++ show32 5 ++ ")], got \x27"
          ++ show32 10 ++ "\x27.\n"] } ∧
    ∀ line w, split line = [w, "10", "from", "1"] → lowercase w = "take" →
      trigger exampleEnv (game 5 7 9 false true) line
        = .ok { game 5 7 9 false true with Out := (game 5 7 9 false true).Out ++
          ["> RangeError: Expected <number> in range [1, pile length (" ++ show32 5
            ++ ")], got \x27" ++ show32 10 ++ "\x27.\n"] }) :=
  ⟨by decide,
    C8_take_out_of_range exampleEnv (game 5 7 9 false true) "10" "from" "1" 10 1 5
      (by decide) (by decide) (by decide) (by decide) (by decide) (by decide) (by decide)
      (by decide)⟩

end Dispatch

section Turns

open NimImpl

theorem StartTurn_succ (fuel : Nat) (s : NimImpl) :
    StartTurn (fuel + 1) s =
      if (s.UpdatePrompt.ShowPiles.CPU && !s.UpdatePrompt.ShowPiles.Player1Turn) = true
      then CPUTurn fuel s.UpdatePrompt.ShowPiles else .ok s.UpdatePrompt.ShowPiles := rfl

theorem CPUTurn_succ (fuel : Nat) (s : NimImpl) :
    CPUTurn (fuel + 1) s = s.CPUTurn_move.bind (NextTurn fuel) := rfl

theorem NextTurn_succ (fuel : Nat) (s : NimImpl) :
    NextTurn (fuel + 1) s =
      if s.GameOver = true then .ok s.announceWinner else StartTurn fuel s.SwitchTurn := rfl

theorem GameOver_iff (s : NimImpl) : s.GameOver = true ↔ AllZero s.Piles := by
  simp [GameOver, Pile.eq32, AllZero, and_assoc]

theorem announceWinner_eq (s : NimImpl) :
    s.announceWinner = { s with
      Out := s.Out ++
        [if (s.Player1Turn || !s.CPU) = true then congratsLine s.GetCurrentPlayerName
          else cpuWonLine, "\n\n"],
      ConsoleQuit := true } := by
  unfold announceWinner
  by_cases h : (s.Player1Turn || !s.CPU) = true
  · simp [h, NimImpl.print, congratsLine, GetCurrentPlayerName]
  · simp [h, NimImpl.print, cpuWonLine]

theorem CPUTake_frame (s s1 : NimImpl) (num j : Int) (h : s.CPUTake num j = .ok s1) :
    ∃ P, s1 = { s with Piles := P, Out := s.Out ++ [cpuTakeLine s num j] } := by
  unfold CPUTake at h
  simp only [bind, Except.bind, getPile, setPile, NimImpl.print, pure, Except.pure] at h
  split at h
  · cases h
  · split at h
    · cases h
    · split at h
      · cases h
      · simp only [Except.ok.injEq] at h
        exact ⟨_, h.symm⟩

/-- The removal of `CPUTurn` changes the piles and writes one line; nothing else. -/
theorem CPUTurn_move_frame (s s1 : NimImpl) (h : s.CPUTurn_move = .ok s1) :
    ∃ P line, s1 = { s with Piles := P, Out := s.Out ++ [line] } := by
  rw [CPUTurn_move_eq] at h
  cases hc : choice_main s.Piles with
  | error e => rw [hc] at h; cases h
  | ok r =>
    rw [hc] at h
    cases r with
    | some r =>
      obtain ⟨num, j⟩ := r
      obtain ⟨P, hP⟩ := CPUTake_frame s s1 num j h
      exact ⟨P, _, hP⟩
    | none =>
      simp only [Except.bind] at h
      rw [maxIndex_fallback] at h
      cases h

/-- The interactive loop is ended by the turn functions only with all piles empty. -/
theorem quit_only_when_over (fuel : Nat) :
    (∀ s s1, StartTurn fuel s = .ok s1 → s.ConsoleQuit = false → s1.ConsoleQuit = true →
      s1.GameOver = true) ∧
    (∀ s s1, CPUTurn fuel s = .ok s1 → s.ConsoleQuit = false → s1.ConsoleQuit = true →
      s1.GameOver = true) ∧
    (∀ s s1, NextTurn fuel s = .ok s1 → s.ConsoleQuit = false → s1.ConsoleQuit = true →
      s1.GameOver = true) := by
  induction fuel with
  | zero =>
    refine ⟨?_, ?_, ?_⟩ <;> intro s s1 h <;> cases h
  | succ n ih =>
    obtain ⟨ihS, ihC, ihN⟩ := ih
    refine ⟨?_, ?_, ?_⟩
    · intro s s1 h hq hq1
      rw [StartTurn_succ] at h
      split at h
      · exact ihC _ _ h hq hq1
      · simp only [Except.ok.injEq] at h
        subst h
        rw [show s.UpdatePrompt.ShowPiles.ConsoleQuit = s.ConsoleQuit from rfl, hq] at hq1
        cases hq1
    · intro s s1 h hq hq1
      rw [CPUTurn_succ] at h
      cases hm : s.CPUTurn_move with
      | error e => rw [hm] at h; cases h
      | ok s2 =>
        rw [hm] at h
        obtain ⟨P, line, rfl⟩ := CPUTurn_move_frame s s2 hm
        exact ihN _ _ h hq hq1
    · intro s s1 h hq hq1
      rw [NextTurn_succ] at h
      split at h
      · rename_i hg
        simp only [Except.ok.injEq] at h
        subst h
        rw [announceWinner_eq]
        exact hg
      · exact ihS _ _ h hq hq1

/-- C10: turn completion (`NextTurn`) on the state `s` a move has left.  When all three
piles are zero it does not switch the turn, writes the congratulation with the current
player's name when a human holds the turn (`Player1Turn || !CPU`) and the CPU-won line
when the CPU holds it, and ends the interactive loop; a `CPUTurn` whose removal empties
the piles therefore ends with the CPU-won line.  When some pile is not zero it announces
nothing itself: it switches the turn and starts the next one.  And whenever turn
completion returns with the loop ended, all three piles of the returned state are zero. -/
theorem C10_winner_declared_exactly_at_game_over (s : NimImpl) (fuel : Nat) :
    (AllZero s.Piles →
      NextTurn (fuel + 1) s = .ok { s with
        Out := s.Out ++
          [if (s.Player1Turn || !s.CPU) = true then congratsLine s.GetCurrentPlayerName
            else cpuWonLine, "\n\n"],
        ConsoleQuit := true }) ∧
    (∀ s1, s.CPU = true → s.Player1Turn = false → s.CPUTurn_move = .ok s1 →
      AllZero s1.Piles →
      CPUTurn (fuel + 2) s = .ok { s1 with
        Out := s1.Out ++ [cpuWonLine, "\n\n"], ConsoleQuit := true,
        Player1Turn := s.Player1Turn }) ∧
    (¬ AllZero s.Piles →
      NextTurn (fuel + 1) s = StartTurn fuel s.SwitchTurn ∧
      s.SwitchTurn.Player1Turn = !s.Player1Turn) ∧
    (∀ s1, NextTurn fuel s = .ok s1 → s.ConsoleQuit = false → s1.ConsoleQuit = true →
      AllZero s1.Piles) := by
  refine ⟨?_, ?_, ?_, ?_⟩
  · intro h
    rw [NextTurn_succ, if_pos ((GameOver_iff s).2 h), announceWinner_eq]
  · intro s1 hcpu hp hm hz
    obtain ⟨P, line, rfl⟩ := CPUTurn_move_frame s s1 hm
    rw [CPUTurn_succ, hm]
    simp only [Except.bind]
    rw [NextTurn_succ, if_pos ((GameOver_iff _).2 hz), announceWinner_eq]
    simp [hcpu, hp]
  · intro h
    refine ⟨?_, ?_⟩
    · rw [NextTurn_succ, if_neg (fun hg => h ((GameOver_iff s).1 hg))]
    · simp [SwitchTurn]
  · intro s1 h hq hq1
    exact (GameOver_iff s1).1 ((quit_only_when_over fuel).2.2 s s1 h hq hq1)

/-- C10, worked example: player 2 has just emptied the last pile against a human. -/
theorem C10_winner_declared_exactly_at_game_over_witness :
    NextTurn 1 (game 0 0 0 false false) = .ok { game 0 0 0 false false with
      Out := ["  Congratulations, player2! You have won!", "\n\n"], ConsoleQuit := true } :=
  (C10_winner_declared_exactly_at_game_over (game 0 0 0 false false) 0).1 (by decide)

end Turns

section Frame

open NimImpl

/-- C6 as stated fails: against the CPU, `take 1 from 1` on `(3, 4, 5)` is accepted, and
when the handler has returned the piles are `(1, 4, 5)`, the CPU having answered with
`take 1 from 1`: pile 1 is lower by 2, not by the requested 1. -/
theorem C6_counterexample_cpu_reply :
    TakeAccepted exampleEnv (game 3 4 5 true true) ["take", "1", "from", "1"] 1 1 3 ∧
    CmdTake exampleEnv (game 3 4 5 true true) ["take", "1", "from", "1"]
      = .ok { game 1 4 5 true true with
          Prompt := "player1> ",
          Out := ["  2  4  5\n", "cpu> take 1 from 1\n", "  1  4  5\n"] } ∧
    ¬ ∃ s1, CmdTake exampleEnv (game 3 4 5 true true) ["take", "1", "from", "1"] = .ok s1 ∧
        s1.Piles = (⟨3 - 1⟩, ⟨4⟩, ⟨5⟩) := by
  refine ⟨by decide, by decide, ?_⟩
  rintro ⟨s1, h, hP⟩
  have h2 : CmdTake exampleEnv (game 3 4 5 true true) ["take", "1", "from", "1"]
      = .ok { game 1 4 5 true true with
          Prompt := "player1> ",
          Out := ["  2  4  5\n", "cpu> take 1 from 1\n", "  1  4  5\n"] } := by decide
  rw [h2] at h
  simp only [Except.ok.injEq] at h
  subst h
  revert hP
  decide

/-- C6, amended: for every take command that succeeds on a game with piles in `[0, 20]`,
the handler stores the addressed pile lowered by exactly the requested number, the two
other piles unchanged, and hands that state to `NextTurn`; once the handler has returned
these are still the piles whenever turn completion makes no CPU move, that is when the
opponent is human, or it was not player 1's turn, or the take emptied the last pile. -/
theorem C6_take_lowers_one_pile (env : Env) (s : NimImpl) (cmd : String) (args : List String)
    (number pile count : Int) (hr : PilesInRange s.Piles)
    (hfrom : ∀ w ∈ args, lowercase w = "from" → env.parse_integral w = none)
    (h : TakeAccepted env s (cmd :: args) number pile count) :
    ∃ P, s.Piles.set (pile - 1) ⟨count - number⟩ = .ok P ∧
      P.get (pile - 1) = .ok ⟨count - number⟩ ∧
      (∀ j, j ≠ pile - 1 → P.get j = s.Piles.get j) ∧
      CmdTake env s (cmd :: args) = NextTurn turnFuel { s with Piles := P } ∧
      ((s.CPU && s.Player1Turn) = false ∨ AllZero P →
        ∃ s1, CmdTake env s (cmd :: args) = .ok s1 ∧ s1.Piles = P) := by
  obtain ⟨P, hset, hcmd⟩ := CmdTake_accepted env s cmd args hr hfrom number pile count h
  obtain ⟨hg, hothers⟩ := set_get _ _ _ _ hset
  refine ⟨P, hset, hg, hothers, hcmd, ?_⟩
  intro hcase
  rw [hcmd]
  by_cases hz : AllZero P
  · have hover : ({ s with Piles := P } : NimImpl).GameOver = true := (GameOver_iff _).2 hz
    refine ⟨_, by rw [show turnFuel = 7 + 1 from rfl, NextTurn_succ, if_pos hover], ?_⟩
    exact announceWinner_Piles _
  · have hnr : (s.CPU && s.Player1Turn) = false := by
      rcases hcase with h1 | h1
      · exact h1
      · exact absurd h1 hz
    have hover : ¬ ({ s with Piles := P } : NimImpl).GameOver = true :=
      fun hg => hz ((GameOver_iff _).1 hg)
    have hnext := NextTurn_no_reply 6 { s with Piles := P } hnr
    rw [if_neg hover] at hnext
    exact ⟨_, hnext, rfl⟩

/-- C6, worked example: `take 2 from 3` on `(3, 4, 5)` against a human. -/
theorem C6_take_lowers_one_pile_witness :
    ∃ P, (game 3 4 5 false true).Piles.set (3 - 1) ⟨5 - 2⟩ = .ok P ∧
      P.get (3 - 1) = .ok ⟨5 - 2⟩ ∧
      (∀ j, j ≠ 3 - 1 → P.get j = (game 3 4 5 false true).Piles.get j) ∧
      CmdTake exampleEnv (game 3 4 5 false true) ("take" :: ["2", "from", "3"])
        = NextTurn turnFuel { game 3 4 5 false true with Piles := P } ∧
      (((game 3 4 5 false true).CPU && (game 3 4 5 false true).Player1Turn) = false ∨
          AllZero P →
        ∃ s1, CmdTake exampleEnv (game 3 4 5 false true) ("take" :: ["2", "from", "3"])
          = .ok s1 ∧ s1.Piles = P) :=
  C6_take_lowers_one_pile exampleEnv (game 3 4 5 false true) "take" ["2", "from", "3"] 2 3 5
    (by decide) (by decide) (by decide)

end Frame

section Shorthand

open NimImpl

theorem split_take_front (line : String) : split ("take " ++ line) = "take" :: split line := by
  rfl

theorem trigger_loop_skip (env : Env) (s : NimImpl) (w : String) (rest : List String)
    (cmds : List ConsoleCmd) (h : ∀ c ∈ cmds, c.Name ≠ w) :
    trigger_loop env s (w :: rest) cmds = trigger_loop env s (w :: rest) [] := by
  induction cmds with
  | nil => rfl
  | cons c cs ih =>
    have hc : ¬ c.Name = (w :: rest).getD 0 "" := h c (List.mem_cons_self _ _)
    show (if c.Name = (w :: rest).getD 0 "" then c.Callback env s (w :: rest)
      else trigger_loop env s (w :: rest) cs) = _
    rw [if_neg hc]
    exact ih fun c1 h1 => h c1 (List.mem_cons_of_mem _ h1)

theorem CmdTake_checked_congr (env : Env) (s : NimImpl) (a a1 b : String) (n : Int)
    (ha : env.parse_integral a = some n) (ha1 : env.parse_integral a1 = some n) :
    CmdTake_checked env s a b = CmdTake_checked env s a1 b := by
  simp only [CmdTake_checked, ha, ha1]

/-- `CmdTake` looks at its `number` word only through the integer it parses to. -/
theorem CmdTake_congr (env : Env) (s : NimImpl) (cmd a a1 : String) (rest : List String)
    (n : Int) (ha : env.parse_integral a = some n) (ha1 : env.parse_integral a1 = some n) :
    CmdTake env s (cmd :: a :: rest) = CmdTake env s (cmd :: a1 :: rest) := by
  match rest with
  | [] => rw [CmdTake_two, CmdTake_two]
  | [b] =>
    by_cases hf : lowercase b = "from"
    · rw [CmdTake_three_from _ _ _ _ _ hf, CmdTake_three_from _ _ _ _ _ hf]
    · rw [CmdTake_three _ _ _ _ _ hf, CmdTake_three _ _ _ _ _ hf]
      exact CmdTake_checked_congr env s a a1 b n ha ha1
  | [f, b] =>
    by_cases hf : lowercase f = "from"
    · rw [CmdTake_four_from _ _ _ _ _ _ hf, CmdTake_four_from _ _ _ _ _ _ hf]
      exact CmdTake_checked_congr env s a a1 b n ha ha1
    · rw [CmdTake_four _ _ _ _ _ _ hf, CmdTake_four _ _ _ _ _ _ hf]
  | f :: b :: d :: more => rw [CmdTake_many, CmdTake_many]

/-- C9: a line whose first word parses as an integer is handled exactly as the same line
with `take ` put in front: same resulting game, same output; and when nothing follows
the number, the answer is the `Argument <pile> not found` line of `CmdTake`, with no
other change.  (The reader of integers is a parameter; it is assumed to read the first
word the same with its letters lowered, and to read no command name as an integer.) -/
theorem C9_bare_number_is_take (env : Env) (s : NimImpl) (line t : String)
    (rest : List String) (n : Int) (hsplit : split line = t :: rest)
    (hparse : env.parse_integral t = some n)
    (hcase : env.parse_integral (lowercase t) = env.parse_integral t)
    (hnames : ∀ c ∈ Commands, env.parse_integral c.Name = none) :
    trigger env s line = trigger env s ("take " ++ line) ∧
    (rest = [] → trigger env s line = .ok { s with Out := s.Out ++
      ["> ArgumentError: Argument <pile> not found. Type \x27help take\x27 for usage details.\n"] }) := by
  have hlow : env.parse_integral (lowercase t) = some n := by rw [hcase, hparse]
  have hnot : ∀ c ∈ Commands, c.Name ≠ lowercase t := by
    intro c hc heq
    have := hnames c hc
    rw [heq, hlow] at this
    cases this
  have h1 : trigger env s line = CmdTake env s ("take" :: lowercase t :: rest) := by
    unfold trigger
    rw [hsplit]
    show trigger_loop env s (lowercase t :: rest) Commands = _
    rw [trigger_loop_skip env s _ _ _ hnot]
    show (match env.parse_integral (lowercase t) with
      | some _ => CmdTake env s ("take" :: lowercase t :: rest)
      | none => _) = _
    rw [hlow]
  have h2 : trigger env s ("take " ++ line) = CmdTake env s ("take" :: t :: rest) :=
    trigger_take env s _ "take" (t :: rest) (by rw [split_take_front, hsplit]) (by decide)
  have h3 := CmdTake_congr env s "take" (lowercase t) t rest n hlow hparse
  refine ⟨by rw [h1, h2, h3], ?_⟩
  intro hrest
  subst hrest
  rw [h1, CmdTake_two]
  rfl

/-- C9, worked example: the line `4` alone. -/
theorem C9_bare_number_is_take_witness :
    trigger exampleEnv (game 5 7 9 false true) "4"
      = trigger exampleEnv (game 5 7 9 false true) ("take " ++ "4") ∧
    ([] = ([] : List String) → trigger exampleEnv (game 5 7 9 false true) "4"
      = .ok { game 5 7 9 false true with Out := (game 5 7 9 false true).Out ++
        ["> ArgumentError: Argument <pile> not found. Type \x27help take\x27 for usage details.\n"] }) :=
  C9_bare_number_is_take exampleEnv (game 5 7 9 false true) "4" "4" [] 4 (by decide) (by decide)
    (by decide) (by decide)

end Shorthand

section Reachable

open NimImpl

theorem set_inRange (P Q : Piles3) (j c : Int) (hr : PilesInRange P) (h0 : 0 ≤ c)
    (h20 : c ≤ 20) (h : P.set j ⟨c⟩ = .ok Q) : PilesInRange Q := by
  obtain ⟨r0, r1, r2⟩ := hr
  unfold Piles3.set at h
  split_ifs at h <;> simp only [Except.ok.injEq] at h <;> subst h
  · exact ⟨⟨h0, h20⟩, r1, r2⟩
  · exact ⟨r0, ⟨h0, h20⟩, r2⟩
  · exact ⟨r0, r1, ⟨h0, h20⟩⟩

theorem StartTurn_safe (fuel : Nat) (s : NimImpl) (hr : PilesInRange s.Piles) :
    PilesSafe (StartTurn (fuel + 4) s) := by
  rw [StartTurn_succ]
  split
  · rename_i hg
    have hp : s.UpdatePrompt.ShowPiles.Player1Turn = false := by
      cases hc : s.UpdatePrompt.ShowPiles.Player1Turn
      · rfl
      · rw [hc] at hg; simp at hg
    have hr1 : PilesInRange s.UpdatePrompt.ShowPiles.Piles := hr
    rw [CPUTurn_succ]
    by_cases hz : nimSum s.UpdatePrompt.ShowPiles.Piles = 0
    · rw [CPUTurn_move_fallback _ hr1 hz]
      rfl
    · obtain ⟨j, count, P, -, -, -, -, -, -, hrP, -, hmove⟩ := CPUTurn_move_winning _ hr1 hz
      rw [hmove]
      simp only [Except.bind]
      rw [NextTurn_no_reply _ _ (by simp [hp])]
      show PilesInRange _
      split
      · rw [announceWinner_Piles]; exact hrP
      · exact hrP
  · exact hr

theorem NextTurn_safe (fuel : Nat) (s : NimImpl) (hr : PilesInRange s.Piles) :
    PilesSafe (NextTurn (fuel + 5) s) := by
  rw [NextTurn_succ]
  split
  · show PilesInRange _
    rw [announceWinner_Piles]; exact hr
  · exact StartTurn_safe fuel _ hr

theorem CmdTake_checked_safe (env : Env) (s : NimImpl) (a b : String)
    (hr : PilesInRange s.Piles) : PilesSafe (CmdTake_checked env s a b) := by
  by_cases h : ∃ n k c, env.parse_integral a = some n ∧ env.parse_integral b = some k ∧
      1 ≤ k ∧ k ≤ 3 ∧ s.Piles.get (k - 1) = .ok ⟨c⟩ ∧ c ≠ 0 ∧ 1 ≤ n ∧ n ≤ c
  · obtain ⟨n, k, c, ha, hb, hk1, hk3, hget, hc, hn1, hn⟩ := h
    have hc20 := (get_inRange _ _ _ hr hget).2
    obtain ⟨P, hset, hcmd⟩ :=
      CmdTake_checked_accepted env s a b n k c ha hb hk1 hk3 hget hc hn1 hn hc20
    rw [hcmd]
    exact NextTurn_safe 3 _ (set_inRange _ _ _ _ hr (by omega) (by omega) hset)
  · obtain ⟨line, -, hcmd⟩ := CmdTake_checked_rejected env s a b h
    rw [hcmd]
    exact hr

theorem CmdTake_safe (env : Env) (s : NimImpl) (cmd : String) (args : List String)
    (hr : PilesInRange s.Piles) : PilesSafe (CmdTake env s (cmd :: args)) := by
  match args with
  | [] => exact hr
  | [a] => exact hr
  | [a, b] =>
    by_cases hf : lowercase b = "from"
    · rw [CmdTake_three_from _ _ _ _ _ hf]; exact hr
    · rw [CmdTake_three _ _ _ _ _ hf]; exact CmdTake_checked_safe env s a b hr
  | [a, f, b] =>
    by_cases hf : lowercase f = "from"
    · rw [CmdTake_four_from _ _ _ _ _ _ hf]; exact CmdTake_checked_safe env s a b hr
    · rw [CmdTake_four _ _ _ _ _ _ hf]; exact hr
  | a :: f :: b :: d :: more => rw [CmdTake_many]; exact hr

theorem PrintHelpLines_Piles (lines : List String) (n : Nat) (s : NimImpl) :
    (PrintHelpLines lines n s).Piles = s.Piles := by
  induction lines generalizing n s with
  | nil => rfl
  | cons l ls ih =>
    show (PrintHelpLines ls 0 _).Piles = _
    rw [ih]
    rfl

theorem PrintHelpForCmd_Piles (s : NimImpl) (d : ConsoleCmdDesc) :
    (PrintHelpForCmd s d).Piles = s.Piles := by
  unfold PrintHelpForCmd
  simp only
  split <;> (show (PrintHelpLines _ _ _).Piles = _; rw [PrintHelpLines_Piles]; rfl)

theorem CmdHelp_args_Piles (args : List String) (s : NimImpl) :
    (CmdHelp_args args s).Piles = s.Piles := by
  induction args generalizing s with
  | nil => rfl
  | cons a as ih =>
    unfold CmdHelp_args
    simp only
    split
    · rw [ih]; rfl
    · rw [ih, PrintHelpForCmd_Piles]

theorem foldl_help_Piles (descs : List (String × ConsoleCmdDesc)) (s : NimImpl) :
    (descs.foldl (fun s elem => PrintHelpForCmd s elem.2) s).Piles = s.Piles := by
  induction descs generalizing s with
  | nil => rfl
  | cons d ds ih =>
    rw [List.foldl_cons, ih, PrintHelpForCmd_Piles]

theorem CmdHelp_safe (env : Env) (s : NimImpl) (parts : List String)
    (hr : PilesInRange s.Piles) : PilesSafe (CmdHelp env s parts) := by
  unfold CmdHelp
  simp only
  split
  · show PilesInRange _
    rw [foldl_help_Piles]; exact hr
  · split
    · exact hr
    · show PilesInRange _
      rw [CmdHelp_args_Piles]; exact hr

theorem CmdShow_args_ok (env : Env) (s : NimImpl) (args : List String) (buf : String) :
    ∃ text, CmdShow_args env s args buf = .ok text := by
  induction args generalizing buf with
  | nil => exact ⟨_, rfl⟩
  | cons a as ih =>
    unfold CmdShow_args
    cases hp : env.parse_integral a with
    | none => exact ⟨_, rfl⟩
    | some val =>
      simp only
      by_cases hv : val < 1 ∨ val > 3
      · rw [if_pos hv]; exact ⟨_, rfl⟩
      · rw [if_neg hv]
        obtain ⟨p, hget⟩ := get_of_index s.Piles val (by omega) (by omega)
        simp only [getPile, hget, bind, Except.bind]
        exact ih _

theorem CmdShow_safe (env : Env) (s : NimImpl) (parts : List String)
    (hr : PilesInRange s.Piles) : PilesSafe (CmdShow env s parts) := by
  unfold CmdShow
  simp only
  split
  · exact hr
  · obtain ⟨text, ht⟩ := CmdShow_args_ok env s (parts.drop 1) ""
    simp only [ht, bind, Except.bind, pure, Except.pure]
    exact hr

theorem CmdName_safe (env : Env) (s : NimImpl) (parts : List String)
    (hr : PilesInRange s.Piles) : PilesSafe (CmdName env s parts) := by
  unfold CmdName
  simp only
  split
  · exact hr
  · show PilesInRange (UpdatePrompt (SetCurrentPlayerName s _)).Piles
    unfold SetCurrentPlayerName
    split <;> exact hr

theorem Rnd_fresh (env : Env) (s : NimImpl) : FreshPiles (s.Rnd env).Piles := by
  simp only [FreshPiles, NimImpl.Rnd, Pile.Rnd, PILE_MIN, PILE_MAX]
  omega

theorem fresh_inRange (P : Piles3) (h : FreshPiles P) : PilesInRange P := by
  simp only [FreshPiles, PilesInRange, PILE_MIN, PILE_MAX] at *
  omega

theorem Restart_safe (env : Env) (s : NimImpl) : PilesSafe (s.Restart env) := by
  unfold Restart
  exact StartTurn_safe 4 _ (fresh_inRange _ (Rnd_fresh env s))

theorem CmdRestart_safe (env : Env) (s : NimImpl) (parts : List String)
    (hr : PilesInRange s.Piles) : PilesSafe (CmdRestart env s parts) := by
  unfold CmdRestart
  simp only
  split
  · exact hr
  · split
    · exact hr
    · split
      · exact Restart_safe env _
      · split
        · exact Restart_safe env _
        · exact hr

theorem CmdColor_safe (env : Env) (s : NimImpl) (parts : List String)
    (hr : PilesInRange s.Piles) : PilesSafe (CmdColor env s parts) := by
  unfold CmdColor
  simp only
  split
  · exact hr
  · split
    · exact hr
    · split <;> exact hr

theorem Commands_safe (env : Env) (s : NimImpl) (w : String) (rest : List String)
    (hr : PilesInRange s.Piles) :
    ∀ c ∈ Commands, PilesSafe (c.Callback env s (w :: rest)) := by
  intro c hc
  simp only [Commands, List.mem_cons, List.mem_singleton, List.not_mem_nil, or_false] at hc
  rcases hc with rfl | rfl | rfl | rfl | rfl | rfl | rfl | rfl | rfl
  · exact CmdHelp_safe env s _ hr
  · exact CmdShow_safe env s _ hr
  · exact CmdTake_safe env s _ _ hr
  · exact CmdName_safe env s _ hr
  · exact hr
  · exact CmdRestart_safe env s _ hr
  · exact hr
  · exact hr
  · exact CmdColor_safe env s _ hr

theorem trigger_loop_safe (env : Env) (s : NimImpl) (w : String) (rest : List String)
    (hr : PilesInRange s.Piles) (cmds : List ConsoleCmd)
    (hc : ∀ c ∈ cmds, PilesSafe (c.Callback env s (w :: rest))) :
    PilesSafe (trigger_loop env s (w :: rest) cmds) := by
  induction cmds with
  | nil =>
    unfold trigger_loop
    simp only
    split
    · exact CmdTake_safe env s _ _ hr
    · exact hr
  | cons c cs ih =>
    unfold trigger_loop
    split
    · exact hc c (List.mem_cons_self _ _)
    · exact ih fun c1 h1 => hc c1 (List.mem_cons_of_mem _ h1)

/-- Handling one line keeps the piles in `[0, 20]`, unless the CPU fallback stops it. -/
theorem trigger_safe (env : Env) (s : NimImpl) (line : String) (hr : PilesInRange s.Piles) :
    PilesSafe (trigger env s line) := by
  unfold trigger
  split
  · exact hr
  · exact trigger_loop_safe env s _ _ hr Commands (Commands_safe env s _ _ hr)

theorem run_safe (env : Env) (lines : List String) (s : NimImpl) (hr : PilesInRange s.Piles) :
    PilesSafe (run env s lines) := by
  induction lines generalizing s with
  | nil => exact hr
  | cons l ls ih =>
    unfold run
    split
    · exact hr
    · have h1 := trigger_safe env s l hr
      cases ht : trigger env s l with
      | error e =>
        rw [ht] at h1
        simp only [bind, Except.bind]
        exact h1
      | ok s1 =>
        rw [ht] at h1
        simp only [bind, Except.bind]
        exact ih s1 h1

end Reachable

section Play

open NimImpl

theorem congrats_last (name : String) : (congratsLine name).data.getLast? = some '!' := by
  have h : (congratsLine name).data
      = ("  Congratulations, ".data ++ name.data) ++ "! You have won!".data := rfl
  rw [h, List.getLast?_append]
  rfl

theorem newline_not_congrats (x name : String) : x ++ "\n" ≠ congratsLine name := by
  intro h
  have h1 := congrArg (fun t : String => t.data.getLast?) h
  simp only [String.data_append, congrats_last] at h1
  rw [List.getLast?_concat] at h1
  revert h1
  decide

theorem cpuTakeLine_not_congrats (s : NimImpl) (num j : Int) (name : String) :
    cpuTakeLine s num j ≠ congratsLine name :=
  newline_not_congrats _ name

theorem cpuWon_not_congrats (name : String) : cpuWonLine ≠ congratsLine name := by
  intro h
  have h1 := congrArg (fun t : String => t.data.getLast?) h
  simp only [congrats_last] at h1
  revert h1
  decide

theorem blank_not_congrats (name : String) : "\n\n" ≠ congratsLine name := by
  intro h
  have h1 := congrArg (fun t : String => t.data.getLast?) h
  simp only [congrats_last] at h1
  revert h1
  decide

theorem errorLine_not_congrats (line name : String) (h : IsErrorLine line) :
    line ≠ congratsLine name := by
  obtain ⟨kind, msg, -, rfl⟩ := h
  intro h
  have h1 := congrArg (fun t : String => t.data.head?) h
  have h2 : (print_err kind ++ msg).data = '>' :: (' ' :: (kind.data ++ ": ".data ++ msg.data)) := by
    simp [print_err, String.data_append]
  have h3 : (congratsLine name).data
      = ' ' :: (" Congratulations, ".data ++ name.data ++ "! You have won!".data) := rfl
  simp only [h2, h3, List.head?_cons] at h1
  revert h1
  decide

/-- A removal from one pile of a position of nim-sum zero leaves a nonzero nim-sum. -/
theorem decrement_nimSum_ne (P Q : Piles3) (j number count : Int) (hr : PilesInRange P)
    (hz : nimSum P = 0) (hget : P.get j = .ok ⟨count⟩) (h1 : 1 ≤ number)
    (hn : number ≤ count) (hset : P.set j ⟨count - number⟩ = .ok Q) :
    nimSum Q ≠ 0 ∧ ¬ AllZero Q := by
  have key : nimSum Q ≠ 0 := by
    obtain ⟨⟨a⟩, ⟨b⟩, ⟨c⟩⟩ := P
    have hne : (count - number).toNat ≠ count.toNat := by omega
    unfold Piles3.get at hget
    unfold Piles3.set at hset
    unfold nimSum at hz ⊢
    split_ifs at hget hset <;> simp only [Except.ok.injEq, Pile.mk.injEq] at hget hset <;>
      subst hget <;> subst hset <;> simp only at hz ⊢ <;> intro hq <;> rw [← hz] at hq
    · exact hne (Nat.xor_left_inj.1 (Nat.xor_left_inj.1 hq))
    · exact hne (Nat.xor_right_inj.1 (Nat.xor_left_inj.1 hq))
    · exact hne (Nat.xor_right_inj.1 hq)
  refine ⟨key, ?_⟩
  rintro ⟨z0, z1, z2⟩
  apply key
  simp [nimSum, z0, z1, z2]

theorem CmdTake_checked_cases (env : Env) (s : NimImpl) (a b : String)
    (hr : PilesInRange s.Piles) :
    (∃ line, IsErrorLine line ∧ CmdTake_checked env s a b = .ok (s.print line)) ∨
    (∃ number pile count P, s.Piles.get (pile - 1) = .ok ⟨count⟩ ∧ 1 ≤ number ∧
      number ≤ count ∧ s.Piles.set (pile - 1) ⟨count - number⟩ = .ok P ∧
      CmdTake_checked env s a b = NextTurn turnFuel { s with Piles := P }) := by
  by_cases h : ∃ n k c, env.parse_integral a = some n ∧ env.parse_integral b = some k ∧
      1 ≤ k ∧ k ≤ 3 ∧ s.Piles.get (k - 1) = .ok ⟨c⟩ ∧ c ≠ 0 ∧ 1 ≤ n ∧ n ≤ c
  · obtain ⟨n, k, c, ha, hb, hk1, hk3, hget, hc, hn1, hn⟩ := h
    have hc20 := (get_inRange _ _ _ hr hget).2
    obtain ⟨P, hset, hcmd⟩ :=
      CmdTake_checked_accepted env s a b n k c ha hb hk1 hk3 hget hc hn1 hn hc20
    exact Or.inr ⟨n, k, c, P, hget, hn1, hn, hset, hcmd⟩
  · exact Or.inl (CmdTake_checked_rejected env s a b h)

/-- Whatever its words, `CmdTake` either answers with an error line or decrements one pile
by an amount between 1 and its count and runs `NextTurn`. -/
theorem CmdTake_cases (env : Env) (s : NimImpl) (cmd : String) (args : List String)
    (hr : PilesInRange s.Piles) :
    (∃ line, IsErrorLine line ∧ CmdTake env s (cmd :: args) = .ok (s.print line)) ∨
    (∃ number pile count P, s.Piles.get (pile - 1) = .ok ⟨count⟩ ∧ 1 ≤ number ∧
      number ≤ count ∧ s.Piles.set (pile - 1) ⟨count - number⟩ = .ok P ∧
      CmdTake env s (cmd :: args) = NextTurn turnFuel { s with Piles := P }) := by
  match args with
  | [] => exact Or.inl ⟨_, errorLine_argument _, CmdTake_one env s cmd⟩
  | [a] => exact Or.inl ⟨_, errorLine_argument _, CmdTake_two env s cmd a⟩
  | [a, b] =>
    by_cases hf : lowercase b = "from"
    · exact Or.inl ⟨_, errorLine_argument _, CmdTake_three_from env s cmd a b hf⟩
    · rw [CmdTake_three _ _ _ _ _ hf]; exact CmdTake_checked_cases env s a b hr
  | [a, f, b] =>
    by_cases hf : lowercase f = "from"
    · rw [CmdTake_four_from _ _ _ _ _ _ hf]; exact CmdTake_checked_cases env s a b hr
    · exact Or.inl ⟨_, errorLine_argument _, CmdTake_four env s cmd a f b hf⟩
  | a :: f :: b :: d :: more =>
    exact Or.inl ⟨_, errorLine_argument _, CmdTake_many env s cmd a f b d more⟩

theorem cpu_move_summary (t : NimImpl) (hr : PilesInRange t.Piles)
    (hs : nimSum t.Piles ≠ 0) :
    ∃ t1 line, t.CPUTurn_move = .ok t1 ∧ t1.CPU = t.CPU ∧ t1.Player1Turn = t.Player1Turn ∧
      t1.ConsoleQuit = t.ConsoleQuit ∧ t1.Out = t.Out ++ [line] ∧
      (∀ name, line ≠ congratsLine name) ∧ PilesInRange t1.Piles ∧ nimSum t1.Piles = 0 := by
  obtain ⟨j, count, P, -, -, -, -, -, -, hrP, hz, hmove⟩ := CPUTurn_move_winning t hr hs
  exact ⟨_, _, hmove, rfl, rfl, rfl, rfl, fun name => cpuTakeLine_not_congrats _ _ _ name,
    hrP, hz⟩

/-- The CPU, to move on a nonzero nim-sum, answers and stays ahead. -/
theorem cpu_reply (base : List String) (t : NimImpl) (fuel : Nat) (hcpu : t.CPU = true)
    (hp : t.Player1Turn = false) (hq : t.ConsoleQuit = false) (hr : PilesInRange t.Piles)
    (hs : nimSum t.Piles ≠ 0)
    (hout : ∃ extra, t.Out = base ++ extra ∧ ∀ name, congratsLine name ∉ extra) :
    ∃ s1, CPUTurn (fuel + 3) t = .ok s1 ∧ CpuAhead base s1 := by
  obtain ⟨t1, line, hmove, hc1, hp1, hq1, ho1, hline, hrP, hz⟩ := cpu_move_summary t hr hs
  obtain ⟨extra, hext, hno⟩ := hout
  rw [hcpu] at hc1
  rw [hp] at hp1
  rw [hq] at hq1
  rw [CPUTurn_succ, hmove]
  simp only [Except.bind]
  rw [NextTurn_no_reply _ _ (by simp [hp1])]
  refine ⟨_, rfl, ?_⟩
  split
  · rename_i hg
    have hw : t1.announceWinner = { t1 with
        Out := t1.Out ++ [cpuWonLine, "\n\n"], ConsoleQuit := true } := by
      rw [announceWinner_eq]
      simp [hc1, hp1]
    rw [hw]
    refine ⟨hc1, hrP, hz, ?_, ?_, extra ++ [line, cpuWonLine, "\n\n"], ?_, ?_⟩
    · intro h
      cases h
    · intro _
      exact ⟨(GameOver_iff _).1 hg, hp1, _, rfl⟩
    · show t1.Out ++ [cpuWonLine, "\n\n"] = _
      rw [ho1, hext]
      simp
    · intro name hmem
      simp only [List.mem_append, List.mem_cons, List.mem_singleton, List.not_mem_nil,
        or_false] at hmem
      rcases hmem with h1 | h1 | h1 | h1
      · exact hno name h1
      · exact hline name h1.symm
      · exact cpuWon_not_congrats _ h1.symm
      · exact blank_not_congrats _ h1.symm
  · refine ⟨hc1, hrP, hz, ?_, ?_, extra ++ [line, t1.SwitchTurn.UpdatePrompt.format ++ "\n"],
      ?_, ?_⟩
    · intro _
      show xor t1.Player1Turn true = true
      rw [hp1]
      rfl
    · intro h
      have h2 : t1.ConsoleQuit = true := h
      rw [hq1] at h2
      cases h2
    · show t1.Out ++ [_] = _
      rw [ho1, hext]
      simp
    · intro name hmem
      simp only [List.mem_append, List.mem_cons, List.mem_singleton, List.not_mem_nil,
        or_false] at hmem
      rcases hmem with h1 | h1 | h1
      · exact hno name h1
      · exact hline name h1.symm
      · exact newline_not_congrats _ _ h1.symm

/-- A turn started for the CPU on a nonzero nim-sum: it answers and stays ahead. -/
theorem start_reply (base : List String) (t : NimImpl) (fuel : Nat) (hcpu : t.CPU = true)
    (hp : t.Player1Turn = false) (hq : t.ConsoleQuit = false) (hr : PilesInRange t.Piles)
    (hs : nimSum t.Piles ≠ 0)
    (hout : ∃ extra, t.Out = base ++ extra ∧ ∀ name, congratsLine name ∉ extra) :
    ∃ s1, StartTurn (fuel + 4) t = .ok s1 ∧ CpuAhead base s1 := by
  obtain ⟨extra, hext, hno⟩ := hout
  have hg : (t.UpdatePrompt.ShowPiles.CPU && !t.UpdatePrompt.ShowPiles.Player1Turn) = true := by
    show (t.CPU && !t.Player1Turn) = true
    simp [hcpu, hp]
  have hc2 : t.UpdatePrompt.ShowPiles.CPU = true := hcpu
  have hp2 : t.UpdatePrompt.ShowPiles.Player1Turn = false := hp
  have hq2 : t.UpdatePrompt.ShowPiles.ConsoleQuit = false := hq
  have hr2 : PilesInRange t.UpdatePrompt.ShowPiles.Piles := hr
  have hs2 : nimSum t.UpdatePrompt.ShowPiles.Piles ≠ 0 := hs
  have ho2 : t.UpdatePrompt.ShowPiles.Out = base ++ (extra ++ [t.UpdatePrompt.format ++ "\n"]) := by
    show t.Out ++ [_] = _
    rw [hext, List.append_assoc]
  have hn2 : ∀ name, congratsLine name ∉ extra ++ [t.UpdatePrompt.format ++ "\n"] := by
    intro name hmem
    simp only [List.mem_append, List.mem_singleton] at hmem
    rcases hmem with h1 | h1
    · exact hno name h1
    · exact newline_not_congrats _ _ h1.symm
  rw [StartTurn_succ, if_pos hg]
  exact cpu_reply base t.UpdatePrompt.ShowPiles fuel hc2 hp2 hq2 hr2 hs2 ⟨_, ho2, hn2⟩

/-- One take command typed while the CPU is ahead leaves the CPU ahead. -/
theorem human_step (env : Env) (base : List String) (s : NimImpl) (cmd : String)
    (args : List String) (h : CpuAhead base s) (hq : s.ConsoleQuit = false) :
    ∃ s1, CmdTake env s (cmd :: args) = .ok s1 ∧ CpuAhead base s1 := by
  obtain ⟨hcpu, hr, hz, hturn, hend, extra, hext, hno⟩ := h
  rcases CmdTake_cases env s cmd args hr with ⟨line, hline, hcmd⟩ |
    ⟨number, pile, count, P, hget, h1, hn, hset, hcmd⟩
  · refine ⟨_, hcmd, hcpu, hr, hz, hturn, ?_, extra ++ [line], ?_, ?_⟩
    · intro hq1
      rw [show (s.print line).ConsoleQuit = s.ConsoleQuit from rfl, hq] at hq1
      cases hq1
    · show s.Out ++ [line] = _
      rw [hext, List.append_assoc]
    · intro name hmem
      simp only [List.mem_append, List.mem_singleton] at hmem
      rcases hmem with h2 | h2
      · exact hno name h2
      · exact errorLine_not_congrats _ _ hline h2.symm
  · obtain ⟨hne, hnz⟩ := decrement_nimSum_ne _ _ _ _ _ hr hz hget h1 hn hset
    have hc20 := get_inRange _ _ _ hr hget
    have hrP : PilesInRange P := set_inRange _ _ _ _ hr (by omega) (by omega) hset
    have hover : ¬ ({ s with Piles := P } : NimImpl).GameOver = true :=
      fun hg => hnz ((GameOver_iff _).1 hg)
    rw [hcmd, show turnFuel = 7 + 1 from rfl, NextTurn_succ, if_neg hover]
    have hp2 : (SwitchTurn { s with Piles := P }).Player1Turn = false := by
      show xor s.Player1Turn true = false
      rw [hturn hq]
      rfl
    exact start_reply base (SwitchTurn { s with Piles := P }) 3 hcpu hp2 hq hrP hne
      ⟨extra, hext, hno⟩

theorem run_takes (env : Env) (base : List String) (lines : List String) (s : NimImpl)
    (h : CpuAhead base s)
    (htake : ∀ l ∈ lines, ∃ w rest, split l = w :: rest ∧ lowercase w = "take") :
    ∃ s1, run env s lines = .ok s1 ∧ CpuAhead base s1 := by
  induction lines generalizing s with
  | nil => exact ⟨s, rfl, h⟩
  | cons l ls ih =>
    unfold run
    by_cases hq : s.ConsoleQuit = true
    · rw [if_pos hq]; exact ⟨s, rfl, h⟩
    · rw [if_neg hq]
      obtain ⟨w, rest, hsplit, hw⟩ := htake l (List.mem_cons_self _ _)
      obtain ⟨s1, hs1, ha⟩ := human_step env base s "take" rest h (by simpa using hq)
      rw [trigger_take env s l w rest hsplit hw, hs1]
      exact ih s1 ha fun l1 h1 => htake l1 (List.mem_cons_of_mem _ h1)

/-- C4: in a game against the CPU, from any position with counts in `[0, 20]` and nonzero
nim-sum on which the turn is started for the CPU (`StartTurn` with `Player1Turn = false`),
the CPU moves, and after every sequence of lines that are take commands (accepted or
not): the nim-sum is 0; as long as the console runs it is the human's turn
(`Player1Turn`); every removal the human can make there, any amount from 1 to the count
of one pile, leaves a nonzero nim-sum, so not all piles empty; no congratulation has been
written, for any name; and if the console loop has ended, all piles are zero, the turn is
the CPU's and the last thing written is the CPU-won line. -/
theorem C4_cpu_ahead_stays_ahead (env : Env) (s0 : NimImpl) (lines : List String)
    (hcpu : s0.CPU = true) (hp : s0.Player1Turn = false) (hq : s0.ConsoleQuit = false)
    (hr : PilesInRange s0.Piles) (hs : nimSum s0.Piles ≠ 0)
    (htake : ∀ l ∈ lines, ∃ w rest, split l = w :: rest ∧ lowercase w = "take") :
    ∃ s1, StartTurn turnFuel s0 = .ok s1 ∧
    ∃ s2, run env s1 lines = .ok s2 ∧
      s2.CPU = true ∧ PilesInRange s2.Piles ∧ nimSum s2.Piles = 0 ∧
      (s2.ConsoleQuit = false → s2.Player1Turn = true) ∧
      (∀ number pile count P, s2.Piles.get (pile - 1) = .ok ⟨count⟩ → 1 ≤ number →
        number ≤ count → s2.Piles.set (pile - 1) ⟨count - number⟩ = .ok P →
        nimSum P ≠ 0 ∧ ¬ AllZero P) ∧
      (∃ extra, s2.Out = s0.Out ++ extra ∧ ∀ name, congratsLine name ∉ extra) ∧
      (s2.ConsoleQuit = true → AllZero s2.Piles ∧ s2.Player1Turn = false ∧
        ∃ pre, s2.Out = pre ++ [cpuWonLine, "\n\n"]) := by
  obtain ⟨s1, hs1, ha1⟩ := start_reply s0.Out s0 4 hcpu hp hq hr hs ⟨[], by simp, by simp⟩
  obtain ⟨s2, hs2, hc2, hr2, hz2, hturn, hend, hout⟩ := run_takes env s0.Out lines s1 ha1 htake
  refine ⟨s1, hs1, s2, hs2, hc2, hr2, hz2, hturn, ?_, hout, hend⟩
  intro number pile count P hget h1 hn hset
  exact decrement_nimSum_ne _ _ _ _ _ hr2 hz2 hget h1 hn hset

/-- C4, worked example: the CPU to move on `(3, 4, 5)`, then the human's `take 1 from 1`. -/
theorem C4_cpu_ahead_stays_ahead_witness :
    ∃ s1, StartTurn turnFuel (game 3 4 5 true false) = .ok s1 ∧
    ∃ s2, run exampleEnv s1 ["take 1 from 1"] = .ok s2 ∧
      s2.CPU = true ∧ PilesInRange s2.Piles ∧ nimSum s2.Piles = 0 ∧
      (s2.ConsoleQuit = false → s2.Player1Turn = true) ∧
      (∀ number pile count P, s2.Piles.get (pile - 1) = .ok ⟨count⟩ → 1 ≤ number →
        number ≤ count → s2.Piles.set (pile - 1) ⟨count - number⟩ = .ok P →
        nimSum P ≠ 0 ∧ ¬ AllZero P) ∧
      (∃ extra, s2.Out = (game 3 4 5 true false).Out ++ extra ∧
        ∀ name, congratsLine name ∉ extra) ∧
      (s2.ConsoleQuit = true → AllZero s2.Piles ∧ s2.Player1Turn = false ∧
        ∃ pre, s2.Out = pre ++ [cpuWonLine, "\n\n"]) :=
  C4_cpu_ahead_stays_ahead exampleEnv (game 3 4 5 true false) ["take 1 from 1"] (by decide)
    (by decide) (by decide) (by decide) (by decide)
    (fun l hl => ⟨"take", ["1", "from", "1"], by
      rw [List.mem_singleton] at hl
      subst hl
      decide, by decide⟩)

end Play

section Fuel

open NimImpl

theorem get_error (P : Piles3) (j : Int) (e : Fault) (h : P.get j = .error e) : e ≠ .fuel := by
  unfold Piles3.get at h
  split_ifs at h
  simp only [Except.error.injEq] at h
  rw [← h]
  exact fun h2 => by cases h2

theorem set_error (P : Piles3) (j : Int) (p : Pile) (e : Fault) (h : P.set j p = .error e) :
    e ≠ .fuel := by
  unfold Piles3.set at h
  split_ifs at h
  simp only [Except.error.injEq] at h
  rw [← h]
  exact fun h2 => by cases h2

theorem subAssign_error (p : Pile) (d : Int) (e : Fault) (h : p.subAssign d = .error e) :
    e ≠ .fuel := by
  unfold Pile.subAssign NIM_ASSERT at h
  simp only [bind, Except.bind, pure, Except.pure] at h
  split at h
  · rename_i e1 h1
    split at h1
    · cases h1
    · simp only [Except.error.injEq] at h1 h
      rw [← h, ← h1]
      exact fun h2 => by cases h2
  · cases h

theorem CPUTake_error (s : NimImpl) (num j : Int) (e : Fault) (h : s.CPUTake num j = .error e) :
    e ≠ .fuel := by
  unfold CPUTake at h
  simp only [bind, Except.bind, getPile, setPile, NimImpl.print, pure, Except.pure] at h
  split at h
  · rename_i e1 h1
    simp only [Except.error.injEq] at h
    rw [← h]
    exact get_error _ _ _ h1
  · split at h
    · rename_i e1 h1
      simp only [Except.error.injEq] at h
      rw [← h]
      exact subAssign_error _ _ _ h1
    · split at h
      · rename_i e1 h1
        simp only [Except.error.injEq] at h
        rw [← h]
        exact set_error _ _ _ _ h1
      · cases h

theorem parity_ok (P : Piles3) (l : List Nat) (st : bitset) :
    ∃ r, CPUTurn_parity P l st = .ok r := by
  induction l generalizing st with
  | nil => exact ⟨_, rfl⟩
  | cons i rest ih => exact ih _

theorem choice_scanPiles_error (P : Piles3) (st : bitset) (i : Nat) (js : List Nat) (e : Fault)
    (h : choice_scanPiles P st i js = .error e) : e ≠ .fuel := by
  induction js with
  | nil => cases h
  | cons j rest ih =>
    unfold choice_scanPiles at h
    cases hg : P.get (j : Int) with
    | error e1 =>
      rw [hg] at h
      simp only [bind, Except.bind, Except.error.injEq] at h
      rw [← h]
      exact get_error _ _ _ hg
    | ok pj =>
      rw [hg] at h
      simp only [bind, Except.bind] at h
      split at h
      · cases h
      · exact ih h

theorem choice_scanBits_error (P : Piles3) (st : bitset) (is : List Nat) (e : Fault)
    (h : choice_scanBits P st is = .error e) : e ≠ .fuel := by
  induction is with
  | nil => cases h
  | cons i rest ih =>
    unfold choice_scanBits at h
    split at h
    · exact choice_scanPiles_error _ _ _ _ _ h
    · exact ih h

/-- The removal of `CPUTurn` does not depend on the call budget. -/
theorem CPUTurn_move_error (s : NimImpl) (e : Fault) (h : s.CPUTurn_move = .error e) :
    e ≠ .fuel := by
  rw [CPUTurn_move_eq] at h
  cases hc : choice_main s.Piles with
  | error e1 =>
    rw [hc] at h
    simp only [Except.bind, Except.error.injEq] at h
    rw [← h]
    unfold choice_main at hc
    obtain ⟨r, hr⟩ := parity_ok s.Piles (List.range BITSET_MAX).reverse 0
    rw [hr] at hc
    exact choice_scanBits_error _ _ _ _ hc
  | ok r =>
    rw [hc] at h
    cases r with
    | some r => exact CPUTake_error _ _ _ _ h
    | none =>
      simp only [Except.bind] at h
      rw [maxIndex_fallback] at h
      simp only [Except.error.injEq] at h
      rw [← h]
      exact fun h2 => by cases h2

theorem CPUTurn_fuel (fuel : Nat) (t : NimImpl) (hp : t.Player1Turn = false) :
    CPUTurn (fuel + 3) t = CPUTurn 3 t ∧ CPUTurn 3 t ≠ .error .fuel := by
  rw [CPUTurn_succ, CPUTurn_succ]
  cases hm : t.CPUTurn_move with
  | error e =>
    refine ⟨rfl, ?_⟩
    intro h
    simp only [Except.bind, Except.error.injEq] at h
    exact CPUTurn_move_error t e hm h
  | ok t1 =>
    obtain ⟨P, line, rfl⟩ := CPUTurn_move_frame t t1 hm
    simp only [Except.bind]
    have h1 := NextTurn_no_reply fuel { t with Piles := P, Out := t.Out ++ [line] }
      (by simp [hp])
    have h2 := NextTurn_no_reply 0 { t with Piles := P, Out := t.Out ++ [line] }
      (by simp [hp])
    rw [h1, h2]
    exact ⟨rfl, fun h => by cases h⟩

theorem StartTurn_fuel (fuel : Nat) (s : NimImpl) :
    StartTurn (fuel + 4) s = StartTurn 4 s ∧ StartTurn 4 s ≠ .error .fuel := by
  rw [StartTurn_succ, StartTurn_succ]
  split
  · rename_i hg
    have hp : s.UpdatePrompt.ShowPiles.Player1Turn = false := by
      cases hc : s.UpdatePrompt.ShowPiles.Player1Turn
      · rfl
      · rw [hc] at hg; simp at hg
    exact CPUTurn_fuel fuel _ hp
  · exact ⟨rfl, fun h => by cases h⟩

/-- The call budget `turnFuel` of the entry points is never used up, and a larger budget
gives the same result: `NextTurn` needs 5 nested calls at most, `StartTurn` 4. -/
theorem turnFuel_enough (fuel : Nat) (s : NimImpl) :
    NextTurn (fuel + 5) s = NextTurn 5 s ∧ StartTurn (fuel + 4) s = StartTurn 4 s ∧
    NextTurn turnFuel s ≠ .error .fuel ∧ StartTurn turnFuel s ≠ .error .fuel := by
  have hN : ∀ f, NextTurn (f + 5) s = NextTurn 5 s ∧ NextTurn 5 s ≠ .error .fuel := by
    intro f
    rw [NextTurn_succ, NextTurn_succ]
    split
    · exact ⟨rfl, fun h => by cases h⟩
    · exact StartTurn_fuel f _
  refine ⟨(hN fuel).1, (StartTurn_fuel fuel s).1, ?_, ?_⟩
  · rw [show turnFuel = 3 + 5 from rfl, (hN 3).1]
    exact (hN 3).2
  · rw [show turnFuel = 4 + 4 from rfl, (StartTurn_fuel 4 s).1]
    exact (StartTurn_fuel 4 s).2

end Fuel

section PileOps

theorem subAssign_eq (c n : Int) :
    Pile.subAssign ⟨c⟩ n
      = if 0 ≤ c - n ∧ c - n ≤ 20 then .ok ⟨c - n⟩ else .error .assertion := by
  unfold Pile.subAssign NIM_ASSERT
  by_cases h0 : 0 ≤ c - n <;> by_cases h1 : c - n ≤ 20 <;>
    simp [h0, h1, PILE_MAX, bind, Except.bind, pure, Except.pure]

theorem addAssign_eq (c n : Int) :
    Pile.addAssign ⟨c⟩ n
      = if 0 ≤ c + n ∧ c + n ≤ 20 then .ok ⟨c + n⟩ else .error .assertion := by
  unfold Pile.addAssign NIM_ASSERT
  by_cases h0 : 0 ≤ c + n <;> by_cases h1 : c + n ≤ 20 <;>
    simp [h0, h1, PILE_MAX, bind, Except.bind, pure, Except.pure]

/-- C19: for every pile of count `c` and every integer `n` (the arithmetic is exact, no
32-bit wrap-around), `pile -= n` stops at its assertion if and only if `c - n` lies
outside `[0, 20]`, and otherwise leaves exactly `c - n`; `pile += n` stops if and only if
`c + n` lies outside `[0, 20]`, and otherwise leaves exactly `c + n`.  No value is ever
clamped. -/
theorem C19_pile_add_sub_fault_iff_out_of_range (c n : Int) :
    ((∃ e, Pile.subAssign ⟨c⟩ n = .error e) ↔ (c - n < 0 ∨ 20 < c - n)) ∧
    (Pile.subAssign ⟨c⟩ n
      = if 0 ≤ c - n ∧ c - n ≤ 20 then .ok ⟨c - n⟩ else .error .assertion) ∧
    ((∃ e, Pile.addAssign ⟨c⟩ n = .error e) ↔ (c + n < 0 ∨ 20 < c + n)) ∧
    (Pile.addAssign ⟨c⟩ n
      = if 0 ≤ c + n ∧ c + n ≤ 20 then .ok ⟨c + n⟩ else .error .assertion) := by
  refine ⟨?_, subAssign_eq c n, ?_, addAssign_eq c n⟩
  · rw [subAssign_eq]
    by_cases h : 0 ≤ c - n ∧ c - n ≤ 20
    · rw [if_pos h]
      constructor
      · rintro ⟨e, he⟩; cases he
      · intro h2; omega
    · rw [if_neg h]
      exact ⟨fun _ => by omega, fun _ => ⟨_, rfl⟩⟩
  · rw [addAssign_eq]
    by_cases h : 0 ≤ c + n ∧ c + n ≤ 20
    · rw [if_pos h]
      constructor
      · rintro ⟨e, he⟩; cases he
      · intro h2; omega
    · rw [if_neg h]
      exact ⟨fun _ => by omega, fun _ => ⟨_, rfl⟩⟩

/-- C19, worked example: from a pile of 5, `-= 7` and `+= 16` stop at the assertion, while
`-= 5` leaves 0 and `+= 15` leaves 20. -/
theorem C19_pile_add_sub_fault_iff_out_of_range_witness :
    Pile.subAssign ⟨5⟩ 7 = .error .assertion ∧ Pile.subAssign ⟨5⟩ 5 = .ok ⟨0⟩ ∧
    Pile.addAssign ⟨5⟩ 16 = .error .assertion ∧ Pile.addAssign ⟨5⟩ 15 = .ok ⟨20⟩ :=
  ⟨(C19_pile_add_sub_fault_iff_out_of_range 5 7).2.1.trans (by decide),
    (C19_pile_add_sub_fault_iff_out_of_range 5 5).2.1.trans (by decide),
    (C19_pile_add_sub_fault_iff_out_of_range 5 16).2.2.2.trans (by decide),
    (C19_pile_add_sub_fault_iff_out_of_range 5 15).2.2.2.trans (by decide)⟩

/-- Every operation of `Pile` other than the assignment of an integer keeps the count in
`[0, 20]` or stops at an assertion. -/
theorem pile_ops_keep_range (p q : Pile) (n : Int) (r : Nat) (hp : PileInRange p)
    (hq : PileInRange q) :
    (∀ p1, Pile.mk32 n = .ok p1 → PileInRange p1) ∧
    PileInRange (p.assign q) ∧
    (∀ p1, p.preDec = .ok p1 → PileInRange p1) ∧
    (∀ p1, p.preInc = .ok p1 → PileInRange p1) ∧
    (∀ p1 p2, p.postDec = .ok (p1, p2) → PileInRange p1 ∧ PileInRange p2) ∧
    (∀ p1 p2, p.postInc = .ok (p1, p2) → PileInRange p1 ∧ PileInRange p2) ∧
    (∀ p1, p.subAssign n = .ok p1 → PileInRange p1) ∧
    (∀ p1, p.subAssignPile q = .ok p1 → PileInRange p1) ∧
    (∀ p1, p.addAssign n = .ok p1 → PileInRange p1) ∧
    (∀ p1, p.addAssignPile q = .ok p1 → PileInRange p1) ∧
    PileInRange (p.Rnd r) ∧ PileInRange (Pile.mkRnd r) := by
  obtain ⟨c⟩ := p
  obtain ⟨d⟩ := q
  simp only [PileInRange, PILE_MAX] at hp hq
  have hmk : ∀ m p1, Pile.mk32 m = .ok p1 → p1 = ⟨m⟩ ∧ 0 ≤ m ∧ m ≤ 20 := by
    intro m p1 h
    unfold Pile.mk32 NIM_ASSERT at h
    by_cases h0 : 0 ≤ m <;> by_cases h1 : m ≤ 20 <;>
      simp [h0, h1, PILE_MAX, bind, Except.bind, pure, Except.pure] at h
    exact ⟨h.symm, h0, h1⟩
  have hsub : ∀ m p1, Pile.subAssign ⟨c⟩ m = .ok p1 → PileInRange p1 := by
    intro m p1 h
    rw [subAssign_eq] at h
    split at h
    · rename_i hr
      simp only [Except.ok.injEq] at h
      subst h
      exact hr
    · cases h
  have hadd : ∀ m p1, Pile.addAssign ⟨c⟩ m = .ok p1 → PileInRange p1 := by
    intro m p1 h
    rw [addAssign_eq] at h
    split at h
    · rename_i hr
      simp only [Except.ok.injEq] at h
      subst h
      exact hr
    · cases h
  refine ⟨?_, hq, ?_, ?_, ?_, ?_, hsub n, hsub d, hadd n, hadd d, ?_, ?_⟩
  · intro p1 h
    obtain ⟨rfl, h0, h1⟩ := hmk n p1 h
    exact ⟨h0, h1⟩
  · intro p1 h
    unfold Pile.preDec NIM_ASSERT at h
    by_cases h0 : 0 ≤ c - 1 <;>
      simp [h0, bind, Except.bind, pure, Except.pure] at h
    subst h
    exact ⟨h0, by show c - 1 ≤ 20; omega⟩
  · intro p1 h
    unfold Pile.preInc NIM_ASSERT at h
    by_cases h0 : c + 1 ≤ 20 <;>
      simp [h0, PILE_MAX, bind, Except.bind, pure, Except.pure] at h
    subst h
    exact ⟨by show 0 ≤ c + 1; omega, h0⟩
  · intro p1 p2 h
    unfold Pile.postDec at h
    cases hm : Pile.mk32 c with
    | error e => simp [hm, bind, Except.bind] at h
    | ok p0 =>
      obtain ⟨rfl, h0, h1⟩ := hmk c p0 hm
      unfold NIM_ASSERT at h
      by_cases h2 : 0 ≤ c - 1 <;>
        simp [hm, h2, bind, Except.bind, pure, Except.pure] at h
      obtain ⟨rfl, rfl⟩ := h
      exact ⟨⟨h2, by show c - 1 ≤ 20; omega⟩, h0, h1⟩
  · intro p1 p2 h
    unfold Pile.postInc at h
    cases hm : Pile.mk32 c with
    | error e => simp [hm, bind, Except.bind] at h
    | ok p0 =>
      obtain ⟨rfl, h0, h1⟩ := hmk c p0 hm
      unfold NIM_ASSERT at h
      by_cases h2 : c + 1 ≤ 20 <;>
        simp [hm, h2, PILE_MAX, bind, Except.bind, pure, Except.pure] at h
      obtain ⟨rfl, rfl⟩ := h
      exact ⟨⟨by show 0 ≤ c + 1; omega, h2⟩, h0, h1⟩
  · simp only [PileInRange, Pile.Rnd, PILE_MIN, PILE_MAX]
    omega
  · simp only [PileInRange, Pile.mkRnd, Pile.Rnd, PILE_MIN, PILE_MAX]
    omega

/-- C20: the claim fails on the code for the assignment of an integer.
`Pile::operator =(int32)` asserts `new_count >= 0` only, so assigning 25 to a pile of 5
is accepted and leaves a count of 25, outside `[0, 20]`, where the constructor
`Pile(int32)` stops at its assertion on the same value. -/
theorem C20_assign_accepts_count_above_max :
    PileInRange ⟨5⟩ ∧ Pile.assign32 ⟨5⟩ 25 = .ok ⟨25⟩ ∧ ¬ PileInRange ⟨25⟩ ∧
    Pile.mk32 25 = .error .assertion ∧ Pile.assign32 ⟨5⟩ (-1) = .error .assertion := by
  decide

end PileOps

section Show

open NimImpl

theorem length_eq_data (t : String) : t.length = t.data.length := rfl

theorem mk_data_append (a b : String) : String.mk (a.data ++ b.data) = a ++ b := rfl

/-- Dropping the last `sep` of `trailWith` leaves `joinWith`. -/
theorem trailWith_eq (sep : String) (x : String) (xs : List String) :
    trailWith sep (x :: xs) = joinWith sep (x :: xs) ++ sep := by
  induction xs generalizing x with
  | nil =>
    show x ++ sep ++ "" = x ++ sep
    exact String.append_empty _
  | cons y ys ih =>
    show x ++ sep ++ trailWith sep (y :: ys) = x ++ sep ++ joinWith sep (y :: ys) ++ sep
    rw [ih y, String.append_assoc (x ++ sep)]

theorem take_trail (sep x : String) (xs : List String) :
    String.mk ((trailWith sep (x :: xs)).data.take ((trailWith sep (x :: xs)).length
      - sep.length)) = joinWith sep (x :: xs) := by
  rw [trailWith_eq, length_eq_data, String.data_append, List.length_append, length_eq_data,
    Nat.add_sub_cancel, List.take_left']
  rfl

theorem get_numbered (P : Piles3) (v : Int) (h1 : 1 ≤ v) (h3 : v ≤ 3) :
    P.get (v - 1) = .ok ⟨pileNumbered P v⟩ := by
  have hv : v = 1 ∨ v = 2 ∨ v = 3 := by omega
  rcases hv with rfl | rfl | rfl <;> rfl

/-- The loop of `CmdShow` over arguments that all name a pile only fills the buffer. -/
theorem CmdShow_args_good (env : Env) (s : NimImpl) (good rest : List String)
    (vals : List Int) (buf : String)
    (hparse : good.map env.parse_integral = vals.map some)
    (hrange : ∀ v ∈ vals, 1 ≤ v ∧ v ≤ 3) :
    CmdShow_args env s (good ++ rest) buf
      = CmdShow_args env s rest
          (buf ++ trailWith "  " (vals.map fun v => show32 (pileNumbered s.Piles v))) := by
  induction good generalizing vals buf with
  | nil =>
    cases vals with
    | nil =>
      show _ = CmdShow_args env s rest (buf ++ "")
      rw [String.append_empty]
      rfl
    | cons v vs => cases hparse
  | cons a as ih =>
    cases vals with
    | nil => cases hparse
    | cons v vs =>
      simp only [List.map_cons, List.cons.injEq] at hparse
      obtain ⟨ha, hrest⟩ := hparse
      obtain ⟨h1, h3⟩ := hrange v (List.mem_cons_self _ _)
      have hv : ¬ (v < 1 ∨ v > 3) := by omega
      have hstep : CmdShow_args env s (a :: (as ++ rest)) buf
          = CmdShow_args env s (as ++ rest)
              (buf ++ show32 (pileNumbered s.Piles v) ++ "  ") := by
        simp only [CmdShow_args, ha, hv, if_false, getPile, get_numbered _ _ h1 h3, bind,
          Except.bind, Pile.toInt32]
      rw [List.cons_append, hstep, ih vs _ hrest fun w hw => hrange w (List.mem_cons_of_mem _ hw)]
      congr 1
      show _ = buf ++ (show32 (pileNumbered s.Piles v) ++ "  " ++ trailWith "  " _)
      simp only [String.append_assoc]

theorem trigger_show (env : Env) (s : NimImpl) (line w : String) (rest : List String)
    (hsplit : split line = w :: rest) (hw : lowercase w = "show") :
    trigger env s line = CmdShow env s ("show" :: rest) := by
  unfold trigger
  rw [hsplit]
  show trigger_loop env s (lowercase w :: rest) Commands = _
  rw [hw]
  rfl

/-- C14: for every state and every non-empty list of `show` arguments that each parse as
an integer in `[1, 3]`, `CmdShow` writes exactly one line: its indent of two spaces, then
the counts of the piles named, numbered from 1, in the order of the arguments, two spaces
between neighbours and nothing after the last, then the end of line; nothing else of the
state changes.  The same holds of the interpreter on a line that splits into `show` (in
any letter case) and these arguments. -/
theorem C14_show_prints_named_piles (env : Env) (s : NimImpl) (cmd : String)
    (args : List String) (vals : List Int) (hne : args ≠ [])
    (hparse : args.map env.parse_integral = vals.map some)
    (hrange : ∀ v ∈ vals, 1 ≤ v ∧ v ≤ 3) :
    CmdShow env s (cmd :: args) = .ok { s with Out := s.Out ++
      ["  " ++ joinWith "  " (vals.map fun v => show32 (pileNumbered s.Piles v)) ++ "\n"] } ∧
    ∀ line w, split line = w :: args → lowercase w = "show" →
      trigger env s line = .ok { s with Out := s.Out ++
        ["  " ++ joinWith "  " (vals.map fun v => show32 (pileNumbered s.Piles v)) ++ "\n"] } := by
  have key : ∀ c : String, CmdShow env s (c :: args) = .ok { s with Out := s.Out ++
      ["  " ++ joinWith "  " (vals.map fun v => show32 (pileNumbered s.Piles v)) ++ "\n"] } := by
    intro c
    obtain ⟨a, as, rfl⟩ := List.exists_cons_of_ne_nil hne
    cases vals with
    | nil => cases hparse
    | cons v vs =>
      have h := CmdShow_args_good env s (a :: as) [] (v :: vs) "" hparse hrange
      rw [List.append_nil] at h
      have hlen : ¬ (c :: a :: as).length = 1 := by simp
      simp only [CmdShow, hlen, if_false, List.drop_succ_cons, List.drop_zero, h, bind,
        Except.bind, pure, Except.pure, NimImpl.print]
      have hfin : ∀ t : String, CmdShow_args env s [] t
          = .ok ("  " ++ String.mk (t.data.take (t.length - ("  " : String).length)) ++ "\n") :=
        fun t => rfl
      rw [hfin, String.empty_append, List.map_cons, take_trail]
  refine ⟨key cmd, ?_⟩
  intro line w hsplit hw
  rw [trigger_show env s line w args hsplit hw]
  exact key "show"

/-- C14, worked example: `show 2 1` on `(5, 7, 9)` writes `7  5` after the indent. -/
theorem C14_show_prints_named_piles_witness :
    trigger exampleEnv (game 5 7 9 false true) "show 2 1"
      = .ok { game 5 7 9 false true with Out := ["  7  5\n"] } ∧
    (CmdShow exampleEnv (game 5 7 9 false true) ("show" :: ["2", "1"])
      = .ok { game 5 7 9 false true with Out := (game 5 7 9 false true).Out ++
        ["  " ++ joinWith "  " (([2, 1] : List Int).map fun v =>
          show32 (pileNumbered (game 5 7 9 false true).Piles v)) ++ "\n"] } ∧
    ∀ line w, split line = w :: ["2", "1"] → lowercase w = "show" →
      trigger exampleEnv (game 5 7 9 false true) line
        = .ok { game 5 7 9 false true with Out := (game 5 7 9 false true).Out ++
          ["  " ++ joinWith "  " (([2, 1] : List Int).map fun v =>
            show32 (pileNumbered (game 5 7 9 false true).Piles v)) ++ "\n"] }) :=
  ⟨by decide,
    C14_show_prints_named_piles exampleEnv (game 5 7 9 false true) "show" ["2", "1"] [2, 1]
      (by decide) (by decide) (by decide)⟩

/-- C15: when some argument of `show` does not parse as an integer, or parses outside
`[1, 3]`, and every argument before it names a pile, `CmdShow` writes the error line of
that first failing argument and nothing else: an `ArgumentError` for a word that does not
parse, a `RangeError` for a number out of range.  Nothing formatted for the earlier
arguments is written, and nothing else of the state changes. -/
theorem C15_show_discards_output_on_error (env : Env) (s : NimImpl) (cmd bad : String)
    (good rest : List String) (vals : List Int)
    (hparse : good.map env.parse_integral = vals.map some)
    (hrange : ∀ v ∈ vals, 1 ≤ v ∧ v ≤ 3) :
    (env.parse_integral bad = none →
      CmdShow env s (cmd :: (good ++ bad :: rest)) = .ok { s with Out := s.Out ++
        ["> ArgumentError: Could not parse \x27" ++ bad ++ "\x27 as an integer.\n"] }) ∧
    (∀ v, env.parse_integral bad = some v → v < 1 ∨ v > 3 →
      CmdShow env s (cmd :: (good ++ bad :: rest)) = .ok { s with Out := s.Out ++
        ["> RangeError: Expected <pile> in range [1, 3], got \x27" ++ show32 v ++ "\x27.\n"] }) := by
  have hlen : ¬ (cmd :: (good ++ bad :: rest)).length = 1 := by simp
  have h := CmdShow_args_good env s good (bad :: rest) vals "" hparse hrange
  refine ⟨?_, ?_⟩
  · intro hbad
    simp only [CmdShow, hlen, if_false, List.drop_succ_cons, List.drop_zero, h, bind,
      Except.bind, pure, Except.pure, NimImpl.print, CmdShow_args, hbad]
    rfl
  · intro v hbad hv
    simp only [CmdShow, hlen, if_false, List.drop_succ_cons, List.drop_zero, h, bind,
      Except.bind, pure, Except.pure, NimImpl.print, CmdShow_args, hbad, hv, if_true]
    rfl

/-- C15, worked example: `show 2 x 1` and `show 2 7` on `(5, 7, 9)`. -/
theorem C15_show_discards_output_on_error_witness :
    CmdShow exampleEnv (game 5 7 9 false true) ("show" :: (["2"] ++ "x" :: ["1"]))
      = .ok { game 5 7 9 false true with Out := (game 5 7 9 false true).Out ++
        ["> ArgumentError: Could not parse \x27" ++ "x" ++ "\x27 as an integer.\n"] } ∧
    CmdShow exampleEnv (game 5 7 9 false true) ("show" :: (["2"] ++ "7" :: []))
      = .ok { game 5 7 9 false true with Out := (game 5 7 9 false true).Out ++
        ["> RangeError: Expected <pile> in range [1, 3], got \x27" ++ show32 7 ++ "\x27.\n"] } :=
  ⟨(C15_show_discards_output_on_error exampleEnv (game 5 7 9 false true) "show" "x" ["2"] ["1"]
      [2] (by decide) (by decide)).1 (by decide),
    (C15_show_discards_output_on_error exampleEnv (game 5 7 9 false true) "show" "7" ["2"] []
      [2] (by decide) (by decide)).2 7 (by decide) (by decide)⟩

end Show

section NameRestart

open NimImpl

theorem trigger_split (env : Env) (s : NimImpl) (line w : String) (rest : List String)
    (hsplit : split line = w :: rest) :
    trigger env s line = trigger_loop env s (lowercase w :: rest) Commands := by
  unfold trigger
  rw [hsplit]

theorem CmdName_join_eq (args : List String) (name : String) :
    CmdName_join args name = name ++ trailWith " " args := by
  induction args generalizing name with
  | nil => exact (String.append_empty name).symm
  | cons a as ih =>
    show CmdName_join as (name ++ (a ++ " ")) = name ++ (a ++ " " ++ trailWith " " as)
    rw [ih, String.append_assoc]

theorem CmdName_eq (env : Env) (s : NimImpl) (cmd w : String) (ws : List String) :
    CmdName env s (cmd :: w :: ws)
      = .ok (s.SetCurrentPlayerName (joinWith " " (w :: ws))).UpdatePrompt := by
  have hlen : ¬ (cmd :: w :: ws).length = 1 := by simp
  simp only [CmdName, hlen, if_false, List.drop_succ_cons, List.drop_zero, CmdName_join_eq,
    String.empty_append]
  have h := take_trail " " w ws
  rw [show (" " : String).length = 1 from rfl] at h
  rw [h]

/-- C16: for every state and every line that splits into `name` (in any letter case)
followed by the words `w1 ... wk`, `k ≥ 1`, the interpreter sets the name of the player
whose turn it is (`Player1Name` when `Player1Turn` holds, `Player2Name` otherwise) to the
words joined by single spaces, spelled as typed, and the prompt to that name followed by
`> `; the name of the other player, the name of the CPU, the piles, the turn, the opponent
mode, both quit flags and the output are as before. -/
theorem C16_name_sets_current_player_name (env : Env) (s : NimImpl) (line c w : String)
    (ws : List String) (hsplit : split line = c :: w :: ws) (hc : lowercase c = "name") :
    trigger env s line = .ok { s with
      Player1Name := if s.Player1Turn = true then joinWith " " (w :: ws) else s.Player1Name,
      Player2Name := if s.Player1Turn = true then s.Player2Name else joinWith " " (w :: ws),
      Prompt := joinWith " " (w :: ws) ++ "> " } ∧
    ∀ s1, trigger env s line = .ok s1 →
      s1.GetCurrentPlayerName = joinWith " " (w :: ws) ∧ s1.CPUName = s.CPUName ∧
      s1.Piles = s.Piles ∧ s1.Player1Turn = s.Player1Turn ∧ s1.CPU = s.CPU ∧
      s1.Quit = s.Quit ∧ s1.ConsoleQuit = s.ConsoleQuit ∧ s1.Out = s.Out ∧
      (s.Player1Turn = true → s1.Player2Name = s.Player2Name) ∧
      (s.Player1Turn = false → s1.Player1Name = s.Player1Name) := by
  have key : trigger env s line = .ok { s with
      Player1Name := if s.Player1Turn = true then joinWith " " (w :: ws) else s.Player1Name,
      Player2Name := if s.Player1Turn = true then s.Player2Name else joinWith " " (w :: ws),
      Prompt := joinWith " " (w :: ws) ++ "> " } := by
    rw [trigger_split env s line c (w :: ws) hsplit, hc]
    show CmdName env s ("name" :: w :: ws) = _
    rw [CmdName_eq]
    cases hp : s.Player1Turn <;>
      simp [SetCurrentPlayerName, UpdatePrompt, GetCurrentPlayerName, hp]
  refine ⟨key, ?_⟩
  intro s1 h1
  rw [key] at h1
  simp only [Except.ok.injEq] at h1
  subst h1
  cases hp : s.Player1Turn <;> simp [GetCurrentPlayerName, hp]

/-- C16, worked example: `name alice bob` typed by player 1. -/
theorem C16_name_sets_current_player_name_witness :
    trigger exampleEnv (game 5 7 9 false true) "name alice bob"
      = .ok { game 5 7 9 false true with Player1Name := "alice bob", Prompt := "alice bob> " } ∧
    trigger exampleEnv (game 5 7 9 false false) "NAME Alice  Bob"
      = .ok { game 5 7 9 false false with Player2Name := "Alice Bob", Prompt := "Alice Bob> " } ∧
    ∀ s1, trigger exampleEnv (game 5 7 9 false true) "name alice bob" = .ok s1 →
      s1.GetCurrentPlayerName = joinWith " " ("alice" :: ["bob"]) ∧
      s1.CPUName = (game 5 7 9 false true).CPUName ∧
      s1.Piles = (game 5 7 9 false true).Piles ∧
      s1.Player1Turn = (game 5 7 9 false true).Player1Turn ∧
      s1.CPU = (game 5 7 9 false true).CPU ∧
      s1.Quit = (game 5 7 9 false true).Quit ∧
      s1.ConsoleQuit = (game 5 7 9 false true).ConsoleQuit ∧
      s1.Out = (game 5 7 9 false true).Out ∧
      ((game 5 7 9 false true).Player1Turn = true →
        s1.Player2Name = (game 5 7 9 false true).Player2Name) ∧
      ((game 5 7 9 false true).Player1Turn = false →
        s1.Player1Name = (game 5 7 9 false true).Player1Name) :=
  ⟨by decide, by decide,
    (C16_name_sets_current_player_name exampleEnv (game 5 7 9 false true) "name alice bob"
      "name" "alice" ["bob"] (by decide) (by decide)).2⟩

theorem fresh_bits : ∀ n : Fin 20, 10 ≤ n.val → n.val.testBit 3 = !n.val.testBit 4 := by
  decide

/-- Three counts in `[10, 19]` never have nim-sum zero. -/
theorem fresh_nimSum (P : Piles3) (h : FreshPiles P) : nimSum P ≠ 0 := by
  obtain ⟨⟨a⟩, ⟨b⟩, ⟨c⟩⟩ := P
  simp only [FreshPiles, PILE_MIN, PILE_MAX] at h
  obtain ⟨⟨a0, a1⟩, ⟨b0, b1⟩, c0, c1⟩ := h
  have ha := fresh_bits ⟨a.toNat, by omega⟩ (by show 10 ≤ a.toNat; omega)
  have hb := fresh_bits ⟨b.toNat, by omega⟩ (by show 10 ≤ b.toNat; omega)
  have hc := fresh_bits ⟨c.toNat, by omega⟩ (by show 10 ≤ c.toNat; omega)
  simp only at ha hb hc
  intro hz
  have hz : a.toNat ^^^ b.toNat ^^^ c.toNat = 0 := hz
  have h3 : (a.toNat ^^^ b.toNat ^^^ c.toNat).testBit 3 = false := by rw [hz]; rfl
  have h4 : (a.toNat ^^^ b.toNat ^^^ c.toNat).testBit 4 = false := by rw [hz]; rfl
  rw [Nat.testBit_xor, Nat.testBit_xor] at h3 h4
  rw [ha, hb, hc] at h3
  revert h3 h4
  cases a.toNat.testBit 4 <;> cases b.toNat.testBit 4 <;> cases c.toNat.testBit 4 <;> decide

/-- On freshly randomized piles `StartTurn` returns: the CPU, if it is first to move,
finds a move. -/
theorem StartTurn_fresh (fuel : Nat) (s : NimImpl) (h : FreshPiles s.Piles) :
    ∃ s1, StartTurn (fuel + 4) s = .ok s1 ∧ s1.CPU = s.CPU ∧ PilesInRange s1.Piles := by
  have hr := fresh_inRange _ h
  rw [StartTurn_succ]
  split
  · rename_i hg
    have hp : s.UpdatePrompt.ShowPiles.Player1Turn = false := by
      cases hc : s.UpdatePrompt.ShowPiles.Player1Turn
      · rfl
      · rw [hc] at hg; simp at hg
    have hr1 : PilesInRange s.UpdatePrompt.ShowPiles.Piles := hr
    have hz : nimSum s.UpdatePrompt.ShowPiles.Piles ≠ 0 := fresh_nimSum _ h
    obtain ⟨j, count, P, -, -, -, -, -, -, hrP, -, hmove⟩ := CPUTurn_move_winning _ hr1 hz
    rw [CPUTurn_succ, hmove]
    simp only [Except.bind]
    rw [NextTurn_no_reply _ _ (by simp [hp])]
    refine ⟨_, rfl, ?_, ?_⟩
    · split
      · rw [announceWinner_eq]
        rfl
      · rfl
    · split
      · rw [announceWinner_Piles]; exact hrP
      · exact hrP
  · exact ⟨_, rfl, rfl, hr⟩

theorem Restart_eq (env : Env) (s : NimImpl) :
    s.Restart env = StartTurn turnFuel { s with
      Piles := (⟨10 + (env.rand s.RandCalls : Int) % 10⟩,
        ⟨10 + (env.rand (s.RandCalls + 1) : Int) % 10⟩,
        ⟨10 + (env.rand (s.RandCalls + 2) : Int) % 10⟩),
      Player1Turn := if env.rand (s.RandCalls + 3) % 2 ≠ 0 then true else false,
      RandCalls := s.RandCalls + 4 } := rfl

/-- C18: for every state, `CmdRestart` called with the command word and
(1) exactly one argument that is `cpu` (resp. `human`) in any letter case: sets `CPU` to
true (resp. false), writes `----`, and runs `Restart`, that is `StartTurn` on the game
whose three piles are redrawn (each `10 + rand() % 10`, from three successive draws) and
whose first mover is redrawn (player 1 iff the fourth draw is odd); this returns a game,
in the mode asked for, with its piles in `[0, 20]`;
(2) any other single argument: writes one `ArgumentError` line and changes nothing else;
(3) more than one argument: writes one `ArgumentError` line and changes nothing else;
(4) no argument: writes an empty line and ends the interactive loop (`ConsoleQuit`), with
piles, turn, mode and `Quit` as before. -/
theorem C18_restart_argument_handling (env : Env) (s : NimImpl) (cmd : String) :
    (∀ a flag, (lowercase a = "cpu" ∧ flag = true) ∨ (lowercase a = "human" ∧ flag = false) →
      CmdRestart env s [cmd, a] = StartTurn turnFuel { s with
        CPU := flag,
        Out := s.Out ++ ["----\n"],
        Piles := (⟨10 + (env.rand s.RandCalls : Int) % 10⟩,
          ⟨10 + (env.rand (s.RandCalls + 1) : Int) % 10⟩,
          ⟨10 + (env.rand (s.RandCalls + 2) : Int) % 10⟩),
        Player1Turn := if env.rand (s.RandCalls + 3) % 2 ≠ 0 then true else false,
        RandCalls := s.RandCalls + 4 } ∧
      ∃ s1, CmdRestart env s [cmd, a] = .ok s1 ∧ s1.CPU = flag ∧ PilesInRange s1.Piles) ∧
    (∀ a, lowercase a ≠ "cpu" → lowercase a ≠ "human" →
      CmdRestart env s [cmd, a] = .ok { s with Out := s.Out ++
        ["> ArgumentError: Expected one of \x7bcpu,human\x7d. Got \x27" ++ lowercase a
          ++ "\x27.\n"] }) ∧
    (∀ a b rest, CmdRestart env s (cmd :: a :: b :: rest) = .ok { s with Out := s.Out ++
      ["> ArgumentError: Expected only 1 argument, one of \x7bcpu,human\x7d.\n"] }) ∧
    CmdRestart env s [cmd] = .ok { s with Out := s.Out ++ ["\n"], ConsoleQuit := true } := by
  refine ⟨?_, ?_, ?_, rfl⟩
  · intro a flag h
    have hcmd : CmdRestart env s [cmd, a]
        = ({ s with CPU := flag }.print "----\n").Restart env := by
      rcases h with ⟨ha, rfl⟩ | ⟨ha, rfl⟩
      · have hne : ¬ lowercase a = "human" := by rw [ha]; decide
        simp [CmdRestart, ha]
      · simp [CmdRestart, ha]
    have hfresh : FreshPiles (({ s with CPU := flag }.print "----\n").Rnd env).Piles :=
      Rnd_fresh env _
    obtain ⟨s1, h1, hc1, hr1⟩ := StartTurn_fresh 4
      ((({ s with CPU := flag }.print "----\n").Rnd env).DecideTurn env) hfresh
    refine ⟨?_, s1, ?_, hc1, hr1⟩
    · rw [hcmd, Restart_eq]
      rfl
    · rw [hcmd]
      exact h1
  · intro a h1 h2
    simp [CmdRestart, h1, h2, NimImpl.print, print_err, ERR_ARGUMENT, String.append_assoc]
  · intro a b rest
    simp [CmdRestart, NimImpl.print, print_err, ERR_ARGUMENT]

/-- C18, worked examples: `restart CPU`, where the CPU is drawn to move first and moves;
`restart Human`; `restart x`; `restart a b`; `restart` alone. -/
theorem C18_restart_argument_handling_witness :
    CmdRestart exampleEnv (game 5 7 9 false true) ["restart", "CPU"]
      = .ok { game 13 10 7 true true with
          Prompt := "player1> ",
          Out := ["----\n", "  13  10  17\n", "cpu> take 10 from 3\n", "  13  10  7\n"],
          RandCalls := 4 } ∧
    CmdRestart exampleEnv (game 5 7 9 true true) ["restart", "Human"]
      = .ok { game 13 10 17 false false with
          Prompt := "player2> ",
          Out := ["----\n", "  13  10  17\n"],
          RandCalls := 4 } ∧
    CmdRestart exampleEnv (game 5 7 9 false true) ["restart", "x"]
      = .ok { game 5 7 9 false true with Out := (game 5 7 9 false true).Out ++
          ["> ArgumentError: Expected one of \x7bcpu,human\x7d. Got \x27" ++ lowercase "x"
            ++ "\x27.\n"] } ∧
    CmdRestart exampleEnv (game 5 7 9 false true) ("restart" :: "a" :: "b" :: [])
      = .ok { game 5 7 9 false true with Out := (game 5 7 9 false true).Out ++
          ["> ArgumentError: Expected only 1 argument, one of \x7bcpu,human\x7d.\n"] } ∧
    CmdRestart exampleEnv (game 5 7 9 false true) ["restart"]
      = .ok { game 5 7 9 false true with
          Out := (game 5 7 9 false true).Out ++ ["\n"],
          ConsoleQuit := true } :=
  ⟨by decide, by decide,
    (C18_restart_argument_handling exampleEnv (game 5 7 9 false true) "restart").2.1 "x"
      (by decide) (by decide),
    (C18_restart_argument_handling exampleEnv (game 5 7 9 false true) "restart").2.2.1 "a" "b" [],
    (C18_restart_argument_handling exampleEnv (game 5 7 9 false true) "restart").2.2.2⟩

end NameRestart

section Resolution

open NimImpl

theorem CmdHelp_first (env : Env) (s : NimImpl) (a b : String) (rest : List String) :
    CmdHelp env s (a :: rest) = CmdHelp env s (b :: rest) := rfl

theorem CmdShow_first (env : Env) (s : NimImpl) (a b : String) (rest : List String) :
    CmdShow env s (a :: rest) = CmdShow env s (b :: rest) := rfl

theorem CmdTake_first (env : Env) (s : NimImpl) (a b : String) (rest : List String) :
    CmdTake env s (a :: rest) = CmdTake env s (b :: rest) := rfl

theorem CmdName_first (env : Env) (s : NimImpl) (a b : String) (rest : List String) :
    CmdName env s (a :: rest) = CmdName env s (b :: rest) := rfl

theorem CmdHow2Play_first (env : Env) (s : NimImpl) (a b : String) (rest : List String) :
    CmdHow2Play env s (a :: rest) = CmdHow2Play env s (b :: rest) := rfl

theorem CmdRestart_first (env : Env) (s : NimImpl) (a b : String) (rest : List String) :
    CmdRestart env s (a :: rest) = CmdRestart env s (b :: rest) := rfl

theorem CmdExit_first (env : Env) (s : NimImpl) (a b : String) (rest : List String) :
    CmdExit env s (a :: rest) = CmdExit env s (b :: rest) := rfl

theorem CmdRq_first (env : Env) (s : NimImpl) (a b : String) (rest : List String) :
    CmdRq env s (a :: rest) = CmdRq env s (b :: rest) := rfl

theorem CmdColor_first (env : Env) (s : NimImpl) (a b : String) (rest : List String) :
    CmdColor env s (a :: rest) = CmdColor env s (b :: rest) := rfl

theorem trigger_loop_Commands (env : Env) (s : NimImpl) (w : String) (rest : List String) :
    trigger_loop env s (w :: rest) Commands =
    if "help" = w then CmdHelp env s (w :: rest) else
    if "show" = w then CmdShow env s (w :: rest) else
    if "take" = w then CmdTake env s (w :: rest) else
    if "name" = w then CmdName env s (w :: rest) else
    if "how2play" = w then CmdHow2Play env s (w :: rest) else
    if "restart" = w then CmdRestart env s (w :: rest) else
    if "exit" = w then CmdExit env s (w :: rest) else
    if "rq" = w then CmdRq env s (w :: rest) else
    if "color" = w then CmdColor env s (w :: rest) else
    match env.parse_integral w with
    | some _ => CmdTake env s ("take" :: w :: rest)
    | none => .ok (s.print (print_err ERR_SYNTAX ++ "Command \x27" ++ w
        ++ "\x27 not found. Type \x27help\x27 for list of available commands.\n")) := rfl

theorem fixedHandler_none (w : String) (h : fixedHandler w = none) :
    "help" ≠ w ∧ "show" ≠ w ∧ "take" ≠ w ∧ "name" ≠ w ∧ "how2play" ≠ w ∧ "restart" ≠ w ∧ "exit" ≠ w ∧ "rq" ≠ w ∧ "color" ≠ w := by
  unfold fixedHandler at h
  split_ifs at h
  refine ⟨?_, ?_, ?_, ?_, ?_, ?_, ?_, ?_, ?_⟩ <;> exact fun e => by simp_all

theorem trigger_eq_dispatch (env : Env) (s : NimImpl) (line : String) :
    trigger env s line = dispatchRef env s line := by
  unfold trigger dispatchRef
  cases hsplit : split line with
  | nil => rfl
  | cons token rest =>
    simp only
    rw [trigger_loop_Commands]
    cases hf : fixedHandler (lowercase token) with
    | none =>
      obtain ⟨h1, h2, h3, h4, h5, h6, h7, h8, h9⟩ := fixedHandler_none _ hf
      simp only [h1, h2, h3, h4, h5, h6, h7, h8, h9, if_false]
      cases env.parse_integral (lowercase token) with
      | some n => rfl
      | none =>
        show Except.ok _ = Except.ok _
        simp only [NimImpl.print, print_err, ERR_SYNTAX, String.append_assoc]
        rfl
    | some handler =>
      unfold fixedHandler at hf
      split_ifs at hf with h1 h2 h3 h4 h5 h6 h7 h8 h9 <;>
        simp only [Option.some.injEq] at hf <;> subst hf
      · rw [if_pos h1.symm]; rfl
      · rw [if_neg (Ne.symm h1), if_pos h2.symm]; rfl
      · rw [if_neg (Ne.symm h1), if_neg (Ne.symm h2), if_pos h3.symm]; rfl
      · rw [if_neg (Ne.symm h1), if_neg (Ne.symm h2), if_neg (Ne.symm h3), if_pos h4.symm]; rfl
      · rw [if_neg (Ne.symm h1), if_neg (Ne.symm h2), if_neg (Ne.symm h3), if_neg (Ne.symm h4),
          if_pos h5.symm]; rfl
      · rw [if_neg (Ne.symm h1), if_neg (Ne.symm h2), if_neg (Ne.symm h3), if_neg (Ne.symm h4),
          if_neg (Ne.symm h5), if_pos h6.symm]; rfl
      · rw [if_neg (Ne.symm h1), if_neg (Ne.symm h2), if_neg (Ne.symm h3), if_neg (Ne.symm h4),
          if_neg (Ne.symm h5), if_neg (Ne.symm h6), if_pos h7.symm]; rfl
      · rw [if_neg (Ne.symm h1), if_neg (Ne.symm h2), if_neg (Ne.symm h3), if_neg (Ne.symm h4),
          if_neg (Ne.symm h5), if_neg (Ne.symm h6), if_neg (Ne.symm h7), if_pos h8.symm]; rfl
      · rw [if_neg (Ne.symm h1), if_neg (Ne.symm h2), if_neg (Ne.symm h3), if_neg (Ne.symm h4),
          if_neg (Ne.symm h5), if_neg (Ne.symm h6), if_neg (Ne.symm h7), if_neg (Ne.symm h8),
          if_pos h9.symm]; rfl

/-- C13: for every state and every input line, `trigger` gives the result of the reference
resolution `dispatchRef`: nothing at all on a line with no token; otherwise, with the first
token lowercased, the handler of the fixed command of that name on the full list of
tokens (no handler reads its first word, so the spelling of that word is immaterial); else,
when the lowercased token parses as an integer, `CmdTake` on `take` followed by the
tokens; else exactly one `SyntaxError` line naming the lowercased token, with the state
otherwise unchanged.  Two lines that split into the same tokens up to the letter case of
the first one are handled alike. -/
theorem C13_trigger_is_reference_dispatch (env : Env) (s : NimImpl) (line : String) :
    trigger env s line = dispatchRef env s line ∧
    ∀ line2 token token2 rest, split line = token :: rest → split line2 = token2 :: rest →
      lowercase token2 = lowercase token → trigger env s line2 = trigger env s line := by
  refine ⟨trigger_eq_dispatch env s line, ?_⟩
  intro line2 token token2 rest h1 h2 hl
  rw [trigger_split env s line token rest h1, trigger_split env s line2 token2 rest h2, hl]

/-- C13, worked examples: `SHOW 2 1`, an empty line, an unknown word. -/
theorem C13_trigger_is_reference_dispatch_witness :
    trigger exampleEnv (game 5 7 9 false true) "SHOW 2 1"
      = dispatchRef exampleEnv (game 5 7 9 false true) "SHOW 2 1" ∧
    dispatchRef exampleEnv (game 5 7 9 false true) "SHOW 2 1"
      = .ok { game 5 7 9 false true with Out := ["  7  5\n"] } ∧
    trigger exampleEnv (game 5 7 9 false true) "  " = .ok (game 5 7 9 false true) ∧
    trigger exampleEnv (game 5 7 9 false true) "Foo 1" = .ok { game 5 7 9 false true with
      Out := ["> SyntaxError: Command \x27foo\x27 not found. Type \x27help\x27 for list of available commands.\n"] } :=
  ⟨(C13_trigger_is_reference_dispatch exampleEnv (game 5 7 9 false true) "SHOW 2 1").1,
    by decide, by decide, by decide⟩

end Resolution

section Lines

open NimImpl

/-! ### What the turn functions write -/

theorem errorLine_data (line : String) (h : IsErrorLine line) :
    line.data.head? = some '>' ∧
      (line.data.get? 2 = some 'S' ∨ line.data.get? 2 = some 'A' ∨ line.data.get? 2 = some 'R') := by
  obtain ⟨kind, msg, hk, rfl⟩ := h
  rcases hk with rfl | rfl | rfl
  · exact ⟨by simp [print_err, ERR_SYNTAX, String.data_append],
      Or.inl (by simp [print_err, ERR_SYNTAX, String.data_append])⟩
  · exact ⟨by simp [print_err, ERR_ARGUMENT, String.data_append],
      Or.inr (Or.inl (by simp [print_err, ERR_ARGUMENT, String.data_append]))⟩
  · exact ⟨by simp [print_err, ERR_RANGE, String.data_append],
      Or.inr (Or.inr (by simp [print_err, ERR_RANGE, String.data_append]))⟩

theorem indented_not_error (x : String) : ¬ IsErrorLine ("  " ++ x) := by
  intro h
  have h1 := (errorLine_data _ h).1
  simp only [String.data_append] at h1
  exact absurd h1 (by simp)

theorem format_not_error (s : NimImpl) : ¬ IsErrorLine (s.format ++ "\n") := by
  have h : s.format ++ "\n" = "  " ++ (show32 s.Piles.1.toInt32 ++ "  "
      ++ show32 s.Piles.2.1.toInt32 ++ "  " ++ show32 s.Piles.2.2.toInt32 ++ "\n") := by
    simp only [NimImpl.format, String.append_assoc]
  rw [h]
  exact indented_not_error _

theorem cpuTakeLine_not_error (s : NimImpl) (num j : Int)
    (hcpu : s.CPUName.data.head? ≠ some '>') : ¬ IsErrorLine (cpuTakeLine s num j) := by
  intro h
  obtain ⟨hd, h3⟩ := errorLine_data _ h
  have hl : (cpuTakeLine s num j).data = s.CPUName.data ++ ('>' :: ' ' :: 't' ::
      ("ake ".data ++ (show32 num).data ++ " from ".data ++ (show32 (j + 1)).data
        ++ "\n".data)) := by
    simp [cpuTakeLine, String.data_append]
  rw [hl] at hd h3
  cases hn : s.CPUName.data with
  | nil =>
    rw [hn] at h3
    revert h3
    simp
  | cons c cs =>
    rw [hn] at hd hcpu
    exact hcpu hd

theorem announce_not_error (s : NimImpl) :
    ¬ IsErrorLine (if (s.Player1Turn || !s.CPU) = true then congratsLine s.GetCurrentPlayerName
      else cpuWonLine) := by
  split
  · have h : congratsLine s.GetCurrentPlayerName
        = "  " ++ ("Congratulations, " ++ s.GetCurrentPlayerName ++ "! You have won!") := by
      simp only [congratsLine, String.append_assoc]
      rfl
    rw [h]
    exact indented_not_error _
  · exact indented_not_error "The CPU has won the game."

theorem blank_not_error : ¬ IsErrorLine "\n\n" := by
  intro h
  exact absurd (errorLine_data _ h).1 (by decide)

theorem newline_not_error : ¬ IsErrorLine "\n" := by
  intro h
  exact absurd (errorLine_data _ h).1 (by decide)

theorem dashes_not_error : ¬ IsErrorLine "----\n" := by
  intro h
  exact absurd (errorLine_data _ h).1 (by decide)

/-- The removal of `CPUTurn` changes the piles and writes its `take` line; nothing else. -/
theorem CPUTurn_move_line (s s1 : NimImpl) (h : s.CPUTurn_move = .ok s1) :
    ∃ P num j, s1 = { s with Piles := P, Out := s.Out ++ [cpuTakeLine s num j] } := by
  rw [CPUTurn_move_eq] at h
  cases hc : choice_main s.Piles with
  | error e => rw [hc] at h; cases h
  | ok r =>
    rw [hc] at h
    cases r with
    | some r =>
      obtain ⟨num, j⟩ := r
      obtain ⟨P, hP⟩ := CPUTake_frame s s1 num j h
      exact ⟨P, num, j, hP⟩
    | none =>
      simp only [Except.bind] at h
      rw [maxIndex_fallback] at h
      cases h

/-- What `StartTurn` returns, when it returns: the game as handed over with its prompt
and piles shown, or, when the CPU is to move, the game after the move of the CPU and the
`NextTurn` that follows it. -/
theorem StartTurn_cases (fuel : Nat) (s r : NimImpl) (h : StartTurn (fuel + 4) s = .ok r) :
    ((s.CPU && !s.Player1Turn) = false ∧ r = s.UpdatePrompt.ShowPiles) ∨
    ((s.CPU && !s.Player1Turn) = true ∧ ∃ t, s.UpdatePrompt.ShowPiles.CPUTurn_move = .ok t ∧
      r = if t.GameOver = true then t.announceWinner else t.SwitchTurn.UpdatePrompt.ShowPiles) := by
  rw [StartTurn_succ] at h
  split at h
  · rename_i hg
    have hg1 : (s.CPU && !s.Player1Turn) = true := hg
    have hp : s.UpdatePrompt.ShowPiles.Player1Turn = false := by
      cases hc : s.UpdatePrompt.ShowPiles.Player1Turn
      · rfl
      · rw [hc] at hg; simp at hg
    rw [CPUTurn_succ] at h
    cases hm : s.UpdatePrompt.ShowPiles.CPUTurn_move with
    | error e => rw [hm] at h; cases h
    | ok t =>
      rw [hm] at h
      simp only [Except.bind] at h
      obtain ⟨P, num, j, ht⟩ := CPUTurn_move_line _ _ hm
      have htp : (t.CPU && t.Player1Turn) = false := by
        rw [ht]
        show (s.UpdatePrompt.ShowPiles.CPU && s.UpdatePrompt.ShowPiles.Player1Turn) = false
        rw [hp]
        simp
      rw [NextTurn_no_reply _ _ htp] at h
      simp only [Except.ok.injEq] at h
      refine Or.inr ⟨hg1, t, rfl, ?_⟩
      rw [← h]
  · rename_i hg
    simp only [Except.ok.injEq] at h
    refine Or.inl ⟨?_, h.symm⟩
    have hg1 : ¬ (s.CPU && !s.Player1Turn) = true := hg
    simpa using hg1

theorem NextTurn_cases (fuel : Nat) (s r : NimImpl) (h : NextTurn (fuel + 5) s = .ok r) :
    (s.GameOver = true ∧ r = s.announceWinner) ∨
    (s.GameOver = false ∧ StartTurn (fuel + 4) s.SwitchTurn = .ok r) := by
  rw [NextTurn_succ] at h
  split at h
  · rename_i hg
    simp only [Except.ok.injEq] at h
    exact Or.inl ⟨hg, h.symm⟩
  · rename_i hg
    refine Or.inr ⟨?_, h⟩
    simpa using hg

/-- The lines `StartTurn` writes are not error lines. -/
theorem StartTurn_out (fuel : Nat) (s r : NimImpl) (hcpu : s.CPUName.data.head? ≠ some '>')
    (h : StartTurn (fuel + 4) s = .ok r) :
    ∃ extra, r.Out = s.Out ++ extra ∧ ∀ c ∈ extra, ¬ IsErrorLine c := by
  rcases StartTurn_cases fuel s r h with ⟨-, rfl⟩ | ⟨-, t, hm, rfl⟩
  · refine ⟨[s.UpdatePrompt.format ++ "\n"], rfl, ?_⟩
    intro c hc
    rw [List.mem_singleton] at hc
    rw [hc]
    exact format_not_error _
  · obtain ⟨P, num, j, ht⟩ := CPUTurn_move_line _ _ hm
    have hline := cpuTakeLine_not_error s.UpdatePrompt.ShowPiles num j hcpu
    have hfmt := format_not_error s.UpdatePrompt
    have hto : t.Out = s.Out ++ [s.UpdatePrompt.format ++ "\n",
        cpuTakeLine s.UpdatePrompt.ShowPiles num j] := by
      rw [ht]
      show (s.Out ++ [_]) ++ [_] = _
      simp only [List.append_assoc, List.singleton_append]
    split
    · refine ⟨[s.UpdatePrompt.format ++ "\n", cpuTakeLine s.UpdatePrompt.ShowPiles num j,
        (if (t.Player1Turn || !t.CPU) = true then congratsLine t.GetCurrentPlayerName
          else cpuWonLine), "\n\n"], ?_, ?_⟩
      · rw [announceWinner_eq]
        show t.Out ++ [_, _] = _
        rw [hto]
        simp only [List.append_assoc, List.cons_append, List.nil_append]
      · intro c hc
        simp only [List.mem_cons, List.mem_singleton, List.not_mem_nil, or_false] at hc
        rcases hc with rfl | rfl | rfl | rfl
        · exact hfmt
        · exact hline
        · exact announce_not_error _
        · exact blank_not_error
    · refine ⟨[s.UpdatePrompt.format ++ "\n", cpuTakeLine s.UpdatePrompt.ShowPiles num j,
        t.SwitchTurn.UpdatePrompt.format ++ "\n"], ?_, ?_⟩
      · show t.Out ++ [_] = _
        rw [hto]
        simp only [List.append_assoc, List.cons_append, List.nil_append]
      · intro c hc
        simp only [List.mem_cons, List.mem_singleton, List.not_mem_nil, or_false] at hc
        rcases hc with rfl | rfl | rfl
        · exact hfmt
        · exact hline
        · exact format_not_error _

/-- The lines `NextTurn` writes are not error lines. -/
theorem NextTurn_out (fuel : Nat) (s r : NimImpl) (hcpu : s.CPUName.data.head? ≠ some '>')
    (h : NextTurn (fuel + 5) s = .ok r) :
    ∃ extra, r.Out = s.Out ++ extra ∧ ∀ c ∈ extra, ¬ IsErrorLine c := by
  rcases NextTurn_cases fuel s r h with ⟨-, rfl⟩ | ⟨-, hs⟩
  · rw [announceWinner_eq]
    refine ⟨_, rfl, ?_⟩
    intro c hc
    simp only [List.mem_cons, List.mem_singleton, List.not_mem_nil, or_false] at hc
    rcases hc with rfl | rfl
    · exact announce_not_error _
    · exact blank_not_error
  · exact StartTurn_out fuel s.SwitchTurn r hcpu hs

end Lines

section Outcomes

open NimImpl

/-! ### The total of the piles -/

theorem set_sum (P Q : Piles3) (j c d : Int) (hget : P.get j = .ok ⟨c⟩)
    (hset : P.set j ⟨d⟩ = .ok Q) : pileSum Q = pileSum P - c + d := by
  unfold Piles3.get at hget
  unfold Piles3.set at hset
  split_ifs at hget hset <;> simp only [Except.ok.injEq] at hget hset <;> subst hset <;>
    simp only [pileSum, hget] <;> omega

theorem CPUTurn_move_sum (s s1 : NimImpl) (hr : PilesInRange s.Piles)
    (h : s.CPUTurn_move = .ok s1) :
    PilesInRange s1.Piles ∧ pileSum s1.Piles < pileSum s.Piles := by
  by_cases hz : nimSum s.Piles = 0
  · rw [CPUTurn_move_fallback s hr hz] at h
    cases h
  · obtain ⟨j, count, P, -, -, hget, -, hlt, hset, hrP, -, hmove⟩ :=
      CPUTurn_move_winning s hr hz
    rw [hmove] at h
    simp only [Except.ok.injEq] at h
    subst h
    refine ⟨hrP, ?_⟩
    show pileSum P < pileSum s.Piles
    rw [set_sum _ _ _ _ _ hget hset]
    omega

theorem StartTurn_sum (fuel : Nat) (s r : NimImpl) (hr : PilesInRange s.Piles)
    (h : StartTurn (fuel + 4) s = .ok r) :
    PilesInRange r.Piles ∧ pileSum r.Piles ≤ pileSum s.Piles := by
  rcases StartTurn_cases fuel s r h with ⟨-, rfl⟩ | ⟨-, t, hm, rfl⟩
  · exact ⟨hr, le_refl _⟩
  · have hr1 : PilesInRange s.UpdatePrompt.ShowPiles.Piles := hr
    obtain ⟨hrt, hlt⟩ := CPUTurn_move_sum _ _ hr1 hm
    have hlt1 : pileSum t.Piles < pileSum s.Piles := hlt
    split
    · rw [announceWinner_Piles]
      exact ⟨hrt, le_of_lt hlt1⟩
    · exact ⟨hrt, le_of_lt hlt1⟩

theorem NextTurn_sum (fuel : Nat) (s r : NimImpl) (hr : PilesInRange s.Piles)
    (h : NextTurn (fuel + 5) s = .ok r) :
    PilesInRange r.Piles ∧ pileSum r.Piles ≤ pileSum s.Piles := by
  rcases NextTurn_cases fuel s r h with ⟨-, rfl⟩ | ⟨-, hs⟩
  · rw [announceWinner_Piles]
    exact ⟨hr, le_refl _⟩
  · exact StartTurn_sum fuel s.SwitchTurn r hr hs

/-! ### Handlers that only write -/

theorem quiet_refl (s : NimImpl) : Quiet s s := ⟨[], by simp⟩

theorem quiet_print (s : NimImpl) (text : String) : Quiet s (s.print text) := ⟨[text], rfl⟩

theorem quiet_trans (s t r : NimImpl) (h1 : Quiet s t) (h2 : Quiet t r) : Quiet s r := by
  obtain ⟨e1, rfl⟩ := h1
  obtain ⟨e2, rfl⟩ := h2
  exact ⟨e1 ++ e2, by simp⟩

theorem PrintHelpLines_quiet (lines : List String) (n : Nat) (s : NimImpl) :
    Quiet s (PrintHelpLines lines n s) := by
  induction lines generalizing n s with
  | nil => exact quiet_refl s
  | cons l ls ih => exact quiet_trans _ _ _ (quiet_print s _) (ih 0 _)

theorem PrintHelpForCmd_quiet (s : NimImpl) (d : ConsoleCmdDesc) :
    Quiet s (PrintHelpForCmd s d) := by
  unfold PrintHelpForCmd
  simp only
  split
  · exact quiet_trans _ _ _ (quiet_trans _ _ _ (quiet_trans _ _ _ (quiet_print s _)
      (quiet_print _ _)) (PrintHelpLines_quiet _ _ _)) (quiet_print _ _)
  · exact quiet_trans _ _ _ (quiet_trans _ _ _ (quiet_print s _)
      (PrintHelpLines_quiet _ _ _)) (quiet_print _ _)

theorem CmdHelp_args_quiet (args : List String) (s : NimImpl) :
    Quiet s (CmdHelp_args args s) := by
  induction args generalizing s with
  | nil => exact quiet_refl s
  | cons a as ih =>
    unfold CmdHelp_args
    simp only
    split
    · exact quiet_trans _ _ _ (quiet_print s _) (ih _)
    · exact quiet_trans _ _ _ (PrintHelpForCmd_quiet s _) (ih _)

theorem foldl_help_quiet (descs : List (String × ConsoleCmdDesc)) (s : NimImpl) :
    Quiet s (descs.foldl (fun s elem => PrintHelpForCmd s elem.2) s) := by
  induction descs generalizing s with
  | nil => exact quiet_refl s
  | cons d ds ih =>
    rw [List.foldl_cons]
    exact quiet_trans _ _ _ (PrintHelpForCmd_quiet s _) (ih _)

theorem CmdHelp_quiet (env : Env) (s r : NimImpl) (parts : List String)
    (h : CmdHelp env s parts = .ok r) : Quiet s r := by
  unfold CmdHelp at h
  simp only at h
  split at h
  · simp only [Except.ok.injEq] at h
    rw [← h]
    exact foldl_help_quiet _ s
  · split at h
    · simp only [Except.ok.injEq] at h
      rw [← h]
      exact quiet_print s _
    · simp only [Except.ok.injEq] at h
      rw [← h]
      exact CmdHelp_args_quiet _ s

theorem CmdShow_quiet (env : Env) (s r : NimImpl) (parts : List String)
    (h : CmdShow env s parts = .ok r) : Quiet s r := by
  unfold CmdShow at h
  simp only at h
  split at h
  · simp only [Except.ok.injEq] at h
    rw [← h]
    exact quiet_print s _
  · obtain ⟨text, ht⟩ := CmdShow_args_ok env s (parts.drop 1) ""
    simp only [ht, bind, Except.bind, pure, Except.pure, Except.ok.injEq] at h
    rw [← h]
    exact quiet_print s _

/-! ### The take handler, whatever the piles hold -/

theorem CmdTake_checked_ok (env : Env) (s r : NimImpl) (a b : String)
    (h : CmdTake_checked env s a b = .ok r) :
    Quiet s r ∨
    ∃ n k c P, env.parse_integral a = some n ∧ env.parse_integral b = some k ∧ 1 ≤ k ∧ k ≤ 3 ∧
      s.Piles.get (k - 1) = .ok ⟨c⟩ ∧ c ≠ 0 ∧ 1 ≤ n ∧ n ≤ c ∧
      s.Piles.set (k - 1) ⟨c - n⟩ = .ok P ∧ NextTurn turnFuel { s with Piles := P } = .ok r := by
  by_cases hacc : ∃ n k c, env.parse_integral a = some n ∧ env.parse_integral b = some k ∧
      1 ≤ k ∧ k ≤ 3 ∧ s.Piles.get (k - 1) = .ok ⟨c⟩ ∧ c ≠ 0 ∧ 1 ≤ n ∧ n ≤ c
  · obtain ⟨n, k, c, ha, hb, hk1, hk3, hget, hc, hn1, hn⟩ := hacc
    obtain ⟨P, hP⟩ := set_of_index s.Piles k ⟨c - n⟩ hk1 hk3
    have hk : ¬ (k < 1 ∨ k > 3) := by omega
    have hn2 : ¬ (n < 1 ∨ n > c) := by omega
    by_cases h20 : c - n ≤ 20
    · have hsub : Pile.subAssign ⟨c⟩ n = .ok ⟨c - n⟩ := by
        rw [subAssign_eq, if_pos ⟨by omega, h20⟩]
      simp only [CmdTake_checked, ha, hb, hk, if_false, getPile, hget, bind, Except.bind,
        Pile.eq32, decide_eq_true_eq, hc, Pile.toInt32, hn2, hsub, setPile, hP, pure,
        Except.pure] at h
      exact Or.inr ⟨n, k, c, P, ha, hb, hk1, hk3, hget, hc, hn1, hn, hP, h⟩
    · have hsub : Pile.subAssign ⟨c⟩ n = .error .assertion := by
        rw [subAssign_eq, if_neg (fun hh => h20 hh.2)]
      simp only [CmdTake_checked, ha, hb, hk, if_false, getPile, hget, bind, Except.bind,
        Pile.eq32, decide_eq_true_eq, hc, Pile.toInt32, hn2, hsub] at h
      cases h
  · obtain ⟨line, -, hl⟩ := CmdTake_checked_rejected env s a b hacc
    rw [hl] at h
    simp only [Except.ok.injEq] at h
    rw [← h]
    exact Or.inl (quiet_print s line)

theorem CmdTake_ok (env : Env) (s r : NimImpl) (cmd : String) (args : List String)
    (h : CmdTake env s (cmd :: args) = .ok r) :
    Quiet s r ∨
    ∃ n k c P, TakeAccepted env s (cmd :: args) n k c ∧
      s.Piles.set (k - 1) ⟨c - n⟩ = .ok P ∧ NextTurn turnFuel { s with Piles := P } = .ok r := by
  have hq : ∀ text, CmdTake env s (cmd :: args) = .ok (s.print text) → Quiet s r := by
    intro text ht
    rw [ht] at h
    simp only [Except.ok.injEq] at h
    rw [← h]
    exact quiet_print s text
  match args, h, hq with
  | [], _, hq => exact Or.inl (hq _ (CmdTake_one env s cmd))
  | [a], _, hq => exact Or.inl (hq _ (CmdTake_two env s cmd a))
  | [a, b], h, hq =>
    by_cases hf : lowercase b = "from"
    · exact Or.inl (hq _ (CmdTake_three_from env s cmd a b hf))
    · rw [CmdTake_three _ _ _ _ _ hf] at h
      rcases CmdTake_checked_ok env s r a b h with hq1 | ⟨n, k, c, P, ha, hb, hk1, hk3, hget,
        hc, hn1, hn, hP, hnext⟩
      · exact Or.inl hq1
      · refine Or.inr ⟨n, k, c, P, ⟨?_, hk1, hk3, hget, hc, hn1, hn⟩, hP, hnext⟩
        simp [takeRequest, ha, hb]
  | [a, f, b], h, hq =>
    by_cases hf : lowercase f = "from"
    · rw [CmdTake_four_from _ _ _ _ _ _ hf] at h
      rcases CmdTake_checked_ok env s r a b h with hq1 | ⟨n, k, c, P, ha, hb, hk1, hk3, hget,
        hc, hn1, hn, hP, hnext⟩
      · exact Or.inl hq1
      · refine Or.inr ⟨n, k, c, P, ⟨?_, hk1, hk3, hget, hc, hn1, hn⟩, hP, hnext⟩
        simp [takeRequest, hf, ha, hb]
    · exact Or.inl (hq _ (CmdTake_four env s cmd a f b hf))
  | a :: f :: b :: d :: more, _, hq => exact Or.inl (hq _ (CmdTake_many env s cmd a f b d more))

end Outcomes

section Classification

open NimImpl

theorem CmdName_cases (env : Env) (s r : NimImpl) (parts : List String)
    (h : CmdName env s parts = .ok r) :
    Quiet s r ∨ (r.Out = s.Out ∧ r.Piles = s.Piles ∧ r.Player1Turn = s.Player1Turn) := by
  unfold CmdName at h
  simp only at h
  split at h
  · simp only [Except.ok.injEq] at h
    rw [← h]
    exact Or.inl (quiet_print s _)
  · simp only [Except.ok.injEq] at h
    rw [← h]
    refine Or.inr ?_
    cases hp : s.Player1Turn <;> simp [SetCurrentPlayerName, UpdatePrompt, hp]

theorem CmdColor_cases (env : Env) (s r : NimImpl) (parts : List String)
    (h : CmdColor env s parts = .ok r) :
    Quiet s r ∨ (r.Out = s.Out ∧ r.Piles = s.Piles ∧ r.Player1Turn = s.Player1Turn) := by
  unfold CmdColor at h
  simp only at h
  split at h
  · simp only [Except.ok.injEq] at h
    rw [← h]
    exact Or.inl (quiet_print s _)
  · split at h
    · simp only [Except.ok.injEq] at h
      rw [← h]
      exact Or.inl (quiet_print s _)
    · split at h
      · simp only [Except.ok.injEq] at h
        rw [← h]
        exact Or.inl (quiet_print s _)
      · simp only [Except.ok.injEq] at h
        rw [← h]
        exact Or.inr ⟨rfl, rfl, rfl⟩

theorem CmdRestart_cases (env : Env) (s r : NimImpl) (cmd : String) (rest : List String)
    (h : CmdRestart env s (cmd :: rest) = .ok r) :
    Quiet s r ∨ r = { s with Out := s.Out ++ ["\n"], ConsoleQuit := true } ∨
    ∃ a flag, rest = [a] ∧ (lowercase a = "human" ∨ lowercase a = "cpu") ∧
      Restart env ({ s with CPU := flag }.print "----\n") = .ok r := by
  match rest, h with
  | [], h =>
    have h1 : Except.ok { s with Out := s.Out ++ ["\n"], ConsoleQuit := true } = Except.ok r := h
    simp only [Except.ok.injEq] at h1
    exact Or.inr (Or.inl h1.symm)
  | [a], h =>
    by_cases hh : lowercase a = "human"
    · have h1 : Restart env ({ s with CPU := false }.print "----\n") = .ok r := by
        simpa [CmdRestart, hh] using h
      exact Or.inr (Or.inr ⟨a, false, rfl, Or.inl hh, h1⟩)
    · by_cases hc : lowercase a = "cpu"
      · have h1 : Restart env ({ s with CPU := true }.print "----\n") = .ok r := by
          simpa [CmdRestart, hh, hc] using h
        exact Or.inr (Or.inr ⟨a, true, rfl, Or.inr hc, h1⟩)
      · have h1 : CmdRestart env s [cmd, a] = .ok (s.print (print_err ERR_ARGUMENT
            ++ "Expected one of \x7bcpu,human\x7d. Got \x27" ++ lowercase a ++ "\x27.\n")) := by
          simp [CmdRestart, hh, hc]
        rw [h1] at h
        simp only [Except.ok.injEq] at h
        rw [← h]
        exact Or.inl (quiet_print s _)
  | a :: b :: more, h =>
    have h1 : CmdRestart env s (cmd :: a :: b :: more) = .ok (s.print (print_err ERR_ARGUMENT
        ++ "Expected only 1 argument, one of \x7bcpu,human\x7d.\n")) := by
      simp [CmdRestart]
    rw [h1] at h
    simp only [Except.ok.injEq] at h
    rw [← h]
    exact Or.inl (quiet_print s _)

/-- What handling a line can do, when it returns: only write; or write nothing and leave
piles and turn alone (`name`, `color`, `exit`, `rq`); or end the interactive loop
(`restart` alone); or carry out a take that is in order and run `NextTurn`; or restart. -/
theorem trigger_cases (env : Env) (s r : NimImpl) (line : String)
    (h : trigger env s line = .ok r) :
    Quiet s r ∨
    (r.Out = s.Out ∧ r.Piles = s.Piles ∧ r.Player1Turn = s.Player1Turn) ∨
    r = { s with Out := s.Out ++ ["\n"], ConsoleQuit := true } ∨
    (∃ n k c P, LineTakes env s line n k c ∧ s.Piles.set (k - 1) ⟨c - n⟩ = .ok P ∧
      NextTurn turnFuel { s with Piles := P } = .ok r) ∨
    (restartsMatch line = true ∧
      ∃ flag, Restart env ({ s with CPU := flag }.print "----\n") = .ok r) := by
  rw [trigger_eq_dispatch] at h
  unfold dispatchRef at h
  cases hsplit : split line with
  | nil =>
    rw [hsplit] at h
    simp only [Except.ok.injEq] at h
    rw [← h]
    exact Or.inl (quiet_refl s)
  | cons token rest =>
    rw [hsplit] at h
    simp only at h
    cases hf : fixedHandler (lowercase token) with
    | none =>
      rw [hf] at h
      simp only at h
      obtain ⟨-, -, h3, -, -, -, -, -, -⟩ := fixedHandler_none _ hf
      cases hp : env.parse_integral (lowercase token) with
      | none =>
        rw [hp] at h
        simp only [Except.ok.injEq] at h
        exact Or.inl ⟨_, h.symm⟩
      | some v =>
        rw [hp] at h
        simp only at h
        rcases CmdTake_ok env s r _ _ h with hq | ⟨n, k, c, P, hacc, hP, hnext⟩
        · exact Or.inl hq
        · refine Or.inr (Or.inr (Or.inr (Or.inl ⟨n, k, c, P, ?_, hP, hnext⟩)))
          unfold LineTakes takeWords
          rw [hsplit]
          simp only [if_neg (Ne.symm h3), hf, hp, Option.isSome_none, Option.isSome_some,
            Bool.false_eq_true, if_false, if_true]
          exact hacc
    | some handler =>
      rw [hf] at h
      simp only at h
      unfold fixedHandler at hf
      split_ifs at hf with h1 h2 h3 h4 h5 h6 h7 h8 h9 <;>
        simp only [Option.some.injEq] at hf <;> subst hf
      · exact Or.inl (CmdHelp_quiet env s r _ h)
      · exact Or.inl (CmdShow_quiet env s r _ h)
      · have h0 : CmdTake env s ("take" :: rest) = .ok r := h
        rcases CmdTake_ok env s r _ _ h0 with hq | ⟨n, k, c, P, hacc, hP, hnext⟩
        · exact Or.inl hq
        · refine Or.inr (Or.inr (Or.inr (Or.inl ⟨n, k, c, P, ?_, hP, hnext⟩)))
          unfold LineTakes takeWords
          rw [hsplit]
          simp only [if_pos h3]
          exact hacc
      · rcases CmdName_cases env s r _ h with hq | hs
        · exact Or.inl hq
        · exact Or.inr (Or.inl hs)
      · have h0 : Except.ok (s.print (env.HOW2PLAY ++ "\n")) = Except.ok r := h
        simp only [Except.ok.injEq] at h0
        rw [← h0]
        exact Or.inl (quiet_print s _)
      · rcases CmdRestart_cases env s r _ _ h with hq | hz | ⟨a, flag, hrest, ha, hre⟩
        · exact Or.inl hq
        · exact Or.inr (Or.inr (Or.inl hz))
        · refine Or.inr (Or.inr (Or.inr (Or.inr ⟨?_, flag, hre⟩)))
          unfold restartsMatch
          rw [hsplit, hrest]
          rcases ha with ha | ha <;> simp [h6, ha]
      · have h0 : Except.ok { s with ConsoleQuit := true, Quit := true } = Except.ok r := h
        simp only [Except.ok.injEq] at h0
        rw [← h0]
        exact Or.inr (Or.inl ⟨rfl, rfl, rfl⟩)
      · have h0 : Except.ok { s with ConsoleQuit := true, Quit := true } = Except.ok r := h
        simp only [Except.ok.injEq] at h0
        rw [← h0]
        exact Or.inr (Or.inl ⟨rfl, rfl, rfl⟩)
      · rcases CmdColor_cases env s r _ h with hq | hs
        · exact Or.inl hq
        · exact Or.inr (Or.inl hs)

end Classification

section Match

open NimImpl

theorem CmdTake_accepted_tail (env : Env) (s : NimImpl) (cmd : String) (args : List String)
    (hr : PilesInRange s.Piles)
    (hfrom : ∀ w ∈ args.drop 1, lowercase w = "from" → env.parse_integral w = none)
    (number pile count : Int) (h : TakeAccepted env s (cmd :: args) number pile count) :
    ∃ P, s.Piles.set (pile - 1) ⟨count - number⟩ = .ok P ∧
      CmdTake env s (cmd :: args) = NextTurn turnFuel { s with Piles := P } := by
  obtain ⟨hreq, hk1, hk3, hget, hc, hn1, hn⟩ := h
  have hc20 := (get_inRange _ _ _ hr hget).2
  match args, hreq, hfrom with
  | [], hreq, _ => cases hreq
  | [a], hreq, _ => cases hreq
  | [a, b], hreq, hfrom =>
    obtain ⟨ha, hb⟩ := takeRequest_three env cmd a b number pile hreq
    have hnf : lowercase b ≠ "from" := by
      intro hf
      rw [hfrom b (by simp) hf] at hb
      cases hb
    rw [CmdTake_three env s cmd a b hnf]
    exact CmdTake_checked_accepted env s a b number pile count ha hb hk1 hk3 hget hc hn1 hn hc20
  | [a, f, b], hreq, _ =>
    obtain ⟨hf, ha, hb⟩ := takeRequest_four env cmd a f b number pile hreq
    rw [CmdTake_four_from env s cmd a f b hf]
    exact CmdTake_checked_accepted env s a b number pile count ha hb hk1 hk3 hget hc hn1 hn hc20
  | a :: f :: b :: d :: rest, hreq, _ => cases hreq

theorem takeWords_some (env : Env) (line : String) (parts : List String)
    (h : takeWords env line = some parts) :
    ∃ token rest, split line = token :: rest ∧
      ((lowercase token = "take" ∧ parts = "take" :: rest) ∨
        (fixedHandler (lowercase token) = none ∧
          (∃ v, env.parse_integral (lowercase token) = some v) ∧
          parts = "take" :: lowercase token :: rest)) := by
  unfold takeWords at h
  cases hs : split line with
  | nil => rw [hs] at h; cases h
  | cons token rest =>
    rw [hs] at h
    simp only at h
    refine ⟨token, rest, rfl, ?_⟩
    split_ifs at h with h1 h2 h3
    · simp only [Option.some.injEq] at h
      exact Or.inl ⟨h1, h.symm⟩
    · simp only [Option.some.injEq] at h
      refine Or.inr ⟨?_, ?_, h.symm⟩
      · cases hf : fixedHandler (lowercase token) with
        | none => rfl
        | some x => rw [hf] at h2; exact absurd rfl h2
      · cases hp : env.parse_integral (lowercase token) with
        | none => rw [hp] at h3; cases h3
        | some v => exact ⟨v, rfl⟩

theorem trigger_takeWords (env : Env) (s : NimImpl) (line : String) (parts : List String)
    (h : takeWords env line = some parts) : trigger env s line = CmdTake env s parts := by
  obtain ⟨token, rest, hsplit, ⟨ht, rfl⟩ | ⟨hf, ⟨v, hp⟩, rfl⟩⟩ := takeWords_some env line parts h
  · exact trigger_take env s line token rest hsplit ht
  · rw [trigger_eq_dispatch]
    unfold dispatchRef
    rw [hsplit]
    simp only [hf, hp]

/-- A take that is in order is carried out: the pile is decremented and `NextTurn` runs. -/
theorem trigger_LineTakes (env : Env) (s : NimImpl) (line : String) (n k c : Int)
    (hr : PilesInRange s.Piles)
    (hfrom : ∀ w ∈ split line, lowercase w = "from" → env.parse_integral w = none)
    (ht : LineTakes env s line n k c) :
    ∃ P, s.Piles.get (k - 1) = .ok ⟨c⟩ ∧ 1 ≤ n ∧ n ≤ c ∧
      s.Piles.set (k - 1) ⟨c - n⟩ = .ok P ∧
      trigger env s line = NextTurn turnFuel { s with Piles := P } := by
  unfold LineTakes at ht
  cases hw : takeWords env line with
  | none => rw [hw] at ht; exact ht.elim
  | some parts =>
    rw [hw] at ht
    simp only at ht
    rw [trigger_takeWords env s line parts hw]
    obtain ⟨token, rest, hsplit, ⟨-, rfl⟩ | ⟨-, -, rfl⟩⟩ := takeWords_some env line parts hw
    · have hf : ∀ w ∈ rest.drop 1, lowercase w = "from" → env.parse_integral w = none := by
        intro w hw1
        apply hfrom
        rw [hsplit]
        exact List.mem_cons_of_mem _ (List.mem_of_mem_drop hw1)
      obtain ⟨P, hP, hcmd⟩ := CmdTake_accepted_tail env s _ _ hr hf n k c ht
      exact ⟨P, ht.2.2.2.1, ht.2.2.2.2.2.1, ht.2.2.2.2.2.2, hP, hcmd⟩
    · have hf : ∀ w ∈ (lowercase token :: rest).drop 1, lowercase w = "from" →
          env.parse_integral w = none := by
        intro w hw1
        apply hfrom
        rw [hsplit]
        exact List.mem_cons_of_mem _ hw1
      obtain ⟨P, hP, hcmd⟩ := CmdTake_accepted_tail env s _ _ hr hf n k c ht
      exact ⟨P, ht.2.2.2.1, ht.2.2.2.2.2.1, ht.2.2.2.2.2.2, hP, hcmd⟩

theorem SwitchTurn_eq (s : NimImpl) :
    s.SwitchTurn = { s with Player1Turn := !s.Player1Turn } := by
  simp [SwitchTurn]

/-- Handling a line that is not a restart in order does not raise the total. -/
theorem trigger_sum (env : Env) (s r : NimImpl) (line : String) (hr : PilesInRange s.Piles)
    (hnr : restartsMatch line = false) (h : trigger env s line = .ok r) :
    PilesInRange r.Piles ∧ pileSum r.Piles ≤ pileSum s.Piles := by
  rcases trigger_cases env s r line h with ⟨extra, rfl⟩ | ⟨-, hp, -⟩ | rfl |
    ⟨n, k, c, P, ht, hP, hnext⟩ | ⟨hre, -⟩
  · exact ⟨hr, le_refl _⟩
  · rw [hp]
    exact ⟨hr, le_refl _⟩
  · exact ⟨hr, le_refl _⟩
  · unfold LineTakes at ht
    cases hw : takeWords env line with
    | none => rw [hw] at ht; exact ht.elim
    | some parts =>
      rw [hw] at ht
      obtain ⟨-, -, -, hget, -, hn1, hn⟩ := ht
      have hc := get_inRange _ _ _ hr hget
      have hrP : PilesInRange P := set_inRange _ _ _ _ hr (by omega) (by omega) hP
      obtain ⟨hr1, hle⟩ := NextTurn_sum 3 { s with Piles := P } r hrP hnext
      refine ⟨hr1, le_trans hle ?_⟩
      show pileSum P ≤ pileSum s.Piles
      rw [set_sum _ _ _ _ _ hget hP]
      omega
  · rw [hre] at hnr
    cases hnr

theorem run_sum (env : Env) (lines : List String) (s r : NimImpl) (hr : PilesInRange s.Piles)
    (hnr : ∀ l ∈ lines, restartsMatch l = false) (h : run env s lines = .ok r) :
    PilesInRange r.Piles ∧ pileSum r.Piles ≤ pileSum s.Piles := by
  induction lines generalizing s with
  | nil =>
    have h1 : Except.ok s = Except.ok r := h
    simp only [Except.ok.injEq] at h1
    rw [← h1]
    exact ⟨hr, le_refl _⟩
  | cons l ls ih =>
    unfold run at h
    split at h
    · simp only [Except.ok.injEq] at h
      rw [← h]
      exact ⟨hr, le_refl _⟩
    · cases ht : trigger env s l with
      | error e =>
        rw [ht] at h
        cases h
      | ok s1 =>
        rw [ht] at h
        simp only [bind, Except.bind] at h
        obtain ⟨hr1, hle1⟩ := trigger_sum env s s1 l hr (hnr l (List.mem_cons_self _ _)) ht
        obtain ⟨hr2, hle2⟩ := ih s1 hr1 (fun x hx => hnr x (List.mem_cons_of_mem _ hx)) h
        exact ⟨hr2, le_trans hle2 hle1⟩

/-- C11: from a game whose piles are in `[0, 20]`, (1) every handled line that is not a
restart in order (`restart cpu` or `restart human`, in any letter case) leaves the total
of the three piles less than or equal to what it was; (2) a line that is a take in order,
of `n` objects, leaves it at most the former total minus `n`, so strictly less; (3) over
any sequence of lines none of which is a restart in order, the total at the end is at most
the total at the start.  (In (2) no word of the line that spells `from` parses as an
integer.) -/
theorem C11_pile_sum_never_increases (env : Env) (s : NimImpl) (hr : PilesInRange s.Piles) :
    (∀ line r, restartsMatch line = false → trigger env s line = .ok r →
      pileSum r.Piles ≤ pileSum s.Piles) ∧
    (∀ line r n k c,
      (∀ w ∈ split line, lowercase w = "from" → env.parse_integral w = none) →
      LineTakes env s line n k c → trigger env s line = .ok r →
      pileSum r.Piles ≤ pileSum s.Piles - n ∧ pileSum r.Piles < pileSum s.Piles) ∧
    (∀ lines r, (∀ l ∈ lines, restartsMatch l = false) → run env s lines = .ok r →
      pileSum r.Piles ≤ pileSum s.Piles) := by
  refine ⟨?_, ?_, ?_⟩
  · intro line r hnr h
    exact (trigger_sum env s r line hr hnr h).2
  · intro line r n k c hfrom ht h
    obtain ⟨P, hget, hn1, hn, hP, htrig⟩ := trigger_LineTakes env s line n k c hr hfrom ht
    rw [htrig] at h
    have hc := get_inRange _ _ _ hr hget
    have hrP : PilesInRange P := set_inRange _ _ _ _ hr (by omega) (by omega) hP
    obtain ⟨-, hle⟩ := NextTurn_sum 3 { s with Piles := P } r hrP h
    have hle1 : pileSum r.Piles ≤ pileSum P := hle
    rw [set_sum _ _ _ _ _ hget hP] at hle1
    constructor <;> omega
  · intro lines r hnr h
    exact (run_sum env lines s r hr hnr h).2

/-- C11, worked example: on `(5, 7, 9)` against a human, `take 2 from 1` lowers the total
from 21 to 19. -/
theorem C11_pile_sum_never_increases_witness :
    PilesInRange (game 5 7 9 false true).Piles ∧
    trigger exampleEnv (game 5 7 9 false true) "take 2 from 1"
      = .ok { game 3 7 9 false false with Prompt := "player2> ", Out := ["  3  7  9\n"] } ∧
    LineTakes exampleEnv (game 5 7 9 false true) "take 2 from 1" 2 1 5 ∧
    pileSum (game 5 7 9 false true).Piles = 21 ∧
    ((∀ line r, restartsMatch line = false →
      trigger exampleEnv (game 5 7 9 false true) line = .ok r →
      pileSum r.Piles ≤ pileSum (game 5 7 9 false true).Piles) ∧
    (∀ line r n k c,
      (∀ w ∈ split line, lowercase w = "from" → exampleEnv.parse_integral w = none) →
      LineTakes exampleEnv (game 5 7 9 false true) line n k c →
      trigger exampleEnv (game 5 7 9 false true) line = .ok r →
      pileSum r.Piles ≤ pileSum (game 5 7 9 false true).Piles - n ∧
        pileSum r.Piles < pileSum (game 5 7 9 false true).Piles) ∧
    (∀ lines r, (∀ l ∈ lines, restartsMatch l = false) →
      run exampleEnv (game 5 7 9 false true) lines = .ok r →
      pileSum r.Piles ≤ pileSum (game 5 7 9 false true).Piles)) :=
  ⟨by decide, by decide, by decide, by decide,
    C11_pile_sum_never_increases exampleEnv (game 5 7 9 false true) (by decide)⟩

end Match

section Alternation

open NimImpl

/-- C12: for every handled line, (1) if `Player1Turn` differs after the line from what it
was before, the line is a restart in order or a take in order; every other line (a
command that fails, `show`, `help`, `name`, `color`, ...) leaves it as it was.
(2) A take in order that does not end the game (some pile is left afterwards), from piles
in `[0, 20]`: the position after the removal is handed over by exactly one `SwitchTurn`;
against a human, or when the turn was not player 1's, that is all, and the game returns
for the next line; against the CPU the CPU then makes its move in that switched state,
and the position after its move is handed over by exactly one more `SwitchTurn`.  So
`Player1Turn` afterwards is its negation in the first case and its former value in the
second.  (3) `SwitchTurn` negates `Player1Turn` and changes nothing else; `NextTurn` on a
game that is not over is `StartTurn` after one `SwitchTurn`; the move of the CPU leaves
`Player1Turn` as it was.  (In (2) no word of the line that spells `from` parses as an
integer.) -/
theorem C12_turn_alternates (env : Env) (s r : NimImpl) (line : String)
    (h : trigger env s line = .ok r) :
    (r.Player1Turn ≠ s.Player1Turn →
      restartsMatch line = true ∨ ∃ n k c, LineTakes env s line n k c) ∧
    (∀ n k c, PilesInRange s.Piles →
      (∀ w ∈ split line, lowercase w = "from" → env.parse_integral w = none) →
      LineTakes env s line n k c → ¬ AllZero r.Piles →
      ∃ P, s.Piles.set (k - 1) ⟨c - n⟩ = .ok P ∧
        ((s.CPU && s.Player1Turn) = false →
          r = ({ s with Piles := P } : NimImpl).SwitchTurn.UpdatePrompt.ShowPiles) ∧
        ((s.CPU && s.Player1Turn) = true →
          ∃ t, ({ s with Piles := P } : NimImpl).SwitchTurn.UpdatePrompt.ShowPiles.CPUTurn_move
              = .ok t ∧
            t.Player1Turn = !s.Player1Turn ∧ r = t.SwitchTurn.UpdatePrompt.ShowPiles) ∧
        r.Player1Turn
          = if (s.CPU && s.Player1Turn) = true then s.Player1Turn else !s.Player1Turn) ∧
    (∀ t : NimImpl, t.SwitchTurn = { t with Player1Turn := !t.Player1Turn }) ∧
    (∀ fuel (t : NimImpl), t.GameOver = false →
      NextTurn (fuel + 1) t = StartTurn fuel t.SwitchTurn) ∧
    (∀ t t1 : NimImpl, t.CPUTurn_move = .ok t1 → t1.Player1Turn = t.Player1Turn) := by
  refine ⟨?_, ?_, SwitchTurn_eq, ?_, ?_⟩
  · intro hne
    rcases trigger_cases env s r line h with ⟨extra, rfl⟩ | ⟨-, -, hp⟩ | rfl |
      ⟨n, k, c, P, ht, -, -⟩ | ⟨hre, -⟩
    · exact absurd rfl hne
    · exact absurd hp hne
    · exact absurd rfl hne
    · exact Or.inr ⟨n, k, c, ht⟩
    · exact Or.inl hre
  · intro n k c hr hfrom ht hnz
    obtain ⟨P, -, -, -, hP, htrig⟩ := trigger_LineTakes env s line n k c hr hfrom ht
    rw [htrig] at h
    refine ⟨P, hP, ?_⟩
    have hover : ∀ u : NimImpl, u.GameOver = true → r = u.announceWinner → False := by
      intro u hu hru
      apply hnz
      rw [hru, announceWinner_Piles]
      exact (GameOver_iff u).1 hu
    by_cases hcp : (s.CPU && s.Player1Turn) = true
    · have hc : s.CPU = true := by
        cases hh : s.CPU
        · rw [hh] at hcp; simp at hcp
        · rfl
      have hp : s.Player1Turn = true := by
        cases hh : s.Player1Turn
        · rw [hh] at hcp; simp at hcp
        · rfl
      rcases NextTurn_cases 3 _ r h with ⟨hg, hru⟩ | ⟨-, hs⟩
      · exact (hover _ hg hru).elim
      · rcases StartTurn_cases 3 _ r hs with ⟨hg, -⟩ | ⟨-, t, hm, hrt⟩
        · have hg1 : (s.CPU && !(xor s.Player1Turn true)) = false := hg
          rw [hc, hp] at hg1
          simp at hg1
        · obtain ⟨Q, num, j, htq⟩ := CPUTurn_move_line _ _ hm
          have htp : t.Player1Turn = !s.Player1Turn := by
            rw [htq]
            show xor s.Player1Turn true = !s.Player1Turn
            simp
          have hrt1 : r = t.SwitchTurn.UpdatePrompt.ShowPiles := by
            cases hg : t.GameOver
            · rw [hg] at hrt
              exact hrt
            · rw [hg] at hrt
              exact (hover t hg hrt).elim
          refine ⟨fun hf => ?_, fun _ => ⟨t, hm, htp, hrt1⟩, ?_⟩
          · rw [hcp] at hf
            cases hf
          · rw [if_pos hcp, hrt1]
            show xor t.Player1Turn true = s.Player1Turn
            rw [htp, hp]
            rfl
    · have hcp1 : (s.CPU && s.Player1Turn) = false := by simpa using hcp
      have h2 := NextTurn_no_reply 6 ({ s with Piles := P } : NimImpl) hcp1
      have h3 : NextTurn turnFuel ({ s with Piles := P } : NimImpl)
          = .ok (if ({ s with Piles := P } : NimImpl).GameOver = true
            then ({ s with Piles := P } : NimImpl).announceWinner
            else ({ s with Piles := P } : NimImpl).SwitchTurn.UpdatePrompt.ShowPiles) := h2
      rw [h3] at h
      simp only [Except.ok.injEq] at h
      have hr1 : r = ({ s with Piles := P } : NimImpl).SwitchTurn.UpdatePrompt.ShowPiles := by
        cases hg : ({ s with Piles := P } : NimImpl).GameOver
        · rw [hg] at h
          exact h.symm
        · rw [hg] at h
          exact (hover _ hg h.symm).elim
      refine ⟨fun _ => hr1, fun hf => absurd hf hcp, ?_⟩
      rw [if_neg hcp, hr1]
      show xor s.Player1Turn true = !s.Player1Turn
      simp
  · intro fuel t hg
    rw [NextTurn_succ, hg]
    rfl
  · intro t t1 hm
    obtain ⟨Q, num, j, htq⟩ := CPUTurn_move_line _ _ hm
    rw [htq]

/-- C12, worked examples: a take against a human hands the turn over; a take against the
CPU is answered, and the turn is player 1's again; `show` leaves the turn alone. -/
theorem C12_turn_alternates_witness :
    trigger exampleEnv (game 5 7 9 false true) "take 2 from 1"
      = .ok { game 3 7 9 false false with Prompt := "player2> ", Out := ["  3  7  9\n"] } ∧
    trigger exampleEnv (game 11 12 15 true true) "take 2 from 1"
      = .ok { game 3 12 15 true true with
          Prompt := "player1> ",
          Out := ["  9  12  15\n", "cpu> take 6 from 1\n", "  3  12  15\n"] } ∧
    trigger exampleEnv (game 5 7 9 false true) "show 1"
      = .ok { game 5 7 9 false true with Out := ["  5\n"] } ∧
    (({ game 3 7 9 false false with Prompt := "player2> ", Out := ["  3  7  9\n"] }
        : NimImpl).Player1Turn ≠ (game 5 7 9 false true).Player1Turn →
      restartsMatch "take 2 from 1" = true ∨
        ∃ n k c, LineTakes exampleEnv (game 5 7 9 false true) "take 2 from 1" n k c) :=
  ⟨by decide, by decide, by decide,
    (C12_turn_alternates exampleEnv (game 5 7 9 false true)
      { game 3 7 9 false false with Prompt := "player2> ", Out := ["  3  7  9\n"] }
      "take 2 from 1" (by decide)).1⟩

/-- C17: for every state in which the name of the CPU does not begin with `>` (it is
`cpu` throughout the program), and every line the interpreter handles: what is written
only grows; and if one of the lines written while handling is an error line (one that
begins `> SyntaxError: `, `> ArgumentError: ` or `> RangeError: `), then the state
afterwards is the state before with that output added and nothing else changed: piles,
turn, opponent mode, the three names, `Quit`, and `ConsoleQuit` (the interactive loop is
not ended) are as before. -/
theorem C17_error_line_leaves_game_unchanged (env : Env) (s r : NimImpl) (line : String)
    (hcpu : s.CPUName.data.head? ≠ some '>') (h : trigger env s line = .ok r) :
    ∃ extra, r.Out = s.Out ++ extra ∧
      ((∃ c ∈ extra, IsErrorLine c) →
        r = { s with Out := s.Out ++ extra } ∧ r.Piles = s.Piles ∧
          r.Player1Turn = s.Player1Turn ∧ r.CPU = s.CPU ∧ r.Player1Name = s.Player1Name ∧
          r.Player2Name = s.Player2Name ∧ r.CPUName = s.CPUName ∧ r.Quit = s.Quit ∧
          r.ConsoleQuit = s.ConsoleQuit) := by
  rcases trigger_cases env s r line h with ⟨extra, rfl⟩ | ⟨ho, -, -⟩ | rfl |
    ⟨n, k, c, P, -, -, hnext⟩ | ⟨-, flag, hre⟩
  · exact ⟨extra, rfl, fun _ => ⟨rfl, rfl, rfl, rfl, rfl, rfl, rfl, rfl, rfl⟩⟩
  · refine ⟨[], by rw [ho, List.append_nil], ?_⟩
    rintro ⟨c, hc, -⟩
    exact absurd hc (List.not_mem_nil c)
  · refine ⟨["\n"], rfl, ?_⟩
    rintro ⟨c, hc, he⟩
    rw [List.mem_singleton] at hc
    rw [hc] at he
    exact absurd he newline_not_error
  · obtain ⟨extra, hout, hno⟩ := NextTurn_out 3 { s with Piles := P } r hcpu hnext
    refine ⟨extra, hout, ?_⟩
    rintro ⟨c, hc, he⟩
    exact absurd he (hno c hc)
  · have hre1 : StartTurn (4 + 4)
        (((({ s with CPU := flag } : NimImpl).print "----\n").Rnd env).DecideTurn env)
        = .ok r := hre
    have hcpu1 : (((({ s with CPU := flag } : NimImpl).print "----\n").Rnd env).DecideTurn
        env).CPUName.data.head? ≠ some '>' := hcpu
    obtain ⟨extra, hout, hno⟩ := StartTurn_out 4
      (((({ s with CPU := flag } : NimImpl).print "----\n").Rnd env).DecideTurn env) r hcpu1 hre1
    refine ⟨"----\n" :: extra, ?_, ?_⟩
    · rw [hout]
      show (s.Out ++ ["----\n"]) ++ extra = s.Out ++ "----\n" :: extra
      simp only [List.append_assoc, List.singleton_append]
    · rintro ⟨c, hc, he⟩
      rw [List.mem_cons] at hc
      rcases hc with rfl | hc
      · exact absurd he dashes_not_error
      · exact absurd he (hno c hc)

/-- C17, worked example: `take 9 from 1` on `(5, 7, 9)` is answered by a `RangeError`
line and nothing else changes. -/
theorem C17_error_line_leaves_game_unchanged_witness :
    IsErrorLine "> RangeError: Expected <number> in range [1, pile length (5)], got \x279\x27.\n" ∧
    trigger exampleEnv (game 5 7 9 false true) "take 9 from 1"
      = .ok { game 5 7 9 false true with Out :=
          ["> RangeError: Expected <number> in range [1, pile length (5)], got \x279\x27.\n"] } ∧
    ∃ extra, ({ game 5 7 9 false true with Out :=
        ["> RangeError: Expected <number> in range [1, pile length (5)], got \x279\x27.\n"] }
          : NimImpl).Out = (game 5 7 9 false true).Out ++ extra ∧
      ((∃ c ∈ extra, IsErrorLine c) →
        ({ game 5 7 9 false true with Out :=
          ["> RangeError: Expected <number> in range [1, pile length (5)], got \x279\x27.\n"] }
            : NimImpl) = { game 5 7 9 false true with
              Out := (game 5 7 9 false true).Out ++ extra } ∧
          ({ game 5 7 9 false true with Out :=
          ["> RangeError: Expected <number> in range [1, pile length (5)], got \x279\x27.\n"] }
            : NimImpl).Piles = (game 5 7 9 false true).Piles ∧
          ({ game 5 7 9 false true with Out :=
          ["> RangeError: Expected <number> in range [1, pile length (5)], got \x279\x27.\n"] }
            : NimImpl).Player1Turn = (game 5 7 9 false true).Player1Turn ∧
          ({ game 5 7 9 false true with Out :=
          ["> RangeError: Expected <number> in range [1, pile length (5)], got \x279\x27.\n"] }
            : NimImpl).CPU = (game 5 7 9 false true).CPU ∧
          ({ game 5 7 9 false true with Out :=
          ["> RangeError: Expected <number> in range [1, pile length (5)], got \x279\x27.\n"] }
            : NimImpl).Player1Name = (game 5 7 9 false true).Player1Name ∧
          ({ game 5 7 9 false true with Out :=
          ["> RangeError: Expected <number> in range [1, pile length (5)], got \x279\x27.\n"] }
            : NimImpl).Player2Name = (game 5 7 9 false true).Player2Name ∧
          ({ game 5 7 9 false true with Out :=
          ["> RangeError: Expected <number> in range [1, pile length (5)], got \x279\x27.\n"] }
            : NimImpl).CPUName = (game 5 7 9 false true).CPUName ∧
          ({ game 5 7 9 false true with Out :=
          ["> RangeError: Expected <number> in range [1, pile length (5)], got \x279\x27.\n"] }
            : NimImpl).Quit = (game 5 7 9 false true).Quit ∧
          ({ game 5 7 9 false true with Out :=
          ["> RangeError: Expected <number> in range [1, pile length (5)], got \x279\x27.\n"] }
            : NimImpl).ConsoleQuit = (game 5 7 9 false true).ConsoleQuit) :=
  ⟨errorLine_range _, by decide,
    C17_error_line_leaves_game_unchanged exampleEnv (game 5 7 9 false true)
      { game 5 7 9 false true with Out :=
        ["> RangeError: Expected <number> in range [1, pile length (5)], got \x279\x27.\n"] }
      "take 9 from 1" (by decide) (by decide)⟩

end Alternation

section MainLoop

open NimImpl

/-- On a position with counts in `[0, 20]` and nonzero nim-sum the first loop of `CPUTurn`
leaves the nim-sum in `state` and its second loop makes the removal: `move_made` is
true. -/
theorem main_loop_moves (s : NimImpl) (hr : PilesInRange s.Piles) (hs : nimSum s.Piles ≠ 0) :
    ∃ (j : Nat) (count : Int) (P : Piles3),
      j < 3 ∧ s.Piles.get (j : Int) = .ok ⟨count⟩ ∧
      count.toNat.testBit (topBit (nimSum s.Piles)) = true ∧
      ((count.toNat ^^^ nimSum s.Piles : Nat) : Int) < count ∧
      0 ≤ ((count.toNat ^^^ nimSum s.Piles : Nat) : Int) ∧ count ≤ 20 ∧
      s.Piles.set (j : Int) ⟨((count.toNat ^^^ nimSum s.Piles : Nat) : Int)⟩ = .ok P ∧
      CPUTurn_parity s.Piles (List.range BITSET_MAX).reverse 0 = .ok (nimSum s.Piles) ∧
      choice_main s.Piles
        = .ok (some (count - ((count.toNat ^^^ nimSum s.Piles : Nat) : Int), (j : Int))) ∧
      CPUTurn_scanBits s (nimSum s.Piles) (List.range BITSET_MAX).reverse
        = .ok ({ s with
            Piles := P,
            Out := s.Out ++
              [cpuTakeLine s (count - ((count.toNat ^^^ nimSum s.Piles : Nat) : Int)) j] },
          true) := by
  obtain ⟨hP, ha, hb, hc⟩ := position_of_inRange s.Piles hr
  have hs2 : s.Piles.1.count.toNat ^^^ s.Piles.2.1.count.toNat ^^^ s.Piles.2.2.count.toNat ≠ 0 :=
    hs
  have hst : s.Piles.1.count.toNat ^^^ s.Piles.2.1.count.toNat ^^^ s.Piles.2.2.count.toNat
      < 32 := by
    have h5 : ∀ x : Nat, x ≤ 20 → x < 2 ^ 5 := fun x hx => by omega
    exact Nat.xor_lt_two_pow (Nat.xor_lt_two_pow (h5 _ ha) (h5 _ hb)) (h5 _ hc)
  have hpar := parity_position _ _ _ hst
  obtain ⟨j, n, hj, -, hget, hn, hbit, hlt, hch, P, hset, -⟩ :=
    choice_main_position _ _ _ ha hb hc hs2
  rw [← hP] at hget hch hset hpar
  have hns : nimSum s.Piles
      = s.Piles.1.count.toNat ^^^ s.Piles.2.1.count.toNat ^^^ s.Piles.2.2.count.toNat := rfl
  rw [← hns] at hbit hlt hch hset hpar
  have hlt2 : ((n ^^^ nimSum s.Piles : Nat) : Int) < (n : Int) := by exact_mod_cast hlt
  have hmain : choice_main s.Piles
      = choice_scanBits s.Piles (nimSum s.Piles) (List.range BITSET_MAX).reverse := by
    unfold choice_main
    rw [hpar]
    rfl
  have hscan : CPUTurn_scanBits s (nimSum s.Piles) (List.range BITSET_MAX).reverse
      = .ok ({ s with
          Piles := P,
          Out := s.Out ++ [cpuTakeLine s ((n : Int) - ((n ^^^ nimSum s.Piles : Nat) : Int)) j] },
        true) := by
    rw [scanBits_choice, ← hmain, hch]
    simp only [Except.bind]
    rw [CPUTake_ok s j n _ P hget (Int.natCast_nonneg _) (by omega) hset]
    rfl
  refine ⟨j, n, P, hj, hget, by simpa using hbit, by simpa using hlt2, ?_, by omega,
    by simpa using hset, hpar, by simpa using hch, by simpa using hscan⟩
  simp only [Int.toNat_ofNat]
  exact Int.natCast_nonneg _

/-- C21: on every position with counts in `[0, 20]` and nonzero nim-sum `n`: `n` has a
highest set bit `i`; the pile `CPUTurn` chooses has an index `j` among 0, 1, 2 and a count
with bit `i` set; its target `count XOR n` is strictly less than `count`, so the amount
removed, `count - (count XOR n)`, lies in `[1, count]`; the first loop leaves `n` in
`state`; the second loop makes this removal and leaves `move_made` true, so the fallback
is not run; the subtraction `operator-=` on the pile does not fault and leaves the
target; and `CPUTake`, hence the body of `CPUTurn`, returns. -/
theorem C21_main_loop_always_moves (s : NimImpl) (hr : PilesInRange s.Piles)
    (hs : nimSum s.Piles ≠ 0) :
    ∃ (j : Nat) (count : Int) (s1 : NimImpl),
      IsHighestBit (nimSum s.Piles) (topBit (nimSum s.Piles)) ∧
      j < 3 ∧ s.Piles.get (j : Int) = .ok ⟨count⟩ ∧
      count.toNat.testBit (topBit (nimSum s.Piles)) = true ∧
      ((count.toNat ^^^ nimSum s.Piles : Nat) : Int) < count ∧
      1 ≤ count - ((count.toNat ^^^ nimSum s.Piles : Nat) : Int) ∧
      count - ((count.toNat ^^^ nimSum s.Piles : Nat) : Int) ≤ count ∧
      CPUTurn_parity s.Piles (List.range BITSET_MAX).reverse 0 = .ok (nimSum s.Piles) ∧
      choice_main s.Piles
        = .ok (some (count - ((count.toNat ^^^ nimSum s.Piles : Nat) : Int), (j : Int))) ∧
      CPUTurn_scanBits s (nimSum s.Piles) (List.range BITSET_MAX).reverse = .ok (s1, true) ∧
      Pile.subAssign ⟨count⟩ (count - ((count.toNat ^^^ nimSum s.Piles : Nat) : Int))
        = .ok ⟨((count.toNat ^^^ nimSum s.Piles : Nat) : Int)⟩ ∧
      s.CPUTake (count - ((count.toNat ^^^ nimSum s.Piles : Nat) : Int)) j = .ok s1 ∧
      s.CPUTurn_move = .ok s1 := by
  obtain ⟨j, count, P, hj, hget, hbit, hlt, h0, h20, hset, hpar, hch, hscan⟩ :=
    main_loop_moves s hr hs
  have h32 : nimSum s.Piles < 32 := by
    obtain ⟨-, ha, hb, hc⟩ := position_of_inRange s.Piles hr
    have h5 : ∀ x : Nat, x ≤ 20 → x < 2 ^ 5 := fun x hx => by omega
    exact Nat.xor_lt_two_pow (Nat.xor_lt_two_pow (h5 _ ha) (h5 _ hb)) (h5 _ hc)
  have htop := (topBit_table ⟨nimSum s.Piles, h32⟩ hs).1
  have htake := CPUTake_ok s j count _ P hget h0 (by omega) hset
  refine ⟨j, count, _, htop, hj, hget, hbit, hlt, by omega, by omega, hpar, hch, hscan, ?_,
    htake, ?_⟩
  · rw [subAssign_eq, if_pos ⟨by omega, by omega⟩]
    congr 2
    omega
  · rw [CPUTurn_move_eq, hch]
    exact htake

/-- C21, worked example: on `(3, 4, 5)`, of nim-sum 2, the CPU takes 2 from the pile of
index 0, which holds 3 and is left at 1. -/
theorem C21_main_loop_always_moves_witness :
    nimSum (game 3 4 5 true false).Piles = 2 ∧
    CPUTurn_scanBits (game 3 4 5 true false) 2 (List.range BITSET_MAX).reverse
      = .ok ({ game 1 4 5 true false with Out := ["cpu> take 2 from 1\n"] }, true) ∧
    ∃ (j : Nat) (count : Int) (s1 : NimImpl),
      IsHighestBit (nimSum (game 3 4 5 true false).Piles)
        (topBit (nimSum (game 3 4 5 true false).Piles)) ∧
      j < 3 ∧ (game 3 4 5 true false).Piles.get (j : Int) = .ok ⟨count⟩ ∧
      count.toNat.testBit (topBit (nimSum (game 3 4 5 true false).Piles)) = true ∧
      ((count.toNat ^^^ nimSum (game 3 4 5 true false).Piles : Nat) : Int) < count ∧
      1 ≤ count - ((count.toNat ^^^ nimSum (game 3 4 5 true false).Piles : Nat) : Int) ∧
      count - ((count.toNat ^^^ nimSum (game 3 4 5 true false).Piles : Nat) : Int) ≤ count ∧
      CPUTurn_parity (game 3 4 5 true false).Piles (List.range BITSET_MAX).reverse 0
        = .ok (nimSum (game 3 4 5 true false).Piles) ∧
      choice_main (game 3 4 5 true false).Piles
        = .ok (some (count - ((count.toNat ^^^ nimSum (game 3 4 5 true false).Piles : Nat)
            : Int), (j : Int))) ∧
      CPUTurn_scanBits (game 3 4 5 true false) (nimSum (game 3 4 5 true false).Piles)
        (List.range BITSET_MAX).reverse = .ok (s1, true) ∧
      Pile.subAssign ⟨count⟩
          (count - ((count.toNat ^^^ nimSum (game 3 4 5 true false).Piles : Nat) : Int))
        = .ok ⟨((count.toNat ^^^ nimSum (game 3 4 5 true false).Piles : Nat) : Int)⟩ ∧
      (game 3 4 5 true false).CPUTake
          (count - ((count.toNat ^^^ nimSum (game 3 4 5 true false).Piles : Nat) : Int)) j
        = .ok s1 ∧
      (game 3 4 5 true false).CPUTurn_move = .ok s1 :=
  ⟨by decide, by decide,
    C21_main_loop_always_moves (game 3 4 5 true false) (by decide) (by decide)⟩

end MainLoop

section Fallback

open NimImpl

theorem fallbackIndices_eq : List.range' 1 (BITSET_MAX - 1 - 1) = [1, 2, 3] := by decide

/-- The first two rounds of the scan of the fallback, on any piles. -/
theorem maxIndex_two (P : Piles3) :
    CPUTurn_maxIndex P [1, 2] 0 = .ok
      (if P.2.1.count > P.1.count then (if P.2.2.count > P.2.1.count then 2 else 1)
        else (if P.2.2.count > P.1.count then 2 else 0)) := by
  have h1 : CPUTurn_maxIndex P [1, 2] 0
      = CPUTurn_maxIndex P [2] (if P.2.1.toInt32 > P.1.toInt32 then 1 else 0) := rfl
  rw [h1]
  by_cases c1 : P.2.1.count > P.1.count
  · have c1a : P.2.1.toInt32 > P.1.toInt32 := c1
    rw [if_pos c1a, if_pos c1]
    have h2 : CPUTurn_maxIndex P [2] 1
        = .ok (if P.2.2.toInt32 > P.2.1.toInt32 then 2 else 1) := rfl
    rw [h2]
    rfl
  · have c1a : ¬ P.2.1.toInt32 > P.1.toInt32 := c1
    rw [if_neg c1a, if_neg c1]
    have h2 : CPUTurn_maxIndex P [2] 0
        = .ok (if P.2.2.toInt32 > P.1.toInt32 then 2 else 0) := rfl
    rw [h2]
    rfl

/-- C22: the claim fails on the code.  The scan of the fallback of `CPUTurn` does not stay
on the indices 0 and 1: its bound `BITSET_MAX - 1` is 4, so it visits `j = 1, 2, 3`.  On
every position with counts in `[0, 20]` and nim-sum 0 the main loop returns without a
move, the fallback is entered, and its scan reads `Piles[3]`, past the end of the array:
no `CPUTake(1, j)` with `j` equal to 0 or 1 is reached.  The embedding stops at that
read; the line a `CPUTake(1, 3)` writes names pile 4. -/
theorem C22_fallback_scan_leaves_the_array (s : NimImpl) (hr : PilesInRange s.Piles)
    (hz : nimSum s.Piles = 0) :
    List.range' 1 (BITSET_MAX - 1 - 1) = [1, 2, 3] ∧
    CPUTurn_scanBits s (nimSum s.Piles) (List.range BITSET_MAX).reverse = .ok (s, false) ∧
    s.Piles.get 3 = .error (.outOfBounds 3) ∧
    CPUTurn_maxIndex s.Piles (List.range' 1 (BITSET_MAX - 1 - 1)) 0
      = .error (.outOfBounds 3) ∧
    s.CPUTurn_move = .error (.outOfBounds 3) ∧
    cpuTakeLine s 1 3 = s.CPUName ++ "> " ++ "take " ++ "1" ++ " from " ++ "4" ++ "\n" := by
  refine ⟨fallbackIndices_eq, ?_, rfl, maxIndex_fallback s.Piles,
    CPUTurn_move_fallback s hr hz, rfl⟩
  rw [hz]
  rfl

/-- C22, worked example: `(1, 2, 3)`, of nim-sum 0, with the CPU to move. -/
theorem C22_fallback_scan_leaves_the_array_witness :
    PilesInRange (game 1 2 3 true false).Piles ∧ nimSum (game 1 2 3 true false).Piles = 0 ∧
    (game 1 2 3 true false).CPUTurn_move = .error (.outOfBounds 3) ∧
    cpuTakeLine (game 1 2 3 true false) 1 3 = "cpu> take 1 from 4\n" ∧
    (List.range' 1 (BITSET_MAX - 1 - 1) = [1, 2, 3] ∧
      CPUTurn_scanBits (game 1 2 3 true false) (nimSum (game 1 2 3 true false).Piles)
        (List.range BITSET_MAX).reverse = .ok (game 1 2 3 true false, false) ∧
      (game 1 2 3 true false).Piles.get 3 = .error (.outOfBounds 3) ∧
      CPUTurn_maxIndex (game 1 2 3 true false).Piles (List.range' 1 (BITSET_MAX - 1 - 1)) 0
        = .error (.outOfBounds 3) ∧
      (game 1 2 3 true false).CPUTurn_move = .error (.outOfBounds 3) ∧
      cpuTakeLine (game 1 2 3 true false) 1 3
        = (game 1 2 3 true false).CPUName ++ "> " ++ "take " ++ "1" ++ " from " ++ "4"
          ++ "\n") :=
  ⟨by decide, by decide, by decide, by decide,
    C22_fallback_scan_leaves_the_array (game 1 2 3 true false) (by decide) (by decide)⟩

/-- C23: the claim fails on the code.  On every position with counts in `[0, 20]`: when
the nim-sum is not 0, the body of `CPUTurn` returns, so every index it used on `Piles`
was 0, 1 or 2; when the nim-sum is 0, the first loop returns, the main loop returns
without a move, and the scan of the fallback, which visits `j = 1, 2, 3`, reads
`Piles[3]`: the body of `CPUTurn` stops at that read, before any `CPUTake`. -/
theorem C23_fallback_reads_index_three (s : NimImpl) (hr : PilesInRange s.Piles) :
    (nimSum s.Piles ≠ 0 → ∃ s1, s.CPUTurn_move = .ok s1) ∧
    (nimSum s.Piles = 0 →
      CPUTurn_parity s.Piles (List.range BITSET_MAX).reverse 0 = .ok 0 ∧
      CPUTurn_scanBits s 0 (List.range BITSET_MAX).reverse = .ok (s, false) ∧
      CPUTurn_maxIndex s.Piles [1, 2] 0 = .ok
        (if s.Piles.2.1.count > s.Piles.1.count
          then (if s.Piles.2.2.count > s.Piles.2.1.count then 2 else 1)
          else (if s.Piles.2.2.count > s.Piles.1.count then 2 else 0)) ∧
      s.Piles.get 3 = .error (.outOfBounds 3) ∧
      CPUTurn_maxIndex s.Piles (List.range' 1 (BITSET_MAX - 1 - 1)) 0
        = .error (.outOfBounds 3) ∧
      s.CPUTurn_move = .error (.outOfBounds 3)) := by
  refine ⟨?_, ?_⟩
  · intro hs
    obtain ⟨j, count, P, -, -, -, -, -, -, -, -, hmove⟩ := CPUTurn_move_winning s hr hs
    exact ⟨_, hmove⟩
  · intro hz
    have hpar : CPUTurn_parity s.Piles (List.range BITSET_MAX).reverse 0 = .ok 0 := by
      obtain ⟨hP, ha, hb, hc⟩ := position_of_inRange s.Piles hr
      have hz2 : s.Piles.1.count.toNat ^^^ s.Piles.2.1.count.toNat ^^^ s.Piles.2.2.count.toNat
          = 0 := hz
      have h := parity_position s.Piles.1.count.toNat s.Piles.2.1.count.toNat
        s.Piles.2.2.count.toNat (by rw [hz2]; decide)
      rw [← hP, hz2] at h
      exact h
    exact ⟨hpar, rfl, maxIndex_two s.Piles, rfl, maxIndex_fallback s.Piles,
      CPUTurn_move_fallback s hr hz⟩

/-- C23, worked example: `(1, 2, 3)`; and a game in which the fallback is met: from
`(13, 10, 17)` against the CPU, `take 10 from 3` leaves `(13, 10, 7)`, of nim-sum 0, to
the CPU. -/
theorem C23_fallback_reads_index_three_witness :
    PilesInRange (game 1 2 3 true false).Piles ∧ nimSum (game 1 2 3 true false).Piles = 0 ∧
    (game 1 2 3 true false).CPUTurn_move = .error (.outOfBounds 3) ∧
    nimSum (position 13 10 7) = 0 ∧
    trigger exampleEnv (game 13 10 17 true true) "take 10 from 3" = .error (.outOfBounds 3) :=
  ⟨by decide, by decide,
    ((C23_fallback_reads_index_three (game 1 2 3 true false) (by decide)).2 (by decide)).2.2.2.2.2,
    by decide, by decide⟩

end Fallback

section Termination

open NimImpl

theorem StartTurn_moves_succ (fuel : Nat) (s : NimImpl) :
    StartTurn_moves (fuel + 1) s =
      if (s.UpdatePrompt.ShowPiles.CPU && !s.UpdatePrompt.ShowPiles.Player1Turn) = true
      then CPUTurn_moves fuel s.UpdatePrompt.ShowPiles else .ok (s.UpdatePrompt.ShowPiles, 0) :=
  rfl

theorem CPUTurn_moves_succ (fuel : Nat) (s : NimImpl) :
    CPUTurn_moves (fuel + 1) s
      = s.CPUTurn_move.bind fun t => (NextTurn_moves fuel t).bind fun r =>
          .ok (r.1, r.2 + 1) := rfl

theorem NextTurn_moves_succ (fuel : Nat) (s : NimImpl) :
    NextTurn_moves (fuel + 1) s =
      if s.GameOver = true then .ok (s.announceWinner, 0)
      else StartTurn_moves fuel s.SwitchTurn := rfl

/-- Leaving the count out of the counted turn functions gives the turn functions. -/
theorem moves_erase (fuel : Nat) : ∀ s : NimImpl,
    (StartTurn_moves fuel s).map Prod.fst = StartTurn fuel s ∧
    (CPUTurn_moves fuel s).map Prod.fst = CPUTurn fuel s ∧
    (NextTurn_moves fuel s).map Prod.fst = NextTurn fuel s := by
  induction fuel with
  | zero => exact fun s => ⟨rfl, rfl, rfl⟩
  | succ f ih =>
    intro s
    refine ⟨?_, ?_, ?_⟩
    · rw [StartTurn_moves_succ, StartTurn_succ]
      split
      · exact (ih _).2.1
      · rfl
    · rw [CPUTurn_moves_succ, CPUTurn_succ]
      cases hm : s.CPUTurn_move with
      | error e => rfl
      | ok t =>
        simp only [Except.bind]
        have h := (ih t).2.2
        cases hn : NextTurn_moves f t with
        | error e =>
          rw [hn] at h
          rw [← h]
        | ok r =>
          rw [hn] at h
          rw [← h]
          rfl
    · rw [NextTurn_moves_succ, NextTurn_succ]
      split
      · rfl
      · exact (ih _).1

/-- A turn function that returns, returns with some count. -/
theorem StartTurn_moves_of_ok (fuel : Nat) (s r : NimImpl) (h : StartTurn fuel s = .ok r) :
    ∃ n, StartTurn_moves fuel s = .ok (r, n) := by
  have he := (moves_erase fuel s).1
  rw [h] at he
  cases hm : StartTurn_moves fuel s with
  | error e => rw [hm] at he; cases he
  | ok p =>
    rw [hm] at he
    have he1 : Except.ok p.1 = Except.ok r := he
    simp only [Except.ok.injEq] at he1
    exact ⟨p.2, by rw [← he1]⟩

theorem NextTurn_moves_of_ok (fuel : Nat) (s r : NimImpl) (h : NextTurn fuel s = .ok r) :
    ∃ n, NextTurn_moves fuel s = .ok (r, n) := by
  have he := (moves_erase fuel s).2.2
  rw [h] at he
  cases hm : NextTurn_moves fuel s with
  | error e => rw [hm] at he; cases he
  | ok p =>
    rw [hm] at he
    have he1 : Except.ok p.1 = Except.ok r := he
    simp only [Except.ok.injEq] at he1
    exact ⟨p.2, by rw [← he1]⟩

theorem NextTurn_moves_no_reply (fuel : Nat) (s : NimImpl)
    (h : (s.CPU && s.Player1Turn) = false) :
    NextTurn_moves (fuel + 2) s
      = .ok (if s.GameOver = true then s.announceWinner
          else s.SwitchTurn.UpdatePrompt.ShowPiles, 0) := by
  have hg : (s.SwitchTurn.UpdatePrompt.ShowPiles.CPU &&
      !s.SwitchTurn.UpdatePrompt.ShowPiles.Player1Turn) = false := by
    show (s.CPU && !(xor s.Player1Turn true)) = false
    cases hc : s.CPU <;> cases hp : s.Player1Turn <;> simp_all
  rw [NextTurn_moves_succ, StartTurn_moves_succ, hg]
  cases s.GameOver <;> rfl

/-- `StartTurn` makes at most one removal for the CPU, and none unless the opponent is
the CPU and it is not player 1's turn. -/
theorem StartTurn_moves_count (fuel : Nat) (s r : NimImpl) (n : Nat)
    (h : StartTurn_moves (fuel + 4) s = .ok (r, n)) :
    n ≤ 1 ∧ (s.CPU = false → n = 0) ∧ (s.Player1Turn = true → n = 0) ∧ r.CPU = s.CPU := by
  rw [StartTurn_moves_succ] at h
  split at h
  · rename_i hg
    have hg1 : (s.CPU && !s.Player1Turn) = true := hg
    have hc : s.CPU = true := by
      cases hh : s.CPU
      · rw [hh] at hg1; simp at hg1
      · rfl
    have hp : s.Player1Turn = false := by
      cases hh : s.Player1Turn
      · rfl
      · rw [hh] at hg1; simp at hg1
    rw [CPUTurn_moves_succ] at h
    cases hm : s.UpdatePrompt.ShowPiles.CPUTurn_move with
    | error e => rw [hm] at h; cases h
    | ok t =>
      rw [hm] at h
      simp only [Except.bind] at h
      obtain ⟨P, num, j, ht⟩ := CPUTurn_move_line _ _ hm
      have htp : (t.CPU && t.Player1Turn) = false := by
        rw [ht]
        show (s.CPU && s.Player1Turn) = false
        rw [hp]
        simp
      have htc : t.CPU = s.CPU := by rw [ht]; rfl
      rw [NextTurn_moves_no_reply _ _ htp] at h
      simp only [Except.ok.injEq, Prod.mk.injEq] at h
      obtain ⟨hr, hn⟩ := h
      refine ⟨by omega, fun hf => ?_, fun hf => ?_, ?_⟩
      · rw [hc] at hf; cases hf
      · rw [hp] at hf; cases hf
      · rw [← hr, ← htc]
        split
        · rw [announceWinner_eq]
        · rfl
  · simp only [Except.ok.injEq, Prod.mk.injEq] at h
    obtain ⟨hr, hn⟩ := h
    refine ⟨by omega, fun _ => hn.symm, fun _ => hn.symm, ?_⟩
    rw [← hr]
    rfl

theorem NextTurn_moves_count (fuel : Nat) (s r : NimImpl) (n : Nat)
    (h : NextTurn_moves (fuel + 5) s = .ok (r, n)) :
    n ≤ 1 ∧ (s.CPU = false → n = 0) ∧ r.CPU = s.CPU := by
  rw [NextTurn_moves_succ] at h
  split at h
  · simp only [Except.ok.injEq, Prod.mk.injEq] at h
    obtain ⟨hr, hn⟩ := h
    refine ⟨by omega, fun _ => hn.symm, ?_⟩
    rw [← hr, announceWinner_eq]
  · obtain ⟨h1, h2, -, h4⟩ := StartTurn_moves_count fuel s.SwitchTurn r n h
    exact ⟨h1, h2, h4⟩

/-! ### No handler runs out of nested calls -/

theorem CmdTake_checked_not_fuel (env : Env) (s : NimImpl) (a b : String) :
    CmdTake_checked env s a b ≠ .error .fuel := by
  intro h
  by_cases hacc : ∃ n k c, env.parse_integral a = some n ∧ env.parse_integral b = some k ∧
      1 ≤ k ∧ k ≤ 3 ∧ s.Piles.get (k - 1) = .ok ⟨c⟩ ∧ c ≠ 0 ∧ 1 ≤ n ∧ n ≤ c
  · obtain ⟨n, k, c, ha, hb, hk1, hk3, hget, hc, hn1, hn⟩ := hacc
    obtain ⟨P, hP⟩ := set_of_index s.Piles k ⟨c - n⟩ hk1 hk3
    have hk : ¬ (k < 1 ∨ k > 3) := by omega
    have hn2 : ¬ (n < 1 ∨ n > c) := by omega
    by_cases h20 : c - n ≤ 20
    · have hsub : Pile.subAssign ⟨c⟩ n = .ok ⟨c - n⟩ := by
        rw [subAssign_eq, if_pos ⟨by omega, h20⟩]
      simp only [CmdTake_checked, ha, hb, hk, if_false, getPile, hget, bind, Except.bind,
        Pile.eq32, decide_eq_true_eq, hc, Pile.toInt32, hn2, hsub, setPile, hP, pure,
        Except.pure] at h
      exact (turnFuel_enough 0 _).2.2.1 h
    · have hsub : Pile.subAssign ⟨c⟩ n = .error .assertion := by
        rw [subAssign_eq, if_neg (fun hh => h20 hh.2)]
      simp only [CmdTake_checked, ha, hb, hk, if_false, getPile, hget, bind, Except.bind,
        Pile.eq32, decide_eq_true_eq, hc, Pile.toInt32, hn2, hsub] at h
      cases h
  · obtain ⟨line, -, hl⟩ := CmdTake_checked_rejected env s a b hacc
    rw [hl] at h
    cases h

theorem CmdTake_not_fuel (env : Env) (s : NimImpl) (cmd : String) (args : List String) :
    CmdTake env s (cmd :: args) ≠ .error .fuel := by
  have hq : ∀ text, CmdTake env s (cmd :: args) = .ok (s.print text) →
      CmdTake env s (cmd :: args) ≠ .error .fuel := by
    intro text ht h
    rw [ht] at h
    cases h
  match args, hq with
  | [], hq => exact hq _ (CmdTake_one env s cmd)
  | [a], hq => exact hq _ (CmdTake_two env s cmd a)
  | [a, b], hq =>
    by_cases hf : lowercase b = "from"
    · exact hq _ (CmdTake_three_from env s cmd a b hf)
    · rw [CmdTake_three _ _ _ _ _ hf]
      exact CmdTake_checked_not_fuel env s a b
  | [a, f, b], hq =>
    by_cases hf : lowercase f = "from"
    · rw [CmdTake_four_from _ _ _ _ _ _ hf]
      exact CmdTake_checked_not_fuel env s a b
    · exact hq _ (CmdTake_four env s cmd a f b hf)
  | a :: f :: b :: d :: more, hq => exact hq _ (CmdTake_many env s cmd a f b d more)

theorem CmdRestart_not_fuel (env : Env) (s : NimImpl) (cmd : String) (rest : List String) :
    CmdRestart env s (cmd :: rest) ≠ .error .fuel := by
  intro h
  cases hr : CmdRestart env s (cmd :: rest) with
  | ok r => rw [hr] at h; cases h
  | error e =>
    rw [hr] at h
    simp only [Except.error.injEq] at h
    subst h
    match rest, hr with
    | [], hr => cases hr
    | [a], hr =>
      by_cases hh : lowercase a = "human"
      · have h1 : Restart env ({ s with CPU := false }.print "----\n") = .error .fuel := by
          simpa [CmdRestart, hh] using hr
        exact (turnFuel_enough 0 _).2.2.2 h1
      · by_cases hc : lowercase a = "cpu"
        · have h1 : Restart env ({ s with CPU := true }.print "----\n") = .error .fuel := by
            simpa [CmdRestart, hh, hc] using hr
          exact (turnFuel_enough 0 _).2.2.2 h1
        · simp [CmdRestart, hh, hc] at hr
    | a :: b :: more, hr => simp [CmdRestart] at hr

theorem trigger_not_fuel (env : Env) (s : NimImpl) (line : String) :
    trigger env s line ≠ .error .fuel := by
  intro h
  cases hr : trigger env s line with
  | ok r => rw [hr] at h; cases h
  | error e =>
    rw [hr] at h
    simp only [Except.error.injEq] at h
    subst h
    rw [trigger_eq_dispatch] at hr
    unfold dispatchRef at hr
    cases hsplit : split line with
    | nil => rw [hsplit] at hr; cases hr
    | cons token rest =>
      rw [hsplit] at hr
      simp only at hr
      cases hf : fixedHandler (lowercase token) with
      | none =>
        rw [hf] at hr
        simp only at hr
        cases hp : env.parse_integral (lowercase token) with
        | none => rw [hp] at hr; cases hr
        | some v =>
          rw [hp] at hr
          exact CmdTake_not_fuel env s _ _ hr
      | some handler =>
        rw [hf] at hr
        simp only at hr
        unfold fixedHandler at hf
        split_ifs at hf with h1 h2 h3 h4 h5 h6 h7 h8 h9 <;>
          simp only [Option.some.injEq] at hf <;> subst hf
        · unfold CmdHelp at hr
          simp only at hr
          split_ifs at hr
        · unfold CmdShow at hr
          simp only at hr
          split at hr
          · cases hr
          · obtain ⟨text, ht⟩ := CmdShow_args_ok env s ((token :: rest).drop 1) ""
            simp only [ht, bind, Except.bind, pure, Except.pure] at hr
            cases hr
        · exact CmdTake_not_fuel env s _ _ hr
        · unfold CmdName at hr
          simp only at hr
          split_ifs at hr
        · cases hr
        · exact CmdRestart_not_fuel env s _ _ hr
        · cases hr
        · cases hr
        · unfold CmdColor at hr
          simp only at hr
          split at hr
          · cases hr
          · split at hr
            · cases hr
            · split at hr <;> cases hr

/-- C24: handling a line ends: (1) `trigger` never stops for lack of nested calls, and
the turn functions give the same result with any allowance of nested calls from 5
(`NextTurn`) or 4 (`StartTurn`) on, so the recursion `NextTurn`, `StartTurn`, `CPUTurn`,
`NextTurn` is at most that deep; (2) counting the removals of `CPUTurn` changes no result,
and a call of `NextTurn` or `StartTurn` that returns has made at most one removal for the
CPU, and none when the opponent is not the CPU; (3) a handled line either leaves piles and
turn as they were, or is a take in order, which runs `NextTurn` once, with at most one
removal for the CPU and none against a human, or is a restart in order, which runs
`StartTurn` once in the mode asked for, with at most one removal for the CPU and none
when the mode asked for is human. -/
theorem C24_line_ends_with_at_most_one_cpu_move (env : Env) (s : NimImpl) (line : String) :
    trigger env s line ≠ .error .fuel ∧
    (∀ fuel (t : NimImpl),
      NextTurn (fuel + 5) t = NextTurn 5 t ∧ StartTurn (fuel + 4) t = StartTurn 4 t ∧
      NextTurn turnFuel t ≠ .error .fuel ∧ StartTurn turnFuel t ≠ .error .fuel) ∧
    (∀ fuel (t : NimImpl),
      (NextTurn_moves fuel t).map Prod.fst = NextTurn fuel t ∧
      (StartTurn_moves fuel t).map Prod.fst = StartTurn fuel t ∧
      (CPUTurn_moves fuel t).map Prod.fst = CPUTurn fuel t) ∧
    (∀ fuel (t r : NimImpl) n, NextTurn_moves (fuel + 5) t = .ok (r, n) →
      n ≤ 1 ∧ (t.CPU = false → n = 0)) ∧
    (∀ fuel (t r : NimImpl) n, StartTurn_moves (fuel + 4) t = .ok (r, n) →
      n ≤ 1 ∧ (t.CPU = false → n = 0)) ∧
    (∀ r, trigger env s line = .ok r →
      (r.Piles = s.Piles ∧ r.Player1Turn = s.Player1Turn) ∨
      (∃ num k c P n, LineTakes env s line num k c ∧
        s.Piles.set (k - 1) ⟨c - num⟩ = .ok P ∧
        NextTurn_moves turnFuel { s with Piles := P } = .ok (r, n) ∧
        n ≤ 1 ∧ (s.CPU = false → n = 0) ∧ r.CPU = s.CPU) ∨
      (∃ flag n, restartsMatch line = true ∧
        StartTurn_moves turnFuel
          (((({ s with CPU := flag } : NimImpl).print "----\n").Rnd env).DecideTurn env)
          = .ok (r, n) ∧
        n ≤ 1 ∧ (flag = false → n = 0) ∧ r.CPU = flag)) := by
  refine ⟨trigger_not_fuel env s line, ?_, ?_, ?_, ?_, ?_⟩
  · intro fuel t
    exact turnFuel_enough fuel t
  · intro fuel t
    exact ⟨(moves_erase fuel t).2.2, (moves_erase fuel t).1, (moves_erase fuel t).2.1⟩
  · intro fuel t r n h
    exact ⟨(NextTurn_moves_count fuel t r n h).1, (NextTurn_moves_count fuel t r n h).2.1⟩
  · intro fuel t r n h
    exact ⟨(StartTurn_moves_count fuel t r n h).1, (StartTurn_moves_count fuel t r n h).2.1⟩
  · intro r h
    rcases trigger_cases env s r line h with ⟨extra, rfl⟩ | ⟨-, hp, ht⟩ | rfl |
      ⟨num, k, c, P, htake, hP, hnext⟩ | ⟨hre, flag, hrs⟩
    · exact Or.inl ⟨rfl, rfl⟩
    · exact Or.inl ⟨hp, ht⟩
    · exact Or.inl ⟨rfl, rfl⟩
    · obtain ⟨n, hn⟩ := NextTurn_moves_of_ok turnFuel _ r hnext
      obtain ⟨h1, h2, h3⟩ := NextTurn_moves_count 3 _ r n hn
      exact Or.inr (Or.inl ⟨num, k, c, P, n, htake, hP, hn, h1, h2, h3⟩)
    · have hrs1 : StartTurn turnFuel
          (((({ s with CPU := flag } : NimImpl).print "----\n").Rnd env).DecideTurn env)
          = .ok r := hrs
      obtain ⟨n, hn⟩ := StartTurn_moves_of_ok turnFuel _ r hrs1
      obtain ⟨h1, h2, -, h4⟩ := StartTurn_moves_count 4 _ r n hn
      exact Or.inr (Or.inr ⟨flag, n, hre, hn, h1, h2, h4⟩)

/-- C24, worked examples: against the CPU, `take 2 from 1` on `(11, 12, 15)` is answered
by one move of the CPU; against a human the same line is answered by none. -/
theorem C24_line_ends_with_at_most_one_cpu_move_witness :
    NextTurn_moves turnFuel (game 9 12 15 true true)
      = .ok ({ game 3 12 15 true true with
          Prompt := "player1> ",
          Out := ["  9  12  15\n", "cpu> take 6 from 1\n", "  3  12  15\n"] }, 1) ∧
    NextTurn_moves turnFuel (game 9 12 15 false true)
      = .ok ({ game 9 12 15 false false with
          Prompt := "player2> ",
          Out := ["  9  12  15\n"] }, 0) ∧
    trigger exampleEnv (game 11 12 15 true true) "take 2 from 1" ≠ .error .fuel :=
  ⟨by decide, by decide,
    (C24_line_ends_with_at_most_one_cpu_move exampleEnv (game 11 12 15 true true)
      "take 2 from 1").1⟩

end Termination

section NeverWaits

open NimImpl

/-- Against the CPU, `StartTurn` returns either on player 1's turn or with the game won
by the CPU. -/
theorem StartTurn_turn (fuel : Nat) (t u : NimImpl) (hc : t.CPU = true)
    (h : StartTurn (fuel + 4) t = .ok u) :
    u.CPU = true ∧
    (u.Player1Turn = true ∨
      (t.Player1Turn = false ∧ u.ConsoleQuit = true ∧ AllZero u.Piles)) := by
  rcases StartTurn_cases fuel t u h with ⟨hg, rfl⟩ | ⟨hg, v, hm, rfl⟩
  · refine ⟨hc, Or.inl ?_⟩
    rw [hc] at hg
    show t.Player1Turn = true
    cases hp : t.Player1Turn
    · rw [hp] at hg; simp at hg
    · rfl
  · have hp : t.Player1Turn = false := by
      cases hh : t.Player1Turn
      · rfl
      · rw [hh] at hg; simp at hg
    obtain ⟨Q, num, j, hv⟩ := CPUTurn_move_line _ _ hm
    have hvp : v.Player1Turn = false := by rw [hv]; exact hp
    have hvc : v.CPU = true := by rw [hv]; exact hc
    cases hg2 : v.GameOver
    · refine ⟨hvc, Or.inl ?_⟩
      show xor v.Player1Turn true = true
      rw [hvp]
      rfl
    · refine ⟨?_, Or.inr ⟨hp, ?_, ?_⟩⟩
      · show v.announceWinner.CPU = true
        rw [announceWinner_eq]
        exact hvc
      · show v.announceWinner.ConsoleQuit = true
        rw [announceWinner_eq]
      · show AllZero v.announceWinner.Piles
        rw [announceWinner_Piles]
        exact (GameOver_iff v).1 hg2

/-- C25: against the CPU (`CPU` true), with player 1 to move: after any line the
interpreter handles that leaves the opponent the CPU and does not end the interactive
loop, it is player 1's turn again.  And whenever `StartTurn` is called on a game against
the CPU and returns, the opponent is still the CPU and either it is player 1's turn or
the CPU has just emptied the piles and the loop is ended; so it is player 1's turn
whenever it was already, or some pile is left. -/
theorem C25_cpu_never_waits (env : Env) (s r : NimImpl) (line : String)
    (hc : s.CPU = true) (hp : s.Player1Turn = true) (h : trigger env s line = .ok r)
    (hrc : r.CPU = true) (hq : r.ConsoleQuit = false) :
    r.Player1Turn = true ∧
    ∀ fuel (t u : NimImpl), t.CPU = true → StartTurn (fuel + 4) t = .ok u →
      u.CPU = true ∧
      (u.Player1Turn = true ∨
        (t.Player1Turn = false ∧ u.ConsoleQuit = true ∧ AllZero u.Piles)) ∧
      (t.Player1Turn = true ∨ ¬ AllZero u.Piles → u.Player1Turn = true) := by
  refine ⟨?_, ?_⟩
  · rcases trigger_cases env s r line h with ⟨extra, rfl⟩ | ⟨-, -, ht⟩ | rfl |
      ⟨num, k, c, P, -, -, hnext⟩ | ⟨-, flag, hrs⟩
    · exact hp
    · rw [ht]; exact hp
    · exact hp
    · rcases NextTurn_cases 3 _ r hnext with ⟨-, rfl⟩ | ⟨-, hs⟩
      · rw [announceWinner_eq]
        exact hp
      · have hc1 : ({ s with Piles := P } : NimImpl).SwitchTurn.CPU = true := hc
        rcases (StartTurn_turn 3 _ r hc1 hs).2 with h1 | ⟨-, h2, -⟩
        · exact h1
        · rw [h2] at hq
          cases hq
    · have hrs1 : StartTurn (4 + 4)
          (((({ s with CPU := flag } : NimImpl).print "----\n").Rnd env).DecideTurn env)
          = .ok r := hrs
      have hfl : r.CPU = flag := by
        obtain ⟨n, hn⟩ := StartTurn_moves_of_ok (4 + 4) _ r hrs1
        exact (StartTurn_moves_count 4 _ r n hn).2.2.2
      have hc1 : (((({ s with CPU := flag } : NimImpl).print "----\n").Rnd env).DecideTurn
          env).CPU = true := by
        show flag = true
        rw [← hfl]
        exact hrc
      rcases (StartTurn_turn 4 _ r hc1 hrs1).2 with h1 | ⟨-, h2, -⟩
      · exact h1
      · rw [h2] at hq
        cases hq
  · intro fuel t u htc hst
    obtain ⟨h1, h2⟩ := StartTurn_turn fuel t u htc hst
    refine ⟨h1, h2, ?_⟩
    intro h3
    rcases h2 with h2 | ⟨h4, -, h5⟩
    · exact h2
    · rcases h3 with h3 | h3
      · rw [h4] at h3; cases h3
      · exact absurd h5 h3

/-- C25, worked example: against the CPU on `(11, 12, 15)`, after `take 2 from 1` and
the answer of the CPU it is player 1's turn. -/
theorem C25_cpu_never_waits_witness :
    trigger exampleEnv (game 11 12 15 true true) "take 2 from 1"
      = .ok { game 3 12 15 true true with
          Prompt := "player1> ",
          Out := ["  9  12  15\n", "cpu> take 6 from 1\n", "  3  12  15\n"] } ∧
    ({ game 3 12 15 true true with
        Prompt := "player1> ",
        Out := ["  9  12  15\n", "cpu> take 6 from 1\n", "  3  12  15\n"] }
      : NimImpl).Player1Turn = true :=
  ⟨by decide,
    (C25_cpu_never_waits exampleEnv (game 11 12 15 true true)
      { game 3 12 15 true true with
        Prompt := "player1> ",
        Out := ["  9  12  15\n", "cpu> take 6 from 1\n", "  3  12  15\n"] }
      "take 2 from 1" (by decide) (by decide) (by decide) (by decide) (by decide)).1⟩

end NeverWaits

section FreshGame

open NimImpl

/-- C5: the claim fails on the code.  From the freshly randomized piles `(13, 10, 17)`,
against the CPU with player 1 to move, the line `take 10 from 3` is a take in order and
leaves `(13, 10, 7)`, counts in `[0, 20]` and nim-sum 0, to the CPU; the main loop of
`CPUTurn` finds no move and the scan of its fallback reads `Piles[3]`, where the run
leaves defined behaviour and the embedding stops.  The program goes on from that read
with the `int32` stored behind the array: the line of `CPUTake(1, 3)` names pile 4, and
`Piles[3] -= 1` fails the assertion of `operator-=` whenever that value is above 21.  The
states that runs from freshly randomized piles do return have their piles in `[0, 20]`. -/
theorem C5_fresh_game_meets_fallback :
    FreshPiles (game 13 10 17 true true).Piles ∧
    LineTakes exampleEnv (game 13 10 17 true true) "take 10 from 3" 10 3 17 ∧
    PilesInRange (game 13 10 7 true false).Piles ∧
    nimSum (game 13 10 7 true false).Piles = 0 ∧
    (game 13 10 7 true false).CPUTurn_move = .error (.outOfBounds 3) ∧
    run exampleEnv (game 13 10 17 true true) ["take 10 from 3"] = .error (.outOfBounds 3) ∧
    cpuTakeLine (game 13 10 7 true false) 1 3 = "cpu> take 1 from 4\n" ∧
    (∀ v : Int, 21 < v → Pile.subAssign ⟨v⟩ 1 = .error .assertion) ∧
    (∀ (env : Env) (s0 s : NimImpl) (lines : List String), FreshPiles s0.Piles →
      run env s0 lines = .ok s → PilesInRange s.Piles) := by
  refine ⟨by decide, by decide, by decide, by decide, by decide, by decide, by decide, ?_, ?_⟩
  · intro v hv
    rw [subAssign_eq, if_neg (by omega)]
  · intro env s0 s lines h0 hs
    have h := run_safe env lines s0 (fresh_inRange _ h0)
    rw [hs] at h
    exact h

end FreshGame

end Nim
